import Mathlib

/-!
# Certificate-bundle validation subsystem of ndn-cxx: wire codec and bundle naming

A shallow embedding of `src/interest.hpp` (the Interest wire codec with its
memoised block) and of `Validator::deriveBundleName` / `checkKeyBundle` in
`src/security/validator.cpp`, together with the theorems that settle the
specification's statements about them.

Bytes are natural numbers below 256, a buffer is a list of bytes, machine
integers are `Nat`/`Int` with explicit wrap-around at the C++ conversions.
Code of the library that the repository snapshot does not contain (the TLV
primitives, `Block`, `Name`, `Selectors`) is either modelled from the
specification, in definitions marked as such, or taken as a parameter.
-/

namespace ndn

/-! ## Errors and TLV type numbers -/

/-- The specification's `codec-error`: what the C++ code raises as `Tlv::Error`
(and `Block::Error`) while encoding or decoding. -/
inductive Error where
  | codecError
  deriving DecidableEq, Repr

namespace Tlv

/-- Modelled from the spec: `tlv.hpp` is not part of the snapshot; the type numbers
are those of the specification's wire formats (`Interest := T=0x05`, `Name := T=0x07`,
`Component := T=0x08`, `Selectors := T=0x09`, `Nonce := T=0x0A`, `Scope := T=0x0B`,
`Lifetime := T=0x0C`). -/
def Interest : Nat := 5

/-- Modelled from the spec: `Name := T=0x07`. -/
def Name : Nat := 7

/-- Modelled from the spec: `Component := T=0x08` (generic name component). -/
def NameComponent : Nat := 8

/-- Modelled from the spec: `Selectors := T=0x09`. -/
def Selectors : Nat := 9

/-- Modelled from the spec: `Nonce := T=0x0A`. -/
def Nonce : Nat := 10

/-- Modelled from the spec: `Scope := T=0x0B`. -/
def Scope : Nat := 11

/-- Modelled from the spec: `Lifetime := T=0x0C`. -/
def InterestLifetime : Nat := 12

/-- Modelled from the spec: the typed component kind `ImplicitSha256DigestComponent`
("other T values for typed"); the NDN packet specification gives it type 1. -/
def ImplicitSha256DigestComponent : Nat := 1

end Tlv

/-- The constant `DEFAULT_INTEREST_LIFETIME` of `interest.hpp`, in milliseconds. -/
def DEFAULT_INTEREST_LIFETIME : Int := 4000

/-! ## TLV primitives -/

/-- The `k` low-order bytes of `n`, most significant first. -/
def beBytes : Nat → Nat → List Nat
  | 0, _ => []
  | k + 1, n => (n / 256 ^ k) % 256 :: beBytes k n

/-- The number a big-endian byte string stands for. -/
def fromBE (bs : List Nat) : Nat :=
  bs.foldl (fun acc b => acc * 256 + b) 0

/-- An encoding buffer (`EncodingImpl<true>`): the bytes written so far; the encoder
works tail-first, so every operation prepends. -/
abbrev EncodingBuffer := List Nat

/-- Modelled from the spec: `EncodingImpl::prependVarNumber` (the TLV primitive codec is
not part of the snapshot). A var-number below 253 is one byte; otherwise a marker byte
253, 254 or 255 is followed by the number in 2, 4 or 8 bytes, big-endian. Returns the
number of bytes written and the new buffer. -/
def prependVarNumber (block : EncodingBuffer) (n : Nat) : Nat × EncodingBuffer :=
  if n < 253 then (1, n :: block)
  else if n ≤ 0xFFFF then (3, 253 :: (beBytes 2 n ++ block))
  else if n ≤ 0xFFFFFFFF then (5, 254 :: (beBytes 4 n ++ block))
  else (9, 255 :: (beBytes 8 n ++ block))

/-- Modelled from the spec: `EncodingImpl::prependNonNegativeInteger`: the number in the
shortest of 1, 2, 4 or 8 bytes, big-endian. Returns the number of bytes written and the
new buffer. -/
def prependNonNegativeInteger (block : EncodingBuffer) (n : Nat) : Nat × EncodingBuffer :=
  if n ≤ 0xFF then (1, beBytes 1 n ++ block)
  else if n ≤ 0xFFFF then (2, beBytes 2 n ++ block)
  else if n ≤ 0xFFFFFFFF then (4, beBytes 4 n ++ block)
  else (8, beBytes 8 n ++ block)

/-- Modelled from the spec: `prependNonNegativeIntegerBlock(block, type, value)`, the
encoder operation the specification names: the value, then its length, then the type,
each prepended; the sum of the three sizes is returned. -/
def prependNonNegativeIntegerBlock (block : EncodingBuffer) (type number : Nat) :
    Nat × EncodingBuffer :=
  let v := prependNonNegativeInteger block number
  let l := prependVarNumber v.2 v.1
  let t := prependVarNumber l.2 type
  (v.1 + l.1 + t.1, t.2)

/-- Modelled from the spec: `Tlv::readVarNumber`, the inverse of `prependVarNumber`:
reads one var-number from the front of the bytes and returns it with the remaining
bytes; fails when the bytes end too early. -/
def readVarNumber : List Nat → Except Error (Nat × List Nat)
  | [] => .error .codecError
  | b :: rest =>
    if b < 253 then .ok (b, rest)
    else if b = 253 then
      if rest.length < 2 then .error .codecError else .ok (fromBE (rest.take 2), rest.drop 2)
    else if b = 254 then
      if rest.length < 4 then .error .codecError else .ok (fromBE (rest.take 4), rest.drop 4)
    else
      if rest.length < 8 then .error .codecError else .ok (fromBE (rest.take 8), rest.drop 8)

/-- A TLV element (`Block`): its type number and the bytes of its value. -/
structure Block where
  type : Nat
  value : List Nat
  deriving DecidableEq, Repr

/-- The loop of `Block::parse`: splits the bytes of a value into TLV elements. Fails
when a type or length cannot be read or when a nested element overruns the value
(`codec-error`). The first argument bounds the number of elements read; the length of
the byte string is always enough, see `parseElements_fuel`. -/
def parseElements : Nat → List Nat → Except Error (List Block)
  | _, [] => .ok []
  | 0, _ :: _ => .error .codecError
  | fuel + 1, b :: bs =>
    match readVarNumber (b :: bs) with
    | .error e => .error e
    | .ok (t, r1) =>
      match readVarNumber r1 with
      | .error e => .error e
      | .ok (len, r2) =>
        if r2.length < len then .error .codecError
        else
          match parseElements fuel (r2.drop len) with
          | .error e => .error e
          | .ok es => .ok (⟨t, r2.take len⟩ :: es)

/-- Modelled from the spec: `Block::parse` (`block.hpp` is not part of the snapshot): the
sub-elements of a block, read from its value. -/
def Block.parse (b : Block) : Except Error (List Block) :=
  parseElements b.value.length b.value

/-- Modelled from the spec: `Block::find(type)` on the parsed elements: the first
element of that type, `none` standing for `elements_end()`. -/
def findElement (es : List Block) (type : Nat) : Option Block :=
  es.find? (fun e => e.type == type)

/-- Modelled from the spec: `Block::get(type)` on the parsed elements: the first
element of that type; raises when there is none. -/
def getElement (es : List Block) (type : Nat) : Except Error Block :=
  match findElement es type with
  | some e => .ok e
  | none => .error .codecError

/-- Modelled from the spec: `readNonNegativeInteger(block)`: the value of the block read
as a big-endian number; only values of 1, 2, 4 or 8 bytes are accepted. -/
def readNonNegativeInteger (b : Block) : Except Error Nat :=
  if b.value.length = 1 ∨ b.value.length = 2 ∨ b.value.length = 4 ∨ b.value.length = 8 then
    .ok (fromBE b.value)
  else .error .codecError

/-- Modelled from the spec: `EncodingBuffer::block()`: the buffer read as one TLV
element; the declared length has to be the number of bytes that follow. -/
def EncodingBuffer.block (buf : EncodingBuffer) : Except Error Block :=
  match readVarNumber buf with
  | .error e => .error e
  | .ok (t, r1) =>
    match readVarNumber r1 with
    | .error e => .error e
    | .ok (len, r2) =>
      if len = r2.length then .ok ⟨t, r2⟩ else .error .codecError

/-- The bytes of a var-number (what `prependVarNumber` writes). -/
def encodeVarNumber (n : Nat) : List Nat := (prependVarNumber [] n).2

/-- The bytes of a non-negative integer (what `prependNonNegativeInteger` writes). -/
def encodeNonNegativeInteger (n : Nat) : List Nat := (prependNonNegativeInteger [] n).2

/-- The bytes of one TLV element: type, length of the value, value. -/
def tlvBytes (type : Nat) (value : List Nat) : List Nat :=
  encodeVarNumber type ++ (encodeVarNumber value.length ++ value)

/-- The bytes of a sequence of TLV elements, one after the other. -/
def encodeElements (es : List Block) : List Nat :=
  es.flatMap (fun e => tlvBytes e.type e.value)

instance instDecidableEqExcept {ε α : Type} [DecidableEq ε] [DecidableEq α] :
    DecidableEq (Except ε α)
  | .ok a, .ok b => if h : a = b then isTrue (by rw [h]) else isFalse (fun h2 => h (by cases h2; rfl))
  | .error a, .error b =>
    if h : a = b then isTrue (by rw [h]) else isFalse (fun h2 => h (by cases h2; rfl))
  | .ok _, .error _ => isFalse (fun h => by cases h)
  | .error _, .ok _ => isFalse (fun h => by cases h)

/-! ## Machine-integer conversions -/

/-- Conversion of a signed C++ integer to `uint64_t` (an argument of
`prependNonNegativeIntegerBlock`): the value modulo `2^64`. -/
def toUInt64 (x : Int) : Nat := (x % 2 ^ 64).toNat

/-- Conversion of a `uint64_t` to `uint32_t` (the nonce): the value modulo `2^32`. -/
def toUInt32 (n : Nat) : Nat := n % 2 ^ 32

/-- Conversion of a `uint64_t` to `int` (the scope): modulo `2^32`, read as signed. -/
def toInt32 (n : Nat) : Int :=
  if n % 2 ^ 32 < 2 ^ 31 then ((n % 2 ^ 32 : Nat) : Int) else ((n % 2 ^ 32 : Nat) : Int) - 2 ^ 32

/-- Conversion of a `uint64_t` to `Milliseconds` (the lifetime): modulo `2^64`, read as
signed. -/
def toInt64 (n : Nat) : Int :=
  if n % 2 ^ 64 < 2 ^ 63 then ((n % 2 ^ 64 : Nat) : Int) else ((n % 2 ^ 64 : Nat) : Int) - 2 ^ 64

/-! ## Names -/

/-- Modelled from the spec: a name component, "a typed, opaque byte string"
(`name-component.hpp` is not part of the snapshot): its TLV type and its bytes. -/
structure Component where
  type : Nat
  value : List Nat
  deriving DecidableEq, Repr

/-- Modelled from the spec: a name, "an ordered sequence of Components" (`name.hpp` is
not part of the snapshot). -/
abbrev Name := List Component

/-- Modelled from the spec: `Component::isNumberWithMarker`, the naming convention behind
the `SegmentComponent` kind: a marker byte followed by a non-negative integer of 1, 2, 4
or 8 bytes. -/
def Component.isNumberWithMarker (c : Component) (marker : Nat) : Bool :=
  c.value.head? == some marker &&
    (c.value.length == 2 || c.value.length == 3 || c.value.length == 5 || c.value.length == 9)

/-- Modelled from the spec: `Component::isSegment`: a number with the segment marker
`0x00`. -/
def Component.isSegment (c : Component) : Bool :=
  c.isNumberWithMarker 0

/-- Modelled from the spec: `Component::isImplicitSha256Digest`: a component of the
implicit-digest type that holds the 32 bytes of a SHA-256 digest. -/
def Component.isImplicitSha256Digest (c : Component) : Bool :=
  c.type == Tlv.ImplicitSha256DigestComponent && c.value.length == 32

/-- Modelled from the spec: `Component::fromNumberWithMarker`: a generic component whose
value is the marker followed by the number as a non-negative integer. -/
def Component.fromNumberWithMarker (marker number : Nat) : Component :=
  ⟨Tlv.NameComponent, marker :: encodeNonNegativeInteger number⟩

/-- Modelled from the spec: `Component::fromSegment`, the segment component of a
(64-bit) segment number. -/
def Component.fromSegment (segmentNo : Nat) : Component :=
  Component.fromNumberWithMarker 0 segmentNo

/-- The reserved literal component `"BUNDLE"`: a generic component holding the six
ASCII bytes of the word. -/
def Component.BUNDLE : Component :=
  ⟨Tlv.NameComponent, [66, 85, 78, 68, 76, 69]⟩

/-- Modelled from the spec: `Name::get(i)`; a negative index counts from the end
(`get(-1)` is the last component). The C++ accessor does not check the range; `none`
stands for a read of a component that does not exist. -/
def Name.get (name : Name) (i : Int) : Option Component :=
  if 0 ≤ i then name[i.toNat]?
  else if name.length < (-i).toNat then none
  else name[name.length - (-i).toNat]?

/-- Modelled from the spec: `Name::getPrefix(n)`; for a negative argument the name
without its last `-n` components (the whole name when it has fewer than that, as
`getSubName` clamps the range). -/
def Name.getPrefix (name : Name) (nComponents : Int) : Name :=
  if 0 ≤ nComponents then name.take nComponents.toNat
  else if name.length < (-nComponents).toNat then name
  else name.take (name.length - (-nComponents).toNat)

/-- Modelled from the spec: `Name::append(component)`. -/
def Name.append (name : Name) (c : Component) : Name :=
  name ++ [c]

/-- Modelled from the spec: `Name::appendSegment(segmentNo)`. -/
def Name.appendSegment (name : Name) (segmentNo : Nat) : Name :=
  Name.append name (Component.fromSegment segmentNo)

/-! ## Selectors -/

/-- Modelled from the spec: an entry of the exclude filter (`exclude.hpp` is not part
of the snapshot): a component, or the `ANY` marker that opens a range. -/
inductive ExcludeEntry where
  | any
  | component (c : Component)
  deriving DecidableEq, Repr

/-- Modelled from the spec: the exclude filter of the selectors. -/
abbrev Exclude := List ExcludeEntry

/-- Modelled from the spec: the selectors of an Interest (`selectors.hpp` is not part
of the snapshot): "min/max suffix count, exclude filter, childSelector, mustBeFresh
flag"; the integer fields hold -1 when unset. -/
structure Selectors where
  m_minSuffixComponents : Int
  m_maxSuffixComponents : Int
  m_exclude : Exclude
  m_childSelector : Int
  m_mustBeFresh : Bool
  deriving DecidableEq, Repr

/-- Modelled from the spec: `Selectors()`, every field at its default. -/
def Selectors.default : Selectors :=
  ⟨-1, -1, [], -1, false⟩

/-- Modelled from the spec: `Selectors::empty`: the selectors are "omitted if all
defaults", "encoded only if any field deviates from default". -/
def Selectors.empty (s : Selectors) : Bool :=
  s == Selectors.default

/-- The wire codecs of `Name` and `Selectors`. `interest.hpp` calls them
(`getName().wireEncode(block)`, `m_name.wireDecode(...)`, and the same for the
selectors) but the snapshot does not contain them, so they are parameters of the
Interest codec: each encoder gives the bytes it prepends to the buffer (its return
value in C++ is their number), each decoder reads one block or raises. -/
structure SubCodecs where
  nameEncode : Name → List Nat
  nameDecode : Block → Except Error Name
  selectorsEncode : Selectors → List Nat
  selectorsDecode : Block → Except Error Selectors

/-! ## Interest (`src/interest.hpp`) -/

/-- The class `Interest`. `Milliseconds` is taken to be a signed 64-bit integer (its
declaration is not part of the snapshot); `m_wire` is `none` when the block has no
wire (`hasWire()` is false). -/
structure Interest where
  m_name : Name
  m_selectors : Selectors
  m_nonce : Nat
  m_scope : Int
  m_interestLifetime : Int
  m_wire : Option Block
  m_incomingFaceId : Nat
  deriving DecidableEq, Repr

namespace Interest

/-- The constructor `Interest(name, selectors, scope, interestLifetime, nonce)`. The member
`m_incomingFaceId` is left uninitialised by the constructor; `faceId` is the value it
happens to hold. -/
def mk5 (name : Name) (selectors : Selectors) (scope : Int) (interestLifetime : Int)
    (nonce : Nat) (faceId : Nat) : Interest :=
  { m_name := name, m_selectors := selectors, m_nonce := nonce, m_scope := scope,
    m_interestLifetime := interestLifetime, m_wire := none, m_incomingFaceId := faceId }

/-- The constructor `Interest()`: an empty name and "none" for all values. -/
def mk0 (faceId : Nat) : Interest :=
  { m_name := [], m_selectors := Selectors.default, m_nonce := 0, m_scope := -1,
    m_interestLifetime := -1, m_wire := none, m_incomingFaceId := faceId }

/-- The constructor `Interest(name)`: the given name and "none" for the other values. -/
def mk1 (name : Name) (faceId : Nat) : Interest :=
  { m_name := name, m_selectors := Selectors.default, m_nonce := 0, m_scope := -1,
    m_interestLifetime := -1, m_wire := none, m_incomingFaceId := faceId }

/-- The constructor `Interest(name, interestLifetime)`. -/
def mk2 (name : Name) (interestLifetime : Int) (faceId : Nat) : Interest :=
  { m_name := name, m_selectors := Selectors.default, m_nonce := 0, m_scope := -1,
    m_interestLifetime := interestLifetime, m_wire := none, m_incomingFaceId := faceId }

def getName (self : Interest) : Name := self.m_name

def setName (self : Interest) (name : Name) : Interest :=
  { self with m_name := name, m_wire := none }

def getSelectors (self : Interest) : Selectors := self.m_selectors

def setSelectors (self : Interest) (selectors : Selectors) : Interest :=
  { self with m_selectors := selectors, m_wire := none }

def getScope (self : Interest) : Int := self.m_scope

def setScope (self : Interest) (scope : Int) : Interest :=
  { self with m_scope := scope, m_wire := none }

def getInterestLifetime (self : Interest) : Int := self.m_interestLifetime

def setInterestLifetime (self : Interest) (interestLifetime : Int) : Interest :=
  { self with m_interestLifetime := interestLifetime, m_wire := none }

/-- Modelled from the spec: `Interest::getNonce() const`, declared in `interest.hpp`
with its body outside the snapshot: "If nonce was not set before this call, it will be
automatically assigned to a random value". `rnd` is the 32-bit word the random
generator returns when it is asked; the nonce member is `mutable`, so the call also
gives the object after it. -/
def getNonce (rnd : Nat) (self : Interest) : Nat × Interest :=
  if self.m_nonce = 0 then (toUInt32 rnd, { self with m_nonce := toUInt32 rnd })
  else (self.m_nonce, self)

def setNonce (self : Interest) (nonce : Nat) : Interest :=
  { self with m_nonce := nonce, m_wire := none }

def getIncomingFaceId (self : Interest) : Nat := self.m_incomingFaceId

def setIncomingFaceId (self : Interest) (incomingFaceId : Nat) : Interest :=
  { self with m_incomingFaceId := incomingFaceId }

def setMinSuffixComponents (self : Interest) (minSuffixComponents : Int) : Interest :=
  { self with
    m_selectors := { self.m_selectors with m_minSuffixComponents := minSuffixComponents },
    m_wire := none }

def setMaxSuffixComponents (self : Interest) (maxSuffixComponents : Int) : Interest :=
  { self with
    m_selectors := { self.m_selectors with m_maxSuffixComponents := maxSuffixComponents },
    m_wire := none }

def setExclude (self : Interest) (exclude : Exclude) : Interest :=
  { self with m_selectors := { self.m_selectors with m_exclude := exclude }, m_wire := none }

def setChildSelector (self : Interest) (childSelector : Int) : Interest :=
  { self with m_selectors := { self.m_selectors with m_childSelector := childSelector },
              m_wire := none }

def setMustBeFresh (self : Interest) (mustBeFresh : Bool) : Interest :=
  { self with m_selectors := { self.m_selectors with m_mustBeFresh := mustBeFresh },
              m_wire := none }

/-- A call of one of the wire-affecting setters of `Interest`, with its argument. -/
inductive Setter where
  | setName (name : Name)
  | setSelectors (selectors : Selectors)
  | setScope (scope : Int)
  | setInterestLifetime (interestLifetime : Int)
  | setNonce (nonce : Nat)
  | setMinSuffixComponents (minSuffixComponents : Int)
  | setMaxSuffixComponents (maxSuffixComponents : Int)
  | setExclude (exclude : Exclude)
  | setChildSelector (childSelector : Int)
  | setMustBeFresh (mustBeFresh : Bool)
  deriving DecidableEq, Repr

/-- The object after the setter call. -/
def Setter.apply : Setter → Interest → Interest
  | .setName name, self => self.setName name
  | .setSelectors selectors, self => self.setSelectors selectors
  | .setScope scope, self => self.setScope scope
  | .setInterestLifetime interestLifetime, self => self.setInterestLifetime interestLifetime
  | .setNonce nonce, self => self.setNonce nonce
  | .setMinSuffixComponents x, self => self.setMinSuffixComponents x
  | .setMaxSuffixComponents x, self => self.setMaxSuffixComponents x
  | .setExclude exclude, self => self.setExclude exclude
  | .setChildSelector x, self => self.setChildSelector x
  | .setMustBeFresh b, self => self.setMustBeFresh b

def hasSelectors (self : Interest) : Bool := !self.m_selectors.empty

def hasGuiders (self : Interest) : Bool :=
  decide (self.m_scope ≥ 0) || decide (self.m_interestLifetime ≥ 0) || decide (self.m_nonce > 0)

/-- The method `Interest::wireEncode(EncodingImpl<T>& block) const`: prepends the Interest to the
buffer, last field first, and returns the number of bytes written together with the
new buffer; the second component is the object after the call (`getNonce` may have
assigned the nonce). With `EncodingImpl<false>` (the estimator) only the size is used. -/
def wireEncodeImpl (c : SubCodecs) (rnd : Nat) (self : Interest) (block : EncodingBuffer) :
    (Nat × EncodingBuffer) × Interest :=
  let total_len : Nat := 0
  -- InterestLifetime
  let s1 : Nat × EncodingBuffer :=
    if self.getInterestLifetime ≥ 0 ∧ self.getInterestLifetime ≠ DEFAULT_INTEREST_LIFETIME then
      let r := prependNonNegativeIntegerBlock block Tlv.InterestLifetime
        (toUInt64 self.getInterestLifetime)
      (total_len + r.1, r.2)
    else (total_len, block)
  -- Scope
  let s2 : Nat × EncodingBuffer :=
    if self.getScope ≥ 0 then
      let r := prependNonNegativeIntegerBlock s1.2 Tlv.Scope (toUInt64 self.getScope)
      (s1.1 + r.1, r.2)
    else s1
  -- Nonce
  let nonce := self.getNonce rnd
  let r3 := prependNonNegativeIntegerBlock s2.2 Tlv.Nonce nonce.1
  let s3 : Nat × EncodingBuffer := (s2.1 + r3.1, r3.2)
  -- Selectors
  let s4 : Nat × EncodingBuffer :=
    if !self.getSelectors.empty then
      let bytes := c.selectorsEncode self.getSelectors
      (s3.1 + bytes.length, bytes ++ s3.2)
    else s3
  -- Name
  let nameBytes := c.nameEncode self.getName
  let s5 : Nat × EncodingBuffer := (s4.1 + nameBytes.length, nameBytes ++ s4.2)
  let l := prependVarNumber s5.2 s5.1
  let t := prependVarNumber l.2 Tlv.Interest
  ((s5.1 + l.1 + t.1, t.2), nonce.2)

/-- The method `Interest::wireEncode() const`: the memoised block when there is one; otherwise an
estimator pass and a buffer pass of `wireEncodeImpl`, whose block is stored in `m_wire`
and returned. `rnd1` and `rnd2` are the random words available to the two passes. The
second component is the object after the call. -/
def wireEncode (c : SubCodecs) (rnd1 rnd2 : Nat) (self : Interest) :
    Except Error Block × Interest :=
  match self.m_wire with
  | some w => (.ok w, self)
  | none =>
    let estimator := self.wireEncodeImpl c rnd1 []
    let _estimatedSize := estimator.1.1
    let buffer := estimator.2.wireEncodeImpl c rnd2 []
    match EncodingBuffer.block buffer.1.2 with
    | .error e => (.error e, buffer.2)
    | .ok b => (.ok b, { buffer.2 with m_wire := some b })

/-- The method `Interest::wireDecode(const Block& wire)`. The first component tells whether the
call returned or raised; the second is the object as the call leaves it (the members
assigned before an exception keep their new values; a sub-decoder that raises is taken
to leave its member as it was). -/
def wireDecode (c : SubCodecs) (self : Interest) (wire : Block) : Except Error Unit × Interest :=
  let self := { self with m_wire := some wire }
  match wire.parse with
  | .error e => (.error e, self)
  | .ok elements =>
    if wire.type ≠ Tlv.Interest then (.error .codecError, self)
    else
      -- Name
      match getElement elements Tlv.Name with
      | .error e => (.error e, self)
      | .ok nameBlock =>
        match c.nameDecode nameBlock with
        | .error e => (.error e, self)
        | .ok name =>
          let self := { self with m_name := name }
          -- Selectors
          match (match findElement elements Tlv.Selectors with
                 | some val => c.selectorsDecode val
                 | none => .ok Selectors.default) with
          | .error e => (.error e, self)
          | .ok selectors =>
            let self := { self with m_selectors := selectors }
            -- Nonce
            match (match findElement elements Tlv.Nonce with
                   | some val => (readNonNegativeInteger val).map toUInt32
                   | none => .ok 0) with
            | .error e => (.error e, self)
            | .ok nonce =>
              let self := { self with m_nonce := nonce }
              -- Scope
              match (match findElement elements Tlv.Scope with
                     | some val => (readNonNegativeInteger val).map toInt32
                     | none => .ok (-1)) with
              | .error e => (.error e, self)
              | .ok scope =>
                let self := { self with m_scope := scope }
                -- InterestLifetime
                match (match findElement elements Tlv.InterestLifetime with
                       | some val => (readNonNegativeInteger val).map toInt64
                       | none => .ok DEFAULT_INTEREST_LIFETIME) with
                | .error e => (.error e, self)
                | .ok interestLifetime =>
                  (.ok (), { self with m_interestLifetime := interestLifetime })

/-- The nonce that `wireEncode()` writes for an object without a memoised block: the
nonce of the object, or, when that is 0, the random word `getNonce` assigns in the
estimator pass (in the buffer pass, should the first word be 0 as well). -/
def encodedNonce (rnd1 rnd2 : Nat) (self : Interest) : Nat :=
  ((self.getNonce rnd1).2.getNonce rnd2).1

/-- The specification's layout of the value of an Interest, as bytes:
`Name [Selectors] Nonce [Scope] [InterestLifetime]`, the selectors "omitted if all
defaults", the scope "present iff ≥ 0", the lifetime "present iff ≥ 0 and ≠ DEFAULT
(4000 ms)". `nonce` is the nonce that is written. -/
def layoutBytes (c : SubCodecs) (nonce : Nat) (self : Interest) : List Nat :=
  c.nameEncode self.m_name ++
    ((if self.m_selectors.empty then [] else c.selectorsEncode self.m_selectors) ++
      (tlvBytes Tlv.Nonce (encodeNonNegativeInteger nonce) ++
        ((if 0 ≤ self.m_scope then
            tlvBytes Tlv.Scope (encodeNonNegativeInteger (toUInt64 self.m_scope)) else []) ++
          (if 0 ≤ self.m_interestLifetime ∧ self.m_interestLifetime ≠ 4000 then
            tlvBytes Tlv.InterestLifetime
              (encodeNonNegativeInteger (toUInt64 self.m_interestLifetime))
           else []))))

/-- The same layout as a list of child elements, for a name element with value
`nameValue` and a selectors element with value `selectorsValue`. -/
def layoutElements (nameValue selectorsValue : List Nat) (nonce : Nat) (self : Interest) :
    List Block :=
  ⟨Tlv.Name, nameValue⟩ ::
    ((if self.m_selectors.empty then [] else [⟨Tlv.Selectors, selectorsValue⟩]) ++
      (⟨Tlv.Nonce, encodeNonNegativeInteger nonce⟩ ::
        ((if 0 ≤ self.m_scope then
            [⟨Tlv.Scope, encodeNonNegativeInteger (toUInt64 self.m_scope)⟩] else []) ++
          (if 0 ≤ self.m_interestLifetime ∧ self.m_interestLifetime ≠ 4000 then
            [⟨Tlv.InterestLifetime,
              encodeNonNegativeInteger (toUInt64 self.m_interestLifetime)⟩]
           else []))))

/-- The sub-codecs do their part for the Interest `self`: the name is written as one
element of type `Name` with value `nameValue`, from which the name decoder gives the
name back; when the selectors are not all default they are written as one element of
type `Selectors` with value `selectorsValue`, from which the selectors decoder gives
them back; and the two values are shorter than `2^32` bytes. -/
def SubCodecsRoundTrip (c : SubCodecs) (self : Interest) (nameValue selectorsValue : List Nat) :
    Prop :=
  c.nameEncode self.m_name = tlvBytes Tlv.Name nameValue ∧
    c.nameDecode ⟨Tlv.Name, nameValue⟩ = .ok self.m_name ∧
    (self.m_selectors.empty = false →
      c.selectorsEncode self.m_selectors = tlvBytes Tlv.Selectors selectorsValue ∧
        c.selectorsDecode ⟨Tlv.Selectors, selectorsValue⟩ = .ok self.m_selectors) ∧
    nameValue.length + selectorsValue.length < 2 ^ 32

instance (c : SubCodecs) (self : Interest) (nameValue selectorsValue : List Nat) :
    Decidable (SubCodecsRoundTrip c self nameValue selectorsValue) := by
  unfold SubCodecsRoundTrip
  infer_instance

end Interest

/-! ## Bundle-name derivation (`src/security/validator.cpp`) -/

/-- The method `Validator::deriveBundleName(const Name& name)`. Here `none` stands for a read of a
name component that does not exist (`name.get(-1)` or `name.get(-2)` out of range). -/
def deriveBundleName (name : Name) : Option Name :=
  match Name.get name (-1) with
  | none => none
  | some lastComponent =>
    if lastComponent.isImplicitSha256Digest then
      match Name.get name (-2) with
      | none => none
      | some c =>
        if c.isSegment then some (Name.getPrefix name (-2))
        else some (Name.getPrefix name (-1))
    else if lastComponent.isSegment then some (Name.getPrefix name (-1))
    else some name

/-- The name of the bundle interest built in `Validator::checkKeyBundle`:
`deriveBundleName` of the data name, then `.append("BUNDLE")`. (The source writes
`data.getName()` for the data name; `validate` passes `data.getName()` as
`dataName`.) -/
def checkKeyBundle_bundleName (dataName : Name) : Option Name :=
  match deriveBundleName dataName with
  | none => none
  | some bundleName => some (Name.append bundleName Component.BUNDLE)

/-- The specification's rule for the prefix of the bundle name, in its own words: if
the last component is an implicit digest and the second-to-last a segment, strip both;
else if the last component is a digest, strip it; else if the last component is a
segment, strip it; else strip nothing. -/
def specStrip (N : Name) : Name :=
  if N.getLast?.map Component.isImplicitSha256Digest = some true ∧
      N.dropLast.getLast?.map Component.isSegment = some true then N.dropLast.dropLast
  else if N.getLast?.map Component.isImplicitSha256Digest = some true then N.dropLast
  else if N.getLast?.map Component.isSegment = some true then N.dropLast
  else N

/-- The specification's bundle name: the stripped name, then the literal component
`"BUNDLE"`. -/
def specBundleName (N : Name) : Name :=
  specStrip N ++ [Component.BUNDLE]

/-! ## A concrete instance of the sub-codecs -/

namespace SpecCodec

/-- Modelled from the spec: `Name::wireEncode`: `Name := T=0x07 L Component*`, each
component a TLV element of the component's type. -/
def nameEncode (n : Name) : List Nat :=
  tlvBytes Tlv.Name (n.flatMap (fun c => tlvBytes c.type c.value))

/-- Modelled from the spec: `Name::wireDecode`: the elements of the block, each read
as a component. -/
def nameDecode (b : Block) : Except Error Name :=
  match b.parse with
  | .error e => .error e
  | .ok es => .ok (es.map (fun e => ⟨e.type, e.value⟩))

/-- The bytes of an optional non-negative integer element of the selectors: absent
when the field is unset (negative). -/
def optionalInteger (type : Nat) (x : Int) : List Nat :=
  if x ≥ 0 then tlvBytes type (encodeNonNegativeInteger (toUInt64 x)) else []

/-- The bytes of one entry of the exclude filter (`ANY` is the empty element of type
19). -/
def excludeEntryEncode : ExcludeEntry → List Nat
  | .any => tlvBytes 19 []
  | .component c => tlvBytes c.type c.value

/-- Modelled from the spec: `Selectors::wireEncode`:
`Selectors := T=0x09 L {[MinSC], [MaxSC], [Exclude], [ChildSel], [MustBeFresh]}`, with
the element types 13, 14, 16, 17 and 18 of the NDN packet specification. -/
def selectorsEncode (s : Selectors) : List Nat :=
  tlvBytes Tlv.Selectors
    (optionalInteger 13 s.m_minSuffixComponents ++
      (optionalInteger 14 s.m_maxSuffixComponents ++
        ((if s.m_exclude = [] then [] else tlvBytes 16 (s.m_exclude.flatMap excludeEntryEncode)) ++
          (optionalInteger 17 s.m_childSelector ++
            (if s.m_mustBeFresh then tlvBytes 18 [] else [])))))

/-- Reads an optional integer element of the selectors; -1 when it is absent. -/
def optionalIntegerDecode (es : List Block) (type : Nat) : Except Error Int :=
  match findElement es type with
  | none => .ok (-1)
  | some val => (readNonNegativeInteger val).map toInt32

/-- Reads the exclude filter; empty when the element is absent. -/
def excludeDecode (es : List Block) : Except Error Exclude :=
  match findElement es 16 with
  | none => .ok []
  | some val =>
    match val.parse with
    | .error e => .error e
    | .ok entries =>
      .ok (entries.map (fun e => if e.type = 19 then .any else .component ⟨e.type, e.value⟩))

/-- Modelled from the spec: `Selectors::wireDecode`: every field is looked up by its
type among the elements of the block and takes its default when absent. -/
def selectorsDecode (b : Block) : Except Error Selectors :=
  match b.parse with
  | .error e => .error e
  | .ok es =>
    match optionalIntegerDecode es 13, optionalIntegerDecode es 14, excludeDecode es,
        optionalIntegerDecode es 17 with
    | .ok minS, .ok maxS, .ok excl, .ok child =>
      .ok ⟨minS, maxS, excl, child, (findElement es 18).isSome⟩
    | _, _, _, _ => .error .codecError

/-- The sub-codecs as the specification's wire formats describe them. -/
def codecs : SubCodecs :=
  { nameEncode := nameEncode, nameDecode := nameDecode,
    selectorsEncode := selectorsEncode, selectorsDecode := selectorsDecode }

end SpecCodec

/-! ## Concrete packets -/

namespace Examples

/-- The generic component with the given bytes. -/
def generic (bytes : List Nat) : Component := ⟨Tlv.NameComponent, bytes⟩

/-- The name `/a/b`. -/
def nameAB : Name := [generic [97], generic [98]]

/-- The selectors with `childSelector = 1` and `mustBeFresh = true`. -/
def selRightmostFresh : Selectors := ⟨-1, -1, [], 1, true⟩

/-- The specification's first scenario: `Interest(name=/a/b, nonce=0x01020304,
lifetime=2000)`. -/
def interestAB : Interest :=
  Interest.mk5 nameAB Selectors.default (-1) 2000 0x01020304 0

/-- An Interest for `/a/b` with non-default selectors, scope 2 and lifetime 2000. -/
def interestFull : Interest :=
  Interest.mk5 nameAB selRightmostFresh 2 2000 0x01020304 0

/-- An Interest for `/a/b` whose lifetime is unset (-1). -/
def interestNoLifetime : Interest :=
  Interest.mk5 nameAB Selectors.default (-1) (-1) 0x01020304 0

/-- An Interest for `/a/b` with the default lifetime of 4000 ms. -/
def interestDefaultLifetime : Interest :=
  Interest.mk5 nameAB Selectors.default (-1) 4000 0x01020304 0

/-- The value of the name element of `/a/b`. -/
def nameABValue : List Nat := [8, 1, 97, 8, 1, 98]

/-- The wire of `interestNoLifetime`: name, nonce, and no lifetime element. -/
def wireNoLifetime : Block :=
  ⟨5, [7, 6, 8, 1, 97, 8, 1, 98, 10, 4, 1, 2, 3, 4]⟩

/-- A wire for `/a/b` that carries an explicit InterestLifetime of 4000 ms (bytes
`0x0F 0xA0`), which the encoder itself never writes. -/
def wireExplicitDefaultLifetime : Block :=
  ⟨5, [7, 6, 8, 1, 97, 8, 1, 98, 10, 4, 1, 2, 3, 4, 12, 2, 15, 160]⟩

/-- An Interest-typed block that holds the name `/a/b` and nothing else. -/
def wireNameOnly : Block :=
  ⟨5, [7, 6, 8, 1, 97, 8, 1, 98]⟩

/-- A block of type 6 (`Data`) with the value of `wireNoLifetime`. -/
def wireDataTyped : Block :=
  ⟨6, [7, 6, 8, 1, 97, 8, 1, 98, 10, 4, 1, 2, 3, 4]⟩

/-- An Interest-typed block that holds a nonce and no name. -/
def wireNoName : Block :=
  ⟨5, [10, 4, 1, 2, 3, 4]⟩

/-- An Interest that was decoded from `wireExplicitDefaultLifetime`, so that its memo
is set. -/
def interestWithMemo : Interest :=
  { interestDefaultLifetime with m_wire := some wireExplicitDefaultLifetime }

/-- The segment component `seg=3`. -/
def seg3 : Component := Component.fromSegment 3

/-- The segment component `seg=1`. -/
def seg1 : Component := Component.fromSegment 1

/-- The version component `v=1` (marker `0xFD`). -/
def v1 : Component := Component.fromNumberWithMarker 253 1

/-- An implicit SHA-256 digest component (32 bytes `0xAB`). -/
def digestA : Component := ⟨Tlv.ImplicitSha256DigestComponent, List.replicate 32 171⟩

/-- Another implicit SHA-256 digest component (32 bytes `0xCD`). -/
def digestB : Component := ⟨Tlv.ImplicitSha256DigestComponent, List.replicate 32 205⟩

/-- The name `/s/v/Data/v=1`. -/
def nameDataV1 : Name := [generic [115], generic [118], generic [68, 97, 116, 97], v1]

/-- The name `/s/v/Data/v=1/seg=3`. -/
def nameDataSeg : Name := nameDataV1 ++ [seg3]

/-- The name `/s/v/Data/v=1/seg=3/<sha256-digest>`. -/
def nameDataSegDigest : Name := nameDataV1 ++ [seg3, digestA]

/-- The name `/s/v/Data/v=1/BUNDLE`. -/
def nameDataBundle : Name := nameDataV1 ++ [Component.BUNDLE]

/-- The name `/a/seg=1`. -/
def nameASeg1 : Name := [generic [97], seg1]

/-- The name `/a/<sha256-digest>`. -/
def nameADigest : Name := [generic [97], digestA]

end Examples

/-! ## Data packets and validation requests -/

namespace Tlv

/-- Modelled from the spec: `Data := T=0x06`. -/
def Data : Nat := 6

/-- Modelled from the spec: the `Content` element of a Data packet; the NDN packet
specification, which the specification defers to for the type codes, gives it type 21. -/
def Content : Nat := 21

end Tlv

/-- Modelled from the spec: the key locator of a signature, "either a name (used here)
or a digest" (`key-locator.hpp` is not part of the snapshot). -/
inductive KeyLocator where
  | name (keyName : Name)
  | keyDigest (digest : List Nat)
  deriving DecidableEq, Repr

/-- Modelled from the spec: the signature of a packet as far as the bundle path reads
it: none yet, the integrity-only `DigestSha256`, or a key signature with its optional
key locator. -/
inductive Signature where
  | unsigned
  | digestSha256
  | withKey (keyLocator : Option KeyLocator)
  deriving DecidableEq, Repr

/-- Modelled from the spec: a Data packet (`data.hpp` is not part of the snapshot):
"name, metainfo (carrying freshnessPeriod and finalBlockId), content, signature"; the
final block id "may be absent" (`none` stands for the empty component). A certificate
is a Data packet. -/
structure Data where
  m_name : Name
  m_freshnessPeriod : Int
  m_finalBlockId : Option Component
  m_content : Block
  m_signature : Signature
  deriving DecidableEq, Repr

/-- Modelled from the spec: `Component::toSegment`: the number of a segment component;
raises when the component is not a number with the segment marker. -/
def Component.toSegment (c : Component) : Except Error Nat :=
  if c.isSegment then .ok (fromBE c.value.tail) else .error .codecError

/-- Modelled from the spec: `Interest::refreshNonce` (the snapshot's `interest.hpp` does
not declare it; `validator.cpp` calls it): "a freshly cloned interest for retry must
carry a new random nonce; all other fields are preserved". `rnd` is the word the
random generator returns. -/
def Interest.refreshNonce (rnd : Nat) (self : Interest) : Interest :=
  self.setNonce (toUInt32 rnd)

/-- Modelled from the spec: a validation request (`validation-request.hpp` is not part
of the snapshot): "the interest to express for the missing certificate, retry budget,
continuation callbacks for success/failure, and the recursion depth". The two
continuations belong to the policy and are not modelled. -/
structure ValidationRequest where
  m_interest : Interest
  m_nRetries : Int
  m_nSteps : Int
  deriving DecidableEq, Repr

/-- The callbacks the validator hands to `Face::expressInterest`, with the arguments
that `bind` fixes. `onCert step r` stands for the triple `onData(step)`,
`onNack(r, onFailure, step)`, `onTimeout(r, onFailure, step)`; `onBundle z step steps`
for `onBundleData(z, step, steps, onFailure)`, `onBundleNack(steps, onFailure)`,
`onBundleTimeout(steps, onFailure)`. -/
inductive Callback where
  | onCert (validationRequest : ValidationRequest) (remainingRetries : Int)
  | onBundle (isSegmentZeroExpected : Bool) (nextStep : ValidationRequest)
      (nextSteps : List ValidationRequest)
  deriving DecidableEq, Repr

/-- An interest the face is waiting on, with its callbacks. -/
structure PendingInterest where
  interest : Interest
  callback : Callback
  deriving DecidableEq, Repr

/-- Modelled from the spec: the Face, "an abstraction that delivers interests to the
network and delivers back a Data, a Nack, or a timeout event per outstanding interest"
(`face.hpp` is not part of the snapshot): the interests sent so far, in order, and the
outstanding ones. -/
structure Face where
  sentInterests : List Interest
  pendingInterests : List PendingInterest
  deriving DecidableEq, Repr

/-- Modelled from the spec: `Face::expressInterest`: the interest is sent and is
outstanding with its callbacks. -/
def Face.expressInterest (self : Face) (interest : Interest) (callback : Callback) : Face :=
  { sentInterests := self.sentInterests ++ [interest],
    pendingInterests := self.pendingInterests ++ [⟨interest, callback⟩] }

/-- Library code that `validator.cpp` and `bundle-state.cpp` call and the snapshot does
not contain, as parameters: the URI of a name, the wire encoding of a Data packet, the
construction of a certificate from a block (it raises on a block that is not one), the
insertion into and the lookup in the certificate store, and the order of name
components (`finalBlockId > currentSegment`). -/
structure Env where
  toUri : Name → String
  dataWireEncode : Data → Block
  certificateDecode : Block → Except Error Data
  cacheInsert : List Data → Data → List Data
  cacheFind : List Data → Interest → Option Data
  componentGt : Component → Component → Bool

/-- How a handler of the validator can end other than by returning: an exception, or a
read that C++ leaves undefined (a name component or a vector element that does not
exist, the first element of an empty store). -/
inductive Fault where
  | raised (e : Error)
  | undefinedRead
  deriving DecidableEq, Repr

/-! ## The validator (`src/security/validator.cpp`) -/

/-- The class `Validator` within one validation: the face (`none` for a null pointer),
the certificate store `m_certificates` as the sequence of its packets in iteration
order, and what the validation has reported so far: the reasons passed to `onFailure`
and the calls of `Validator::onData`, which hand a certificate over to the policy. -/
structure Validator where
  m_face : Option Face
  m_certificates : List Data
  failures : List String
  onDataCalls : List (Interest × Data × ValidationRequest)
  deriving DecidableEq, Repr

namespace Validator

/-- The call `m_face->expressInterest(interest, ...)` (without effect on a null face,
which no handler that reaches the call has). -/
def expressInterest (self : Validator) (interest : Interest) (callback : Callback) : Validator :=
  match self.m_face with
  | none => self
  | some face => { self with m_face := some (face.expressInterest interest callback) }

/-- The call `onFailure(reason)`. -/
def onFailure (self : Validator) (reason : String) : Validator :=
  { self with failures := self.failures ++ [reason] }

/-- The method `Validator::onData(interest, data, nextStep)`: the certificate goes to
`preCertificateValidation` and `validate` under the policy, which is outside the
snapshot; the call is recorded. -/
def onData (self : Validator) (interest : Interest) (data : Data)
    (nextStep : ValidationRequest) : Validator :=
  { self with onDataCalls := self.onDataCalls ++ [(interest, data, nextStep)] }

/-- The method `Validator::onNack(interest, nack, remainingRetries, onFailure,
validationRequest)`. -/
def onNack (env : Env) (rnd : Nat) (self : Validator) (interest : Interest)
    (remainingRetries : Int) (validationRequest : ValidationRequest) : Validator :=
  if remainingRetries > 0 then
    let newInterest := interest
    let newInterest := newInterest.refreshNonce rnd
    self.expressInterest newInterest (.onCert validationRequest (remainingRetries - 1))
  else
    self.onFailure ("Cannot fetch cert: " ++ env.toUri interest.getName)

/-- The method `Validator::onTimeout(interest, remainingRetries, onFailure,
validationRequest)`. -/
def onTimeout (env : Env) (rnd : Nat) (self : Validator) (interest : Interest)
    (remainingRetries : Int) (validationRequest : ValidationRequest) : Validator :=
  if remainingRetries > 0 then
    let newInterest := interest
    let newInterest := newInterest.refreshNonce rnd
    self.expressInterest newInterest (.onCert validationRequest (remainingRetries - 1))
  else
    self.onFailure ("Cannot fetch cert: " ++ env.toUri interest.getName)

/-- The method `Validator::afterCheckPolicy(nextSteps, onFailure)`. -/
def afterCheckPolicy (self : Validator) (nextSteps : List ValidationRequest) : Validator :=
  match self.m_face with
  | none => self.onFailure "Require more information to validate the packet!"
  | some _ =>
    nextSteps.foldl
      (fun v step => v.expressInterest step.m_interest (.onCert step step.m_nRetries)) self

/-- The method `Validator::onBundleNack(interest, nack, nextSteps, onFailure)`. -/
def onBundleNack (self : Validator) (nextSteps : List ValidationRequest) : Validator :=
  self.afterCheckPolicy nextSteps

/-- The method `Validator::onBundleTimeout(interest, nextSteps, onFailure)`. -/
def onBundleTimeout (self : Validator) (nextSteps : List ValidationRequest) : Validator :=
  self.afterCheckPolicy nextSteps

/-- The method `Validator::fetchFirstBundleSegment(interest, nextStep, nextSteps,
onFailure)`. -/
def fetchFirstBundleSegment (self : Validator) (interest : Interest)
    (nextStep : ValidationRequest) (nextSteps : List ValidationRequest) : Validator :=
  match self.m_face with
  | none => self.onFailure "Require more information to validate the packet!"
  | some _ => self.expressInterest interest (.onBundle true nextStep nextSteps)

/-- The interest that `Validator::fetchNextBundleSegment` builds: a copy of the
original interest with a fresh nonce, `childSelector = 0`, `mustBeFresh = false` and the
name of the bundle data with its last component replaced by the segment number. -/
def nextBundleInterest (rnd : Nat) (origInterest : Interest) (bundleDataName : Name)
    (segmentNo : Nat) : Interest :=
  let interest := origInterest -- to preserve any selectors
  let interest := interest.refreshNonce rnd
  let interest := interest.setChildSelector 0
  let interest := interest.setMustBeFresh false
  interest.setName (Name.appendSegment (Name.getPrefix bundleDataName (-1)) segmentNo)

/-- The method `Validator::fetchNextBundleSegment(origInterest, bundleDataName,
nextStep, segmentNo, nextSteps, onFailure)`; the data callback is bound with `true`
for `isSegmentZeroExpected`, as in the source. -/
def fetchNextBundleSegment (rnd : Nat) (self : Validator) (origInterest : Interest)
    (bundleDataName : Name) (nextStep : ValidationRequest) (segmentNo : Nat)
    (nextSteps : List ValidationRequest) : Validator :=
  self.expressInterest (nextBundleInterest rnd origInterest bundleDataName segmentNo)
    (.onBundle true nextStep nextSteps)

/-- The loop of `onBundleData` that stores the certificates: every element of the
bundle content is made a certificate and inserted; a block that is not a certificate
raises and ends the loop with the earlier ones stored. -/
def storeCertificates (env : Env) : List Data → List Block → Except Error Unit × List Data
  | certificates, [] => (.ok (), certificates)
  | certificates, b :: bs =>
    match env.certificateDecode b with
    | .error e => (.error e, certificates)
    | .ok certificate => storeCertificates env (env.cacheInsert certificates certificate) bs

/-- The method `Validator::onBundleData(origInterest, bundleData, isSegmentZeroExpected,
nextStep, nextSteps, onFailure)`. The first component tells how the call ended, the
second is the validator as the call leaves it. -/
def onBundleData (env : Env) (rnd : Nat) (self : Validator) (origInterest : Interest)
    (bundleData : Data) (isSegmentZeroExpected : Bool) (nextStep : ValidationRequest)
    (nextSteps : List ValidationRequest) : Except Fault Unit × Validator :=
  match Name.get bundleData.m_name (-1) with
  | none => (.error .undefinedRead, self)
  | some currentSegment =>
    match (if isSegmentZeroExpected then
             currentSegment.toSegment.map (fun n => decide (n ≠ 0))
           else .ok false) with
    | .error e => (.error (.raised e), self)
    | .ok true =>
      -- fetch segment zero
      (.ok (), self.fetchNextBundleSegment rnd origInterest bundleData.m_name nextStep 0
        nextSteps)
    | .ok false =>
      match bundleData.m_content.parse with
      | .error e => (.error (.raised e), self)
      | .ok elements =>
        -- store certificates in memory
        match storeCertificates env self.m_certificates elements with
        | (.error e, certificates) =>
          (.error (.raised e), { self with m_certificates := certificates })
        | (.ok _, certificates) =>
          let self := { self with m_certificates := certificates }
          -- fetch next segment if applicable
          if (match bundleData.m_finalBlockId with
              | none => true
              | some finalBlockId => env.componentGt finalBlockId currentSegment) then
            match currentSegment.toSegment with
            | .error e => (.error (.raised e), self)
            | .ok n =>
              (.ok (), self.fetchNextBundleSegment rnd origInterest bundleData.m_name nextStep
                ((n + 1) % 2 ^ 64) nextSteps)
          else
            match self.m_certificates.head? with
            | none => (.error .undefinedRead, self)
            | some firstCert => (.ok (), self.onData nextStep.m_interest firstCert nextStep)

/-- The interest that `Validator::checkKeyBundle` builds for the bundle name:
`Interest(bundleName)` with lifetime 100000 ms, `mustBeFresh` and `childSelector = 1`. -/
def firstBundleInterest (bundleName : Name) : Interest :=
  let bundleInterest := Interest.mk1 bundleName 0
  let bundleInterest := bundleInterest.setInterestLifetime 100000
  let bundleInterest := bundleInterest.setMustBeFresh true
  bundleInterest.setChildSelector 1

/-- The method `Validator::checkKeyBundle(dataName, nextSteps, onFailure)`. (The source
writes `data.getName()` for the data name; `validate` passes `data.getName()` as
`dataName`.) -/
def checkKeyBundle (env : Env) (self : Validator) (dataName : Name)
    (nextSteps : List ValidationRequest) : Except Fault Unit × Validator :=
  match nextSteps with
  | [] => (.error .undefinedRead, self)
  | nextStep :: _ =>
    match env.cacheFind self.m_certificates nextStep.m_interest with
    | none =>
      match deriveBundleName dataName with
      | none => (.error .undefinedRead, self)
      | some bundleName =>
        let bundleName := Name.append bundleName Component.BUNDLE
        let bundleInterest := firstBundleInterest bundleName
        (.ok (), self.fetchFirstBundleSegment bundleInterest nextStep nextSteps)
    | some certificate =>
      -- if certificate is present in memory
      (.ok (), self.onData nextStep.m_interest certificate nextStep)

/-- The method `Validator::validate(data, ...)` after `checkPolicy`, whose result (the
policy is outside the snapshot) is the argument `nextSteps`. -/
def validate (env : Env) (self : Validator) (dataName : Name)
    (nextSteps : List ValidationRequest) : Except Fault Unit × Validator :=
  if nextSteps.isEmpty then (.ok (), self)
  else self.checkKeyBundle env dataName nextSteps

end Validator

/-- What the face delivers for the outstanding interest number `idx`. -/
inductive Event where
  | data (idx : Nat) (d : Data)
  | nack (idx : Nat)
  | timeout (idx : Nat)
  deriving DecidableEq, Repr

/-- The index of the outstanding interest an event answers. -/
def Event.idx : Event → Nat
  | .data idx _ => idx
  | .nack idx => idx
  | .timeout idx => idx

namespace Validator

/-- The face delivers an event: the interest it answers is no longer outstanding and
the callback bound for that kind of event runs (`rnd` is the random word at its
disposal). An event for an interest that is not outstanding does nothing. -/
def deliver (env : Env) (rnd : Nat) (self : Validator) (e : Event) :
    Except Fault Unit × Validator :=
  match self.m_face with
  | none => (.ok (), self)
  | some face =>
    match face.pendingInterests[e.idx]? with
    | none => (.ok (), self)
    | some p =>
      let self := { self with
        m_face := some { face with pendingInterests := face.pendingInterests.eraseIdx e.idx } }
      match e, p.callback with
      | .data _ d, .onCert step _ => (.ok (), self.onData p.interest d step)
      | .nack _, .onCert step r => (.ok (), self.onNack env rnd p.interest r step)
      | .timeout _, .onCert step r => (.ok (), self.onTimeout env rnd p.interest r step)
      | .data _ d, .onBundle z nextStep nextSteps =>
        self.onBundleData env rnd p.interest d z nextStep nextSteps
      | .nack _, .onBundle _ _ nextSteps => (.ok (), self.onBundleNack nextSteps)
      | .timeout _, .onBundle _ _ nextSteps => (.ok (), self.onBundleTimeout nextSteps)

/-- The validator after a sequence of events, each with its random word; a handler that
does not return ends the run. -/
def run (env : Env) : Validator → List (Event × Nat) → Except Fault Unit × Validator
  | v, [] => (.ok (), v)
  | v, (e, rnd) :: es =>
    match v.deliver env rnd e with
    | (.error x, v2) => (.error x, v2)
    | (.ok _, v2) => run env v2 es

/-- A validator at the start of a validation: the given face and certificate store,
nothing reported yet. -/
def init (face : Option Face) (certificates : List Data) : Validator :=
  { m_face := face, m_certificates := certificates, failures := [], onDataCalls := [] }

end Validator

/-- A face that has sent nothing. -/
def Face.empty : Face := { sentInterests := [], pendingInterests := [] }

/-! ## A concrete environment and a two-segment bundle -/

namespace Examples

/-- The URI of a name, reduced to what the examples need: a slash and the bytes of the
value, read as characters, for every component. -/
def toUri (n : Name) : String :=
  n.foldl (fun s c => s ++ "/" ++ String.mk (c.value.map Char.ofNat)) ""

/-- A reduced wire form of a Data packet: its name and its content. -/
def dataWireEncode (d : Data) : Block :=
  ⟨Tlv.Data, SpecCodec.nameEncode d.m_name ++ tlvBytes Tlv.Content d.m_content.value⟩

/-- The certificate of a block in that wire form; a block that is not of type `Data` or
has no name is rejected. -/
def certificateDecode (b : Block) : Except Error Data :=
  if b.type ≠ Tlv.Data then .error .codecError
  else
    match b.parse with
    | .error e => .error e
    | .ok es =>
      match getElement es Tlv.Name with
      | .error e => .error e
      | .ok nameBlock =>
        match SpecCodec.nameDecode nameBlock with
        | .error e => .error e
        | .ok name =>
          .ok { m_name := name, m_freshnessPeriod := -1, m_finalBlockId := none,
                m_content := ⟨Tlv.Content,
                  match findElement es Tlv.Content with
                  | some c => c.value
                  | none => []⟩,
                m_signature := .withKey none }

/-- Insertion into the store: "insert or replace by full data name". -/
def cacheInsert (certificates : List Data) (d : Data) : List Data :=
  if certificates.any (fun x => x.m_name == d.m_name) then
    certificates.map (fun x => if x.m_name == d.m_name then d else x)
  else certificates ++ [d]

/-- Lookup in the store: the first packet whose name has the name of the interest as a
prefix. -/
def cacheFind (certificates : List Data) (i : Interest) : Option Data :=
  certificates.find? (fun d => i.m_name.isPrefixOf d.m_name)

/-- The order of components: shorter values first, values of one length by their
bytes. -/
def componentGt (a b : Component) : Bool :=
  decide (a.value.length > b.value.length) ||
    (a.value.length == b.value.length && decide (fromBE a.value > fromBE b.value))

/-- The environment of the examples. -/
def env : Env :=
  { toUri := toUri, dataWireEncode := dataWireEncode, certificateDecode := certificateDecode,
    cacheInsert := cacheInsert, cacheFind := cacheFind, componentGt := componentGt }

/-- A certificate named `/s/KEY/1` (reduced to its name). -/
def cert1 : Data :=
  { m_name := [generic [115], generic [75, 69, 89], generic [49]], m_freshnessPeriod := -1,
    m_finalBlockId := none, m_content := ⟨Tlv.Content, []⟩, m_signature := .withKey none }

/-- A certificate named `/KEY/2`. -/
def cert2 : Data :=
  { cert1 with m_name := [generic [75, 69, 89], generic [50]] }

/-- A certificate named `/KEY/3`. -/
def cert3 : Data :=
  { cert1 with m_name := [generic [75, 69, 89], generic [51]] }

/-- The pending step of the examples: the certificate `/s/KEY` is needed, with two
retries. -/
def stepKey : ValidationRequest :=
  { m_interest := Interest.mk1 [generic [115], generic [75, 69, 89]] 0, m_nRetries := 2,
    m_nSteps := 0 }

/-- A second pending step, for the certificate `/KEY`, without retries. -/
def stepRoot : ValidationRequest :=
  { m_interest := Interest.mk1 [generic [75, 69, 89]] 0, m_nRetries := 0, m_nSteps := 0 }

/-- The segment component `seg=0`. -/
def seg0 : Component := Component.fromSegment 0

/-- Segment 0 of the bundle `/s/v/Data/v=1/BUNDLE/v=1`: the first certificate, no final
block id. -/
def bundleSeg0 : Data :=
  { m_name := nameDataBundle ++ [v1, seg0], m_freshnessPeriod := 100000,
    m_finalBlockId := none,
    m_content := ⟨Tlv.Content, encodeElements [dataWireEncode cert1]⟩,
    m_signature := .digestSha256 }

/-- Segment 1 of that bundle: the other two certificates, its own segment component as
final block id. -/
def bundleSeg1 : Data :=
  { m_name := nameDataBundle ++ [v1, seg1], m_freshnessPeriod := 100000,
    m_finalBlockId := some seg1,
    m_content := ⟨Tlv.Content, encodeElements [dataWireEncode cert2, dataWireEncode cert3]⟩,
    m_signature := .digestSha256 }

/-- The validator of the examples after `checkKeyBundle` for the data name
`/s/v/Data/v=1` with the single pending step `stepKey`, an empty store and a face that
has sent nothing. -/
def afterCheckKeyBundle : Validator :=
  ((Validator.init (some Face.empty) []).checkKeyBundle env nameDataV1 [stepKey]).2

end Examples

/-! ## Observations on a validator -/

namespace Validator

/-- The interests the validator has sent through its face, in order. -/
def sentInterests (self : Validator) : List Interest :=
  match self.m_face with
  | none => []
  | some face => face.sentInterests

/-- The interests of the validator that are outstanding. -/
def pendingInterests (self : Validator) : List PendingInterest :=
  match self.m_face with
  | none => []
  | some face => face.pendingInterests

end Validator

/-- The retries an outstanding certificate interest may still cause (none for a bundle
interest). -/
def Callback.retryBudget : Callback → Nat
  | .onCert _ remainingRetries => remainingRetries.toNat
  | .onBundle _ _ _ => 0

/-- The failure reports an outstanding interest may still cause: one for a certificate
interest, one per pending step for a bundle interest (its fallback). -/
def Callback.failureBudget : Callback → Nat
  | .onCert _ _ => 1
  | .onBundle _ _ nextSteps => nextSteps.length

/-- A response that is a Nack or a timeout for the outstanding interest number 0. -/
def Event.isFailureOfFirst (e : Event) : Prop :=
  e = .nack 0 ∨ e = .timeout 0

instance (e : Event) : Decidable e.isFailureOfFirst :=
  inferInstanceAs (Decidable (_ ∨ _))

namespace Examples

/-- The first bundle interest of the examples, for `/s/v/Data/v=1/BUNDLE`. -/
def bundleInterest : Interest := Validator.firstBundleInterest nameDataBundle

/-- The validator of the examples after `afterCheckPolicy` for the single pending step
`stepKey`. -/
def afterCheckPolicyKey : Validator :=
  (Validator.init (some Face.empty) []).afterCheckPolicy [stepKey]

end Examples

namespace Validator

/-- The retries the outstanding interests of the validator may still cause. -/
def retryBudget (self : Validator) : Nat :=
  (self.pendingInterests.map (fun p => p.callback.retryBudget)).sum

/-- The failure reports the outstanding interests of the validator may still cause. -/
def failureBudget (self : Validator) : Nat :=
  (self.pendingInterests.map (fun p => p.callback.failureBudget)).sum

/-- Every outstanding interest of the validator is a certificate interest. -/
def AllCert (self : Validator) : Prop :=
  ∀ p ∈ self.pendingInterests, ∃ step r, p.callback = .onCert step r

end Validator

/-! ## The bundle producer (`src/util/bundle-state.cpp`) -/

/-- Modelled from the spec: `Block::size`, the size of the element on the wire: type,
length and value. -/
def Block.size (self : Block) : Nat :=
  (tlvBytes self.type self.value).length

/-- Modelled from the spec: `Block::push_back(element)` on a block whose value is a
sequence of elements: the element is added at the end. (`encode()` and `parse()`, which
move between the elements and the bytes of the value, have no effect on a block that is
kept as its bytes.) -/
def Block.push_back (self : Block) (element : Block) : Block :=
  { self with value := self.value ++ tlvBytes element.type element.value }

/-- Modelled from the spec: the `VersionComponent` of a version number (marker `0xFD`). -/
def Component.fromVersion (version : Nat) : Component :=
  Component.fromNumberWithMarker 253 version

/-- Modelled from the spec: `Name::appendVersion()`; `version` is the version number the
call takes from the clock. -/
def Name.appendVersion (name : Name) (version : Nat) : Name :=
  Name.append name (Component.fromVersion version)

/-- Modelled from the spec: `Data()`: an empty name, no freshness period, no final block
id, an empty content, no signature. -/
def Data.mk0 : Data :=
  { m_name := [], m_freshnessPeriod := -1, m_finalBlockId := none,
    m_content := ⟨Tlv.Content, []⟩, m_signature := .unsigned }

/-- The class `BundleState`: the signing key name, the bundle segments, the set of
certificate names seen (without repetitions, in the order of their insertion) and the
certificate chain. The key chain member only signs; signing with SHA-256 is modelled by
the signature kind of the segment. -/
structure BundleState where
  m_signingKeyName : Name
  m_bundleSegments : List Data
  m_seenCertificateNames : List Name
  m_certificateChain : List Data
  deriving DecidableEq, Repr

namespace BundleState

/-- The constructor `BundleState(signingKeyName)`. -/
def mk1 (signingKeyName : Name) : BundleState :=
  { m_signingKeyName := signingKeyName, m_bundleSegments := [], m_seenCertificateNames := [],
    m_certificateChain := [] }

def getDepth (self : BundleState) : Nat :=
  self.m_certificateChain.length

/-- The method `BundleState::hasSeenCertificateName(certName)`:
`!m_seenCertificateNames.insert(certName).second`, with the state after the insertion. -/
def hasSeenCertificateName (self : BundleState) (certName : Name) : Bool × BundleState :=
  if certName ∈ self.m_seenCertificateNames then (true, self)
  else (false, { self with m_seenCertificateNames := self.m_seenCertificateNames ++ [certName] })

def addCertificate (self : BundleState) (cert : Data) : BundleState :=
  { self with m_certificateChain := self.m_certificateChain ++ [cert] }

/-- The method `BundleState::createBundleSegment(bundleName, segmentNumber,
bundleSegmentContent, isFinalSegment)`. -/
def createBundleSegment (self : BundleState) (bundleName : Name) (segmentNumber : Nat)
    (bundleSegmentContent : Block) (isFinalSegment : Bool) : BundleState :=
  let fullBundleName := Name.appendSegment bundleName segmentNumber
  let bundleSegment := Data.mk0
  let bundleSegment := { bundleSegment with m_name := fullBundleName }
  let bundleSegment := { bundleSegment with m_freshnessPeriod := 10000 }
  let bundleSegment := { bundleSegment with m_content := bundleSegmentContent }
  let bundleSegment :=
    if isFinalSegment then
      { bundleSegment with m_finalBlockId := Name.get fullBundleName (-1) }
    else bundleSegment
  let bundleSegment := { bundleSegment with m_signature := .digestSha256 }
  { self with m_bundleSegments := self.m_bundleSegments ++ [bundleSegment] }

/-- The loop of `BundleState::createCertBundle` over the certificates that are left,
on the state, the segment number and the content block built so far.
`MAX_NDN_PACKET_SIZE` is a constant of the library outside the snapshot. -/
def createCertBundleLoop (env : Env) (MAX_NDN_PACKET_SIZE : Nat) (bundleName : Name) :
    List Data → BundleState × Nat × Block → BundleState × Nat × Block
  | [], s => s
  | cert :: rest, (self, segmentNumber, certBundle) =>
    let s : BundleState × Nat × Block :=
      if certBundle.size + cert.m_content.size ≥ MAX_NDN_PACKET_SIZE then
        (self.createBundleSegment bundleName segmentNumber certBundle false,
         (segmentNumber + 1) % 2 ^ 64, ⟨Tlv.Content, []⟩)
      else (self, segmentNumber, certBundle)
    createCertBundleLoop env MAX_NDN_PACKET_SIZE bundleName rest
      (s.1, s.2.1, s.2.2.push_back (env.dataWireEncode cert))

/-- The method `BundleState::createCertBundle(bundleInterestName)`; `version` is the
version number `appendVersion()` takes from the clock. -/
def createCertBundle (env : Env) (MAX_NDN_PACKET_SIZE : Nat) (version : Nat)
    (self : BundleState) (bundleInterestName : Name) : BundleState :=
  let bundleName := bundleInterestName
  let bundleName := Name.appendVersion bundleName version
  let segmentNumber := 0
  let certBundle : Block := ⟨Tlv.Content, []⟩
  let s := createCertBundleLoop env MAX_NDN_PACKET_SIZE bundleName self.m_certificateChain
    (self, segmentNumber, certBundle)
  s.1.createBundleSegment bundleName s.2.1 s.2.2 true

end BundleState

namespace Examples

/-- A fresh bundle state that holds the chain of the three certificates of the
examples. -/
def stateThreeCerts : BundleState :=
  { BundleState.mk1 [generic [115]] with m_certificateChain := [cert1, cert2, cert3] }

end Examples


/-! ## The bundle helper (`src/util/bundle-helper.cpp`) -/

/-- The operations that a bundle state undergoes in its lifetime: the two public
mutators and `createCertBundle`, which the helper calls from `getBundle` (with the
version that `appendVersion()` takes from the clock). -/
inductive BundleState.Op where
  | hasSeenCertificateName (certName : Name)
  | addCertificate (cert : Data)
  | createCertBundle (bundleInterestName : Name) (version : Nat)
  deriving DecidableEq, Repr

/-- The state after one operation. -/
def BundleState.Op.apply (env : Env) (MAX_NDN_PACKET_SIZE : Nat) :
    BundleState.Op → BundleState → BundleState
  | .hasSeenCertificateName certName, s => (s.hasSeenCertificateName certName).2
  | .addCertificate cert, s => s.addCertificate cert
  | .createCertBundle bundleInterestName version, s =>
    s.createCertBundle env MAX_NDN_PACKET_SIZE version bundleInterestName

/-- The state after a sequence of operations. -/
def BundleState.applyOps (env : Env) (MAX_NDN_PACKET_SIZE : Nat) (s : BundleState)
    (ops : List BundleState.Op) : BundleState :=
  ops.foldl (fun s op => op.apply env MAX_NDN_PACKET_SIZE s) s

/-- The class `BundleHelper` together with the face it refers to, as far as one bundle
state is concerned: the interests the helper has sent through `m_face`, those of them
that are outstanding (each carries `onCertData`, `onCertNack` and `onCertTimeout` bound
to the bundle state), and `m_maxBundleSize`. -/
structure BundleHelper where
  sentInterests : List Interest
  pendingInterests : List Interest
  m_maxBundleSize : Nat
  deriving DecidableEq, Repr

namespace BundleHelper

/-- The constructor `BundleHelper(face)`, for a face that has sent the given interests
and has none of this helper outstanding. -/
def mk1 (sentInterests : List Interest) : BundleHelper :=
  { sentInterests := sentInterests, pendingInterests := [], m_maxBundleSize := 25 }

def setMaxBundleSize (self : BundleHelper) (bundleSize : Nat) : BundleHelper :=
  { self with m_maxBundleSize := bundleSize }

def getMaxBundleSize (self : BundleHelper) : Nat :=
  self.m_maxBundleSize

/-- The interest that `fetchCertificate` builds: `Interest(certToFetch)` with a lifetime
of one second and `mustBeFresh`. -/
def certInterest (certToFetch : Name) : Interest :=
  let certInterest := Interest.mk1 certToFetch 0
  let certInterest := certInterest.setInterestLifetime 1000
  certInterest.setMustBeFresh true

/-- The method `BundleHelper::fetchCertificate(certToFetch, bundleState)`. The second
operand of `||` runs, and records the name, only when the depth is below the cap. -/
def fetchCertificate (self : BundleHelper) (certToFetch : Name) (bundleState : BundleState) :
    BundleHelper × BundleState :=
  if bundleState.getDepth ≥ self.m_maxBundleSize then (self, bundleState)
  else
    let seen := bundleState.hasSeenCertificateName certToFetch
    if seen.1 then (self, seen.2)
    else
      ({ self with
          sentInterests := self.sentInterests ++ [certInterest certToFetch],
          pendingInterests := self.pendingInterests ++ [certInterest certToFetch] },
        seen.2)

/-- The method `BundleHelper::beginBundleCreation(signingKeyName)`. -/
def beginBundleCreation (self : BundleHelper) (signingKeyName : Name) :
    BundleHelper × BundleState :=
  let bundleState := BundleState.mk1 signingKeyName
  self.fetchCertificate signingKeyName bundleState

/-- The method `BundleHelper::refreshBundle(bundleState)`; `none` is the null pointer. -/
def refreshBundle (self : BundleHelper) (bundleState : Option BundleState) :
    BundleHelper × Option BundleState :=
  match bundleState with
  | none => (self, none)
  | some s =>
    let r := self.fetchCertificate s.m_signingKeyName s
    (r.1, some r.2)

/-- The method `BundleHelper::onCertData(interest, certData, bundleState)`. The
constructor of a certificate from a Data packet is declared in `certificate.hpp` only
("throws tlv::Error if data does not follow certificate format") and is the parameter
`certificate`. -/
def onCertData (certificate : Data → Except Error Data) (self : BundleHelper)
    (certData : Data) (bundleState : BundleState) : BundleHelper × BundleState :=
  match certificate certData with
  | .error _ => (self, bundleState)
  | .ok cert =>
    let bundleState := bundleState.addCertificate cert
    match cert.m_signature with
    | .withKey (some (.name keyLocatorName)) =>
      self.fetchCertificate keyLocatorName bundleState
    | _ => (self, bundleState)

/-- The method `BundleHelper::onCertNack`: do nothing. -/
def onCertNack (self : BundleHelper) (bundleState : BundleState) :
    BundleHelper × BundleState :=
  (self, bundleState)

/-- The method `BundleHelper::onCertTimeout`: do nothing. -/
def onCertTimeout (self : BundleHelper) (bundleState : BundleState) :
    BundleHelper × BundleState :=
  (self, bundleState)

/-- The face delivers an event for an outstanding interest of the helper: the interest
is no longer outstanding and the callback for that kind of event runs. An event for an
interest that is not outstanding does nothing. -/
def deliver (certificate : Data → Except Error Data) (self : BundleHelper)
    (bundleState : BundleState) (e : Event) : BundleHelper × BundleState :=
  match self.pendingInterests[e.idx]? with
  | none => (self, bundleState)
  | some _ =>
    let self := { self with pendingInterests := self.pendingInterests.eraseIdx e.idx }
    match e with
    | .data _ d => self.onCertData certificate d bundleState
    | .nack _ => self.onCertNack bundleState
    | .timeout _ => self.onCertTimeout bundleState

/-- The helper and the bundle state after a sequence of events. -/
def run (certificate : Data → Except Error Data) :
    BundleHelper × BundleState → List Event → BundleHelper × BundleState
  | s, [] => s
  | s, e :: es => run certificate (deliver certificate s.1 s.2 e) es

end BundleHelper

namespace Examples

/-- The names `/s` and `/s/KEY/1` and a self-signed certificate `/s/KEY/1/self/v=1`,
whose key locator is the name of its own key. -/
def nameS : Name := [generic [115]]

def nameSKey1 : Name := [generic [115], generic [75, 69, 89], generic [49]]

def certSelfSigned : Data :=
  { m_name := nameSKey1 ++ [generic [115, 101, 108, 102], v1], m_freshnessPeriod := 3600000,
    m_finalBlockId := none, m_content := ⟨Tlv.Content, [48, 0]⟩,
    m_signature := .withKey (some (.name nameSKey1)) }

/-- The certificate of a Data packet, reduced to the naming convention: the name has to
hold the component `KEY` followed by three more components. -/
def certificate (d : Data) : Except Error Data :=
  if d.m_name.length ≥ 4 ∧ Name.get d.m_name (-4) = some (generic [75, 69, 89]) then .ok d
  else .error .codecError

end Examples

/-! ## The Unix transport (`src/transport/unix-transport.cpp`) -/

/-- The size of the input buffer and of the buffer for partial data. -/
def MAX_LENGTH : Nat := 9000

/-- Modelled from the spec: the constructor `Block(buffer, maxlength)` (`block.hpp` is
not part of the snapshot): one TLV element read from the front of a buffer, given by its
bytes (type, length, value); `size()` of the element is the number of these bytes. It
raises when the type or the length cannot be read or when the declared length exceeds
the bytes that are left. -/
def Block.fromBuffer (buffer : List Nat) : Except Error (List Nat) :=
  match readVarNumber buffer with
  | .error e => .error e
  | .ok (_, r1) =>
    match readVarNumber r1 with
    | .error e => .error e
    | .ok (len, r2) =>
      if r2.length < len then .error .codecError
      else .ok (buffer.take (buffer.length - r2.length + len))

/-- The class `UnixTransport::Impl` with the flag `isConnected_` of its transport: the
socket (open or not, the blocks handed to `async_send` in order, the number of
`async_receive` requests posted), the partial data (the first `partialDataSize_` bytes
of `partialData_`), the send queue, and the elements passed to `transport_.receive`,
each as its bytes. -/
structure UnixTransport where
  isConnected_ : Bool
  socketOpen : Bool
  socketSent : List Block
  socketReceives : Nat
  partialData_ : List Nat
  sendQueue_ : List Block
  connectionInProgress_ : Bool
  received : List (List Nat)
  deriving DecidableEq, Repr

namespace UnixTransport

/-- The constructor `Impl(transport)` of a transport that is not connected. -/
def mk1 : UnixTransport :=
  { isConnected_ := false, socketOpen := false, socketSent := [], socketReceives := 0,
    partialData_ := [], sendQueue_ := [], connectionInProgress_ := false, received := [] }

def partialDataSize_ (self : UnixTransport) : Nat :=
  self.partialData_.length

/-- The method `connectHandler(error)`; the error code 0 is success. The result is the
message of the `Transport::Error` raised, if any. -/
def connectHandler (self : UnixTransport) (error : Nat) : Except String Unit × UnixTransport :=
  let self := { self with connectionInProgress_ := false }
  if error = 0 then
    let self := { self with partialData_ := [] }
    let self := { self with socketReceives := self.socketReceives + 1 }
    let self := { self with isConnected_ := true }
    let self := self.sendQueue_.foldl
      (fun (s : UnixTransport) i => { s with socketSent := s.socketSent ++ [i] }) self
    (.ok (), { self with sendQueue_ := [] })
  else
    -- may need to throw exception
    (.error "error while connecting to the forwarder", { self with isConnected_ := false })

/-- The method `connect()`; the connection completes with a later `connectHandler`. -/
def connect (self : UnixTransport) : UnixTransport :=
  if !self.connectionInProgress_ then
    { self with connectionInProgress_ := true, socketOpen := true }
  else self

def close (self : UnixTransport) : UnixTransport :=
  { self with socketOpen := false, isConnected_ := false }

/-- The method `send(wire)`. -/
def send (self : UnixTransport) (wire : Block) : UnixTransport :=
  if !self.isConnected_ then { self with sendQueue_ := self.sendQueue_ ++ [wire] }
  else { self with socketSent := self.socketSent ++ [wire] }

/-- The method `processAll(buffer, offset, availableSize)` on the `availableSize` bytes
of the buffer: the outcome (a `Tlv::Error` leaves the loop), the offset reached and the
elements received. Every element has at least one byte, so that as many rounds as the
buffer has bytes are enough; the first argument counts them down. -/
def processAll : Nat → List Nat → Nat → List (List Nat) →
    Except Error Unit × Nat × List (List Nat)
  | 0, buffer, offset, received =>
    if offset < buffer.length then (.error .codecError, offset, received)
    else (.ok (), offset, received)
  | fuel + 1, buffer, offset, received =>
    if offset < buffer.length then
      match Block.fromBuffer (buffer.drop offset) with
      | .error e => (.error e, offset, received)
      | .ok element => processAll fuel buffer (offset + element.length) (received ++ [element])
    else (.ok (), offset, received)

/-- The method `handle_async_receive(error, bytes_recvd)`; `input` are the
`bytes_recvd` bytes that the socket has put into `inputBuffer_`. -/
def handle_async_receive (self : UnixTransport) (error : Nat) (input : List Nat) :
    Except String Unit × UnixTransport :=
  let bytes_recvd := input.length
  if error ≠ 0 then
    -- closing at this point may not be that necessary
    (.error "error while receiving data from socket",
      { self with socketOpen := false, isConnected_ := true })
  else
    let r : Except String Unit × UnixTransport :=
      if bytes_recvd > 0 then
        if self.partialDataSize_ > 0 then
          let newDataSize := min bytes_recvd (MAX_LENGTH - self.partialDataSize_)
          let self := { self with partialData_ := self.partialData_ ++ input.take newDataSize }
          match processAll self.partialDataSize_ self.partialData_ 0 self.received with
          | (.ok _, _, received) =>
            -- no exceptions => processed the whole thing
            let self := { self with received := received }
            if bytes_recvd - newDataSize > 0 then
              -- there is a little bit more data available
              let self := { self with partialData_ := input.drop newDataSize }
              match processAll self.partialDataSize_ self.partialData_ 0 self.received with
              | (.ok _, _, received) =>
                (.ok (), { self with received := received, partialData_ := [] })
              | (.error _, offset, received) =>
                let self := { self with received := received }
                if offset > 0 then
                  (.ok (), { self with partialData_ := self.partialData_.drop offset })
                else if offset = 0 ∧ self.partialDataSize_ = MAX_LENGTH then
                  (.error "input buffer full, but a valid TLV cannot be decoded",
                    { self with socketOpen := false, isConnected_ := true })
                else (.ok (), self)
            else
              -- done processing
              (.ok (), { self with partialData_ := [] })
          | (.error _, offset, received) =>
            let self := { self with received := received }
            if offset > 0 then
              (.ok (), { self with partialData_ := self.partialData_.drop offset })
            else if offset = 0 ∧ self.partialDataSize_ = MAX_LENGTH then
              -- very bad... should close connection
              (.error "input buffer full, but a valid TLV cannot be decoded",
                { self with socketOpen := false, isConnected_ := true })
            else (.ok (), self)
        else
          match processAll bytes_recvd input 0 self.received with
          | (.ok _, _, received) => (.ok (), { self with received := received })
          | (.error _, offset, received) =>
            let self := { self with received := received }
            if offset > 0 then
              (.ok (), { self with partialData_ := input.drop offset })
            else (.ok (), self)
      else (.ok (), self)
    match r with
    | (.error e, self) => (.error e, self)
    | (.ok _, self) => (.ok (), { self with socketReceives := self.socketReceives + 1 })

/-- The transport after a sequence of chunks received without a socket error; a
`Transport::Error` ends the run. -/
def receiveAll : UnixTransport → List (List Nat) → Except String Unit × UnixTransport
  | t, [] => (.ok (), t)
  | t, chunk :: chunks =>
    match t.handle_async_receive 0 chunk with
    | (.error e, t2) => (.error e, t2)
    | (.ok _, t2) => receiveAll t2 chunks

/-- A transport that is connected and has received nothing. -/
def connected : UnixTransport :=
  (mk1.connect.connectHandler 0).2

end UnixTransport

namespace Examples

/-- A certificate `/s/KEY/<i>/<issuer>/v=1` with a long issuer component and a content
of 294 bytes; its reduced wire form has 705 bytes. -/
def certLong (i : Nat) : Data :=
  { m_name := [generic [115], generic [75, 69, 89], generic [i],
      generic (List.replicate 380 0), v1],
    m_freshnessPeriod := 3600000, m_finalBlockId := none,
    m_content := ⟨Tlv.Content, List.replicate 294 48⟩, m_signature := .withKey none }

/-- A fresh bundle state that holds a chain of thirteen such certificates. -/
def stateLongChain : BundleState :=
  { BundleState.mk1 nameS with m_certificateChain := (List.range 13).map certLong }

end Examples

namespace Examples

/-- A chunk of 9000 bytes that starts a TLV element of type 5 with the declared length
12288: no element can be decoded from it. -/
def chunkOversized : List Nat := [5, 253, 48, 0] ++ List.replicate 8996 0

/-- A chunk of 9000 bytes: the element `7 0` and then the start of such an oversized
element. -/
def chunkThenOversized : List Nat := [7, 0, 5, 253, 48, 0] ++ List.replicate 8994 0

end Examples

namespace Examples

/-- An Interest block with the children Name `/a/b`, Nonce `0x01020304` and
InterestLifetime 2000, in the order of the grammar. -/
def wireOrdered : Block :=
  ⟨Tlv.Interest, tlvBytes Tlv.Name nameABValue ++ tlvBytes Tlv.Nonce [1, 2, 3, 4] ++
    tlvBytes Tlv.InterestLifetime [7, 208]⟩

/-- The same children in the opposite order. -/
def wireReordered : Block :=
  ⟨Tlv.Interest, tlvBytes Tlv.InterestLifetime [7, 208] ++ tlvBytes Tlv.Nonce [1, 2, 3, 4] ++
    tlvBytes Tlv.Name nameABValue⟩

/-- A final segment 0 of the bundle `/s/v/Data/v=1/BUNDLE/v=1` without certificates: what
the producer stores for an empty chain. -/
def bundleSegEmpty : Data :=
  { m_name := nameDataBundle ++ [v1, seg0], m_freshnessPeriod := 10000,
    m_finalBlockId := some seg0, m_content := ⟨Tlv.Content, []⟩,
    m_signature := .digestSha256 }

end Examples

namespace Examples

/-- An Interest with a memo that no longer matches its fields: it was decoded from
`wireNameOnly`, which left the nonce 0, and `getNonce` then assigned the nonce 7; the
memo is still the block `wireNameOnly`. -/
def interestStaleMemo : Interest :=
  (Interest.getNonce 7 ((Interest.mk0 0).wireDecode SpecCodec.codecs wireNameOnly).2).2

end Examples

namespace Examples

/-- The Interest `/a/b` (nonce `0x01020304`, lifetime 2000) after a failed
`wireDecode` of the block of type Data: its fields are as before and its memo is the
rejected block. -/
def interestAfterFailedDecode : Interest :=
  (interestAB.wireDecode SpecCodec.codecs wireDataTyped).2

end Examples
/-! ## Facts about the TLV primitives -/

theorem beBytes_length (k n : Nat) : (beBytes k n).length = k := by
  induction k with
  | zero => rfl
  | succ k ih => simp [beBytes, ih]

theorem foldl_beBytes (k n acc : Nat) :
    (beBytes k n).foldl (fun a b => a * 256 + b) acc = acc * 256 ^ k + n % 256 ^ k := by
  induction k generalizing acc with
  | zero => simp [beBytes, Nat.mod_one]
  | succ k ih =>
    simp only [beBytes, List.foldl_cons, ih]
    have h1 : n % 256 ^ (k + 1) = 256 ^ k * (n / 256 ^ k % 256) + n % 256 ^ k := by
      rw [pow_succ, Nat.mod_mul, Nat.add_comm]
    rw [h1]
    ring

theorem fromBE_beBytes (k n : Nat) : fromBE (beBytes k n) = n % 256 ^ k := by
  simp [fromBE, foldl_beBytes]

theorem fromBE_beBytes_of_lt (k n : Nat) (h : n < 256 ^ k) : fromBE (beBytes k n) = n := by
  rw [fromBE_beBytes, Nat.mod_eq_of_lt h]

theorem prependVarNumber_snd (block : EncodingBuffer) (n : Nat) :
    (prependVarNumber block n).2 = encodeVarNumber n ++ block := by
  unfold encodeVarNumber prependVarNumber
  split_ifs <;> simp

theorem prependVarNumber_fst (block : EncodingBuffer) (n : Nat) :
    (prependVarNumber block n).1 = (encodeVarNumber n).length := by
  unfold encodeVarNumber prependVarNumber
  split_ifs <;> simp [beBytes_length]

theorem prependNonNegativeInteger_snd (block : EncodingBuffer) (n : Nat) :
    (prependNonNegativeInteger block n).2 = encodeNonNegativeInteger n ++ block := by
  unfold encodeNonNegativeInteger prependNonNegativeInteger
  split_ifs <;> simp

theorem prependNonNegativeInteger_fst (block : EncodingBuffer) (n : Nat) :
    (prependNonNegativeInteger block n).1 = (encodeNonNegativeInteger n).length := by
  unfold encodeNonNegativeInteger prependNonNegativeInteger
  split_ifs <;> simp [beBytes_length]

theorem encodeNonNegativeInteger_length (n : Nat) :
    (encodeNonNegativeInteger n).length = 1 ∨ (encodeNonNegativeInteger n).length = 2 ∨
      (encodeNonNegativeInteger n).length = 4 ∨ (encodeNonNegativeInteger n).length = 8 := by
  unfold encodeNonNegativeInteger prependNonNegativeInteger
  split_ifs <;> simp [beBytes_length]

theorem encodeNonNegativeInteger_length_lt (n : Nat) :
    (encodeNonNegativeInteger n).length < 2 ^ 64 := by
  rcases encodeNonNegativeInteger_length n with h | h | h | h <;> rw [h] <;> norm_num

theorem fromBE_encodeNonNegativeInteger (n : Nat) (h : n < 2 ^ 64) :
    fromBE (encodeNonNegativeInteger n) = n := by
  unfold encodeNonNegativeInteger prependNonNegativeInteger
  split_ifs with h1 h2 h3 <;> simp only [List.append_nil] <;>
    apply fromBE_beBytes_of_lt <;> norm_num at * <;> omega

/-- The block helper writes one TLV element and returns its size. -/
theorem prependNonNegativeIntegerBlock_snd (block : EncodingBuffer) (type n : Nat) :
    (prependNonNegativeIntegerBlock block type n).2 =
      tlvBytes type (encodeNonNegativeInteger n) ++ block := by
  simp [prependNonNegativeIntegerBlock, prependVarNumber_snd, prependNonNegativeInteger_snd,
    prependNonNegativeInteger_fst, tlvBytes]

theorem prependNonNegativeIntegerBlock_fst (block : EncodingBuffer) (type n : Nat) :
    (prependNonNegativeIntegerBlock block type n).1 =
      (tlvBytes type (encodeNonNegativeInteger n)).length := by
  simp [prependNonNegativeIntegerBlock, prependVarNumber_snd, prependVarNumber_fst,
    prependNonNegativeInteger_fst, tlvBytes]
  omega

/-- Reading back a var-number that was written in front of `rest`. -/
theorem readVarNumber_encode (n : Nat) (rest : List Nat) (h : n < 2 ^ 64) :
    readVarNumber (encodeVarNumber n ++ rest) = .ok (n, rest) := by
  unfold encodeVarNumber prependVarNumber
  split_ifs with h1 h2 h3
  · simp [readVarNumber, h1]
  · have e : fromBE (beBytes 2 n) = n := fromBE_beBytes_of_lt 2 n (by norm_num; omega)
    simp [readVarNumber, beBytes_length, List.take_append_of_le_length,
      List.drop_append_of_le_length, e]
  · have e : fromBE (beBytes 4 n) = n := fromBE_beBytes_of_lt 4 n (by norm_num; omega)
    simp [readVarNumber, beBytes_length, List.take_append_of_le_length,
      List.drop_append_of_le_length, e]
  · have e : fromBE (beBytes 8 n) = n := fromBE_beBytes_of_lt 8 n (by norm_num at h ⊢; omega)
    simp [readVarNumber, beBytes_length, List.take_append_of_le_length,
      List.drop_append_of_le_length, e]

/-- Reading a var-number consumes at least one byte. -/
theorem readVarNumber_length {bs : List Nat} {n : Nat} {r : List Nat}
    (h : readVarNumber bs = .ok (n, r)) : r.length < bs.length := by
  cases bs with
  | nil => simp [readVarNumber] at h
  | cons b rest =>
    simp only [readVarNumber] at h
    split_ifs at h <;> simp only [Except.ok.injEq, Prod.mk.injEq, reduceCtorEq] at h <;>
      obtain ⟨_, rfl⟩ := h <;> simp <;> omega

/-- Enough fuel: with any bound that is at least the number of bytes, `parseElements`
gives the same result. -/
theorem parseElements_fuel (f1 : Nat) : ∀ (f2 : Nat) (bs : List Nat),
    bs.length ≤ f1 → bs.length ≤ f2 → parseElements f1 bs = parseElements f2 bs := by
  induction f1 with
  | zero =>
    intro f2 bs h1 _
    have : bs = [] := List.length_eq_zero.mp (Nat.le_zero.mp h1)
    subst this
    cases f2 <;> rfl
  | succ f1 ih =>
    intro f2 bs h1 h2
    cases bs with
    | nil => cases f2 <;> rfl
    | cons b bs =>
      cases f2 with
      | zero => simp at h2
      | succ f2 =>
        simp only [parseElements]
        cases hr : readVarNumber (b :: bs) with
        | error e => rfl
        | ok p =>
          obtain ⟨t, r1⟩ := p
          have l1 := readVarNumber_length hr
          simp only
          cases hr2 : readVarNumber r1 with
          | error e => rfl
          | ok q =>
            obtain ⟨len, r2⟩ := q
            have l2 := readVarNumber_length hr2
            simp only
            split_ifs with hlt
            · rfl
            · have hd : (r2.drop len).length ≤ r2.length := by simp
              rw [ih f2 (r2.drop len) (by omega) (by omega)]

theorem encodeVarNumber_ne_nil (n : Nat) : encodeVarNumber n ≠ [] := by
  unfold encodeVarNumber prependVarNumber
  split_ifs <;> simp

theorem encodeVarNumber_length_le (n : Nat) : (encodeVarNumber n).length ≤ 9 := by
  unfold encodeVarNumber prependVarNumber
  split_ifs <;> simp [beBytes_length]

theorem tlvBytes_length_le (t : Nat) (v : List Nat) : (tlvBytes t v).length ≤ 18 + v.length := by
  have h1 := encodeVarNumber_length_le t
  have h2 := encodeVarNumber_length_le v.length
  simp only [tlvBytes, List.length_append]
  omega

/-- Parsing a byte string that starts with a whole TLV element gives that element,
followed by the elements of the rest. -/
theorem parseElements_tlvBytes (t : Nat) (v rest : List Nat) (ht : t < 2 ^ 64)
    (hv : v.length < 2 ^ 64) (f : Nat) (hf : (tlvBytes t v ++ rest).length ≤ f) :
    parseElements f (tlvBytes t v ++ rest) =
      match parseElements rest.length rest with
      | .error e => .error e
      | .ok es => .ok (⟨t, v⟩ :: es) := by
  cases hb : tlvBytes t v ++ rest with
  | nil =>
    exfalso
    have := encodeVarNumber_ne_nil t
    simp only [tlvBytes, List.append_assoc, List.append_eq_nil] at hb
    exact this hb.1
  | cons b bs =>
    cases f with
    | zero => rw [hb] at hf; simp at hf
    | succ f =>
      have hlen : rest.length ≤ f := by
        have h0 : 0 < (tlvBytes t v).length := by
          have := encodeVarNumber_ne_nil t
          simp only [tlvBytes, List.length_append]
          have : 0 < (encodeVarNumber t).length := List.length_pos.mpr this
          omega
        simp only [List.length_append] at hf
        omega
      simp only [parseElements]
      rw [← hb]
      have e1 : readVarNumber (tlvBytes t v ++ rest) =
          .ok (t, encodeVarNumber v.length ++ (v ++ rest)) := by
        simp only [tlvBytes, List.append_assoc]
        exact readVarNumber_encode t _ ht
      have e2 : readVarNumber (encodeVarNumber v.length ++ (v ++ rest)) = .ok (v.length, v ++ rest) :=
        readVarNumber_encode v.length _ hv
      simp only [e1, e2]
      have e3 : ¬ ((v ++ rest).length < v.length) := by simp
      rw [if_neg e3]
      simp only [List.drop_left, List.take_left]
      rw [parseElements_fuel f rest.length rest hlen (le_refl _)]

/-- Parsing the bytes of a sequence of elements gives the sequence back. -/
theorem parseElements_encodeElements (es : List Block)
    (h : ∀ e ∈ es, e.type < 2 ^ 64 ∧ e.value.length < 2 ^ 64) :
    parseElements (encodeElements es).length (encodeElements es) = .ok es := by
  induction es with
  | nil => rfl
  | cons e es ih =>
    have he := h e (List.mem_cons_self _ _)
    have ih2 := ih (fun x hx => h x (List.mem_cons_of_mem _ hx))
    have hc : encodeElements (e :: es) = tlvBytes e.type e.value ++ encodeElements es := by
      simp [encodeElements]
    rw [hc, parseElements_tlvBytes e.type e.value _ he.1 he.2 _ (le_refl _), ih2]

/-- The block of a buffer that holds one whole TLV element. -/
theorem block_tlvBytes (t : Nat) (v : List Nat) (ht : t < 2 ^ 64) (hv : v.length < 2 ^ 64) :
    EncodingBuffer.block (tlvBytes t v) = .ok ⟨t, v⟩ := by
  have e1 : readVarNumber (tlvBytes t v) = .ok (t, encodeVarNumber v.length ++ v) := by
    simp only [tlvBytes]
    exact readVarNumber_encode t _ ht
  have e2 : readVarNumber (encodeVarNumber v.length ++ v) = .ok (v.length, v) := by
    have := readVarNumber_encode v.length v hv
    simpa using this
  simp [EncodingBuffer.block, e1, e2]

theorem readNonNegativeInteger_encode (t n : Nat) (h : n < 2 ^ 64) :
    readNonNegativeInteger ⟨t, encodeNonNegativeInteger n⟩ = .ok n := by
  simp only [readNonNegativeInteger]
  rw [if_pos (encodeNonNegativeInteger_length n), fromBE_encodeNonNegativeInteger n h]

/-! ## The Interest encoder -/

theorem prependNonNegativeIntegerBlock_eq (block : EncodingBuffer) (type n : Nat) :
    prependNonNegativeIntegerBlock block type n =
      ((tlvBytes type (encodeNonNegativeInteger n)).length,
        tlvBytes type (encodeNonNegativeInteger n) ++ block) :=
  Prod.ext (prependNonNegativeIntegerBlock_fst block type n)
    (prependNonNegativeIntegerBlock_snd block type n)

theorem prependVarNumber_eq (block : EncodingBuffer) (n : Nat) :
    prependVarNumber block n = ((encodeVarNumber n).length, encodeVarNumber n ++ block) :=
  Prod.ext (prependVarNumber_fst block n) (prependVarNumber_snd block n)

/-- The last two steps of an encoder: the length and the type in front of the children
that were written with total size `n`. -/
theorem prepend_header (type n : Nat) (l children block : List Nat)
    (hl : l = children ++ block) (hn : n = children.length) :
    (n + (encodeVarNumber n).length + (encodeVarNumber type).length,
      encodeVarNumber type ++ (encodeVarNumber n ++ l)) =
    ((tlvBytes type children).length, tlvBytes type children ++ block) := by
  subst hn hl
  simp only [tlvBytes, List.length_append, List.append_assoc, Prod.mk.injEq, and_true]
  omega

/-- What `wireEncodeImpl` writes and returns: one element of type `Interest` whose
value is the layout of the fields, in front of the buffer; the returned size is the
number of bytes written; the object changes as `getNonce` changes it. -/
theorem wireEncodeImpl_eq (c : SubCodecs) (rnd : Nat) (X : Interest) (block : EncodingBuffer) :
    X.wireEncodeImpl c rnd block =
      (((tlvBytes Tlv.Interest (X.layoutBytes c (X.getNonce rnd).1)).length,
        tlvBytes Tlv.Interest (X.layoutBytes c (X.getNonce rnd).1) ++ block),
       (X.getNonce rnd).2) := by
  simp only [Interest.wireEncodeImpl, Interest.layoutBytes, Interest.getInterestLifetime,
    Interest.getScope, Interest.getSelectors, Interest.getName, DEFAULT_INTEREST_LIFETIME,
    prependNonNegativeIntegerBlock_eq, prependVarNumber_eq, ge_iff_le, Nat.zero_add]
  by_cases h1 : 0 ≤ X.m_interestLifetime ∧ X.m_interestLifetime ≠ 4000
  · by_cases h2 : 0 ≤ X.m_scope
    · cases h3 : X.m_selectors.empty <;> simp only [if_pos h1, if_pos h2] <;>
      simp only [if_true, if_false, Bool.not_true, Bool.not_false,
        Bool.false_eq_true, List.nil_append, List.append_nil, Nat.zero_add] <;>
      rw [Prod.mk.injEq] <;> refine ⟨?_, rfl⟩ <;>
      refine prepend_header _ _ _ _ _ ?_ ?_ <;>
      simp only [List.length_append, List.length_nil, List.append_assoc, List.append_nil] <;>
      omega
    · cases h3 : X.m_selectors.empty <;> simp only [if_pos h1, if_neg h2] <;>
      simp only [if_true, if_false, Bool.not_true, Bool.not_false,
        Bool.false_eq_true, List.nil_append, List.append_nil, Nat.zero_add] <;>
      rw [Prod.mk.injEq] <;> refine ⟨?_, rfl⟩ <;>
      refine prepend_header _ _ _ _ _ ?_ ?_ <;>
      simp only [List.length_append, List.length_nil, List.append_assoc, List.append_nil] <;>
      omega
  · by_cases h2 : 0 ≤ X.m_scope
    · cases h3 : X.m_selectors.empty <;> simp only [if_neg h1, if_pos h2] <;>
      simp only [if_true, if_false, Bool.not_true, Bool.not_false,
        Bool.false_eq_true, List.nil_append, List.append_nil, Nat.zero_add] <;>
      rw [Prod.mk.injEq] <;> refine ⟨?_, rfl⟩ <;>
      refine prepend_header _ _ _ _ _ ?_ ?_ <;>
      simp only [List.length_append, List.length_nil, List.append_assoc, List.append_nil] <;>
      omega
    · cases h3 : X.m_selectors.empty <;> simp only [if_neg h1, if_neg h2] <;>
      simp only [if_true, if_false, Bool.not_true, Bool.not_false,
        Bool.false_eq_true, List.nil_append, List.append_nil, Nat.zero_add] <;>
      rw [Prod.mk.injEq] <;> refine ⟨?_, rfl⟩ <;>
      refine prepend_header _ _ _ _ _ ?_ ?_ <;>
      simp only [List.length_append, List.length_nil, List.append_assoc, List.append_nil] <;>
      omega

theorem toUInt64_of_nonneg (x : Int) (h0 : 0 ≤ x) (h1 : x < 2 ^ 64) :
    toUInt64 x = x.toNat := by
  unfold toUInt64
  rw [Int.emod_eq_of_lt h0 h1]

theorem toUInt64_lt (x : Int) : toUInt64 x < 2 ^ 64 := by
  unfold toUInt64
  have h : x % 2 ^ 64 < 2 ^ 64 := Int.emod_lt_of_pos x (by norm_num)
  have h0 : 0 ≤ x % 2 ^ 64 := Int.emod_nonneg x (by norm_num)
  omega

theorem toInt64_toUInt64 (x : Int) (h0 : 0 ≤ x) (h1 : x < 2 ^ 63) :
    toInt64 (toUInt64 x) = x := by
  rw [toUInt64_of_nonneg x h0 (by omega)]
  unfold toInt64
  have e : x.toNat % 2 ^ 64 = x.toNat := Nat.mod_eq_of_lt (by omega)
  rw [e, if_pos (by omega)]
  omega

theorem toInt32_toUInt64 (x : Int) (h0 : 0 ≤ x) (h1 : x < 2 ^ 31) :
    toInt32 (toUInt64 x) = x := by
  rw [toUInt64_of_nonneg x h0 (by omega)]
  unfold toInt32
  have e : x.toNat % 2 ^ 32 = x.toNat := Nat.mod_eq_of_lt (by omega)
  rw [e, if_pos (by omega)]
  omega

theorem toUInt32_of_lt (n : Nat) (h : n < 2 ^ 32) : toUInt32 n = n :=
  Nat.mod_eq_of_lt h

theorem toUInt32_lt (n : Nat) : toUInt32 n < 2 ^ 32 :=
  Nat.mod_lt n (by norm_num)

theorem Selectors.eq_default_of_empty (s : Selectors) (h : s.empty = true) :
    s = Selectors.default := by
  simpa [Selectors.empty] using h

/-- The call `getNonce` touches the nonce only. -/
theorem getNonce_snd (rnd : Nat) (X : Interest) :
    (X.getNonce rnd).2 = { X with m_nonce := (X.getNonce rnd).1 } := by
  unfold Interest.getNonce
  split_ifs <;> rfl

theorem getNonce_of_ne_zero (rnd : Nat) (X : Interest) (h : X.m_nonce ≠ 0) :
    X.getNonce rnd = (X.m_nonce, X) := by
  simp [Interest.getNonce, h]

theorem getNonce_fst_lt (rnd : Nat) (X : Interest) (h : X.m_nonce < 2 ^ 32) :
    (X.getNonce rnd).1 < 2 ^ 32 := by
  unfold Interest.getNonce
  split_ifs
  · exact toUInt32_lt rnd
  · exact h

/-- The byte layout is the encoding of the element layout once the sub-codecs write
one element each. -/
theorem layoutBytes_eq_encodeElements (c : SubCodecs) (n : Nat) (X : Interest)
    (vN vS : List Nat) (hN : c.nameEncode X.m_name = tlvBytes Tlv.Name vN)
    (hS : X.m_selectors.empty = false →
      c.selectorsEncode X.m_selectors = tlvBytes Tlv.Selectors vS) :
    X.layoutBytes c n = encodeElements (X.layoutElements vN vS n) := by
  unfold Interest.layoutBytes Interest.layoutElements
  rw [hN]
  cases h3 : X.m_selectors.empty
  · rw [hS h3]
    simp only [Bool.false_eq_true, if_false]
    split_ifs <;> simp [encodeElements]
  · simp only [if_true]
    split_ifs <;> simp [encodeElements]

theorem layoutElements_bounds (n : Nat) (X : Interest) (vN vS : List Nat)
    (h : vN.length + vS.length < 2 ^ 32) :
    ∀ e ∈ X.layoutElements vN vS n, e.type < 2 ^ 64 ∧ e.value.length < 2 ^ 64 := by
  intro e he
  have hn := encodeNonNegativeInteger_length_lt n
  have hs := encodeNonNegativeInteger_length_lt (toUInt64 X.m_scope)
  have hl := encodeNonNegativeInteger_length_lt (toUInt64 X.m_interestLifetime)
  have b : (2 : Nat) ^ 32 < 2 ^ 64 := by norm_num
  simp only [Interest.layoutElements, List.mem_cons, List.mem_append] at he
  rcases he with rfl | he | rfl | he | he
  · exact ⟨by norm_num [Tlv.Name], by simp only; omega⟩
  · split_ifs at he
    · simp at he
    · simp only [List.mem_singleton] at he
      subst he
      exact ⟨by norm_num [Tlv.Selectors], by simp only; omega⟩
  · exact ⟨by norm_num [Tlv.Nonce], hn⟩
  · split_ifs at he
    · simp only [List.mem_singleton] at he
      subst he
      exact ⟨by norm_num [Tlv.Scope], hs⟩
    · simp at he
  · split_ifs at he
    · simp only [List.mem_singleton] at he
      subst he
      exact ⟨by norm_num [Tlv.InterestLifetime], hl⟩
    · simp at he

theorem encodeElements_layout_length (n : Nat) (X : Interest) (vN vS : List Nat)
    (h : vN.length + vS.length < 2 ^ 32) :
    (encodeElements (X.layoutElements vN vS n)).length < 2 ^ 64 := by
  have hn := encodeNonNegativeInteger_length n
  have hs := encodeNonNegativeInteger_length (toUInt64 X.m_scope)
  have hl := encodeNonNegativeInteger_length (toUInt64 X.m_interestLifetime)
  have t1 := tlvBytes_length_le Tlv.Name vN
  have t2 := tlvBytes_length_le Tlv.Selectors vS
  have t3 := tlvBytes_length_le Tlv.Nonce (encodeNonNegativeInteger n)
  have t4 := tlvBytes_length_le Tlv.Scope (encodeNonNegativeInteger (toUInt64 X.m_scope))
  have t5 := tlvBytes_length_le Tlv.InterestLifetime
    (encodeNonNegativeInteger (toUInt64 X.m_interestLifetime))
  have b : (2 : Nat) ^ 32 + 200 < 2 ^ 64 := by norm_num
  unfold Interest.layoutElements
  split_ifs <;> simp [encodeElements] <;> omega

/-- Parsing the block of an encoded Interest gives the element layout. -/
theorem parse_layout (n : Nat) (X : Interest) (vN vS : List Nat)
    (h : vN.length + vS.length < 2 ^ 32) :
    Block.parse ⟨Tlv.Interest, encodeElements (X.layoutElements vN vS n)⟩ =
      .ok (X.layoutElements vN vS n) :=
  parseElements_encodeElements _ (layoutElements_bounds n X vN vS h)

theorem layoutBytes_getNonce (c : SubCodecs) (n rnd : Nat) (X : Interest) :
    (X.getNonce rnd).2.layoutBytes c n = X.layoutBytes c n := by
  rw [getNonce_snd]
  rfl

theorem getNonce_getNonce_snd (rnd1 rnd2 : Nat) (X : Interest) :
    ((X.getNonce rnd1).2.getNonce rnd2).2 = { X with m_nonce := X.encodedNonce rnd1 rnd2 } := by
  unfold Interest.encodedNonce
  rw [getNonce_snd rnd2, getNonce_snd rnd1]

/-- The block `wireEncode()` returns for an object without a memoised block, and the
object it leaves. -/
theorem wireEncode_fresh (c : SubCodecs) (rnd1 rnd2 : Nat) (X : Interest) (vN vS : List Nat)
    (hw : X.m_wire = none) (hN : c.nameEncode X.m_name = tlvBytes Tlv.Name vN)
    (hS : X.m_selectors.empty = false →
      c.selectorsEncode X.m_selectors = tlvBytes Tlv.Selectors vS)
    (hlen : vN.length + vS.length < 2 ^ 32) :
    X.wireEncode c rnd1 rnd2 =
      (.ok ⟨Tlv.Interest, encodeElements (X.layoutElements vN vS (X.encodedNonce rnd1 rnd2))⟩,
       { X with
         m_nonce := X.encodedNonce rnd1 rnd2,
         m_wire := some ⟨Tlv.Interest,
           encodeElements (X.layoutElements vN vS (X.encodedNonce rnd1 rnd2))⟩ }) := by
  have hb := block_tlvBytes Tlv.Interest
    (encodeElements (X.layoutElements vN vS (X.encodedNonce rnd1 rnd2)))
    (by norm_num [Tlv.Interest]) (encodeElements_layout_length _ X vN vS hlen)
  unfold Interest.wireEncode
  rw [hw]
  simp only [wireEncodeImpl_eq, List.append_nil, layoutBytes_getNonce]
  rw [layoutBytes_eq_encodeElements c _ X vN vS hN hS]
  have e : ((X.getNonce rnd1).2.getNonce rnd2).1 = X.encodedNonce rnd1 rnd2 := rfl
  rw [e, hb]
  simp only [getNonce_getNonce_snd]

theorem getElement_layout_name (n : Nat) (X : Interest) (vN vS : List Nat) :
    getElement (X.layoutElements vN vS n) Tlv.Name = .ok ⟨Tlv.Name, vN⟩ := by
  simp [Interest.layoutElements, getElement, findElement]

theorem findElement_layout_selectors (n : Nat) (X : Interest) (vN vS : List Nat) :
    findElement (X.layoutElements vN vS n) Tlv.Selectors =
      if X.m_selectors.empty then none else some ⟨Tlv.Selectors, vS⟩ := by
  unfold Interest.layoutElements
  split_ifs <;> simp [findElement, Tlv.Name, Tlv.Selectors, Tlv.Nonce, Tlv.Scope,
    Tlv.InterestLifetime]

theorem findElement_layout_nonce (n : Nat) (X : Interest) (vN vS : List Nat) :
    findElement (X.layoutElements vN vS n) Tlv.Nonce =
      some ⟨Tlv.Nonce, encodeNonNegativeInteger n⟩ := by
  unfold Interest.layoutElements
  split_ifs <;> simp [findElement, Tlv.Name, Tlv.Selectors, Tlv.Nonce, Tlv.Scope,
    Tlv.InterestLifetime]

theorem findElement_layout_scope (n : Nat) (X : Interest) (vN vS : List Nat) :
    findElement (X.layoutElements vN vS n) Tlv.Scope =
      if 0 ≤ X.m_scope then some ⟨Tlv.Scope, encodeNonNegativeInteger (toUInt64 X.m_scope)⟩
      else none := by
  unfold Interest.layoutElements
  split_ifs <;> simp [findElement, Tlv.Name, Tlv.Selectors, Tlv.Nonce, Tlv.Scope,
    Tlv.InterestLifetime]

theorem findElement_layout_lifetime (n : Nat) (X : Interest) (vN vS : List Nat) :
    findElement (X.layoutElements vN vS n) Tlv.InterestLifetime =
      if 0 ≤ X.m_interestLifetime ∧ X.m_interestLifetime ≠ 4000 then
        some ⟨Tlv.InterestLifetime, encodeNonNegativeInteger (toUInt64 X.m_interestLifetime)⟩
      else none := by
  unfold Interest.layoutElements
  split_ifs <;> simp [findElement, Tlv.Name, Tlv.Selectors, Tlv.Nonce, Tlv.Scope,
    Tlv.InterestLifetime]

/-- Decoding the block of an encoded Interest: the call returns, and every field is the
encoded one, except that an absent scope reads as -1 and an absent lifetime as 4000. -/
theorem wireDecode_layout (c : SubCodecs) (Y X : Interest) (n : Nat) (vN vS : List Nat)
    (hND : c.nameDecode ⟨Tlv.Name, vN⟩ = .ok X.m_name)
    (hSD : X.m_selectors.empty = false →
      c.selectorsDecode ⟨Tlv.Selectors, vS⟩ = .ok X.m_selectors)
    (hlen : vN.length + vS.length < 2 ^ 32) (hn : n < 2 ^ 32)
    (hscope : X.m_scope < 2 ^ 31) (hlt : X.m_interestLifetime < 2 ^ 63) :
    Y.wireDecode c ⟨Tlv.Interest, encodeElements (X.layoutElements vN vS n)⟩ =
      (.ok (),
       { m_name := X.m_name, m_selectors := X.m_selectors, m_nonce := n,
         m_scope := if 0 ≤ X.m_scope then X.m_scope else -1,
         m_interestLifetime := if 0 ≤ X.m_interestLifetime then X.m_interestLifetime else 4000,
         m_wire := some ⟨Tlv.Interest, encodeElements (X.layoutElements vN vS n)⟩,
         m_incomingFaceId := Y.m_incomingFaceId }) := by
  unfold Interest.wireDecode
  simp only [parse_layout n X vN vS hlen, getElement_layout_name, hND,
    findElement_layout_selectors, findElement_layout_nonce, findElement_layout_scope,
    findElement_layout_lifetime, ne_eq, not_true_eq_false, if_false]
  have hnn : readNonNegativeInteger ⟨Tlv.Nonce, encodeNonNegativeInteger n⟩ = .ok n :=
    readNonNegativeInteger_encode _ n (by omega)
  have e1 : (match (if X.m_selectors.empty then none else some (⟨Tlv.Selectors, vS⟩ : Block)) with
      | some val => c.selectorsDecode val
      | none => Except.ok Selectors.default) = .ok X.m_selectors := by
    cases h3 : X.m_selectors.empty
    · simp [hSD h3]
    · simp [(Selectors.eq_default_of_empty _ h3).symm]
  have e3 : (match (if 0 ≤ X.m_scope then
        some (⟨Tlv.Scope, encodeNonNegativeInteger (toUInt64 X.m_scope)⟩ : Block) else none) with
      | some val => (readNonNegativeInteger val).map toInt32
      | none => Except.ok (-1)) = .ok (if 0 ≤ X.m_scope then X.m_scope else -1) := by
    split_ifs with h
    · simp [readNonNegativeInteger_encode _ _ (toUInt64_lt X.m_scope), Except.map,
        toInt32_toUInt64 _ h hscope]
    · rfl
  have e4 : (match (if 0 ≤ X.m_interestLifetime ∧ X.m_interestLifetime ≠ 4000 then
        some (⟨Tlv.InterestLifetime,
          encodeNonNegativeInteger (toUInt64 X.m_interestLifetime)⟩ : Block) else none) with
      | some val => (readNonNegativeInteger val).map toInt64
      | none => Except.ok DEFAULT_INTEREST_LIFETIME) =
        .ok (if 0 ≤ X.m_interestLifetime then X.m_interestLifetime else 4000) := by
    by_cases h : 0 ≤ X.m_interestLifetime
    · by_cases h4 : X.m_interestLifetime = 4000
      · simp [h4, DEFAULT_INTEREST_LIFETIME]
      · simp [h, h4, readNonNegativeInteger_encode _ _ (toUInt64_lt X.m_interestLifetime),
          Except.map, toInt64_toUInt64 _ h hlt]
    · simp [h, DEFAULT_INTEREST_LIFETIME]
  simp only [e1, e3, e4]
  simp only [hnn, Except.map, toUInt32_of_lt n hn]

/-- Encoding an object without a memoised block and decoding the result into any
object `Y`: the decode returns, and the decoded object has the name, selectors and
scope of `X`, the nonce that was written, and the lifetime of `X` when that is not
negative, 4000 otherwise. -/
theorem roundTrip_core (c : SubCodecs) (X Y : Interest) (rnd1 rnd2 : Nat) (vN vS : List Nat)
    (hw : X.m_wire = none) (hsub : X.SubCodecsRoundTrip c vN vS) (hn : X.m_nonce < 2 ^ 32)
    (hscope : X.m_scope = -1 ∨ (0 ≤ X.m_scope ∧ X.m_scope < 2 ^ 31))
    (hlt : X.m_interestLifetime < 2 ^ 63) :
    ∃ w, X.wireEncode c rnd1 rnd2 =
        (.ok w, { X with m_nonce := X.encodedNonce rnd1 rnd2, m_wire := some w }) ∧
      Y.wireDecode c w =
        (.ok (),
         { m_name := X.m_name, m_selectors := X.m_selectors,
           m_nonce := X.encodedNonce rnd1 rnd2, m_scope := X.m_scope,
           m_interestLifetime :=
             if 0 ≤ X.m_interestLifetime then X.m_interestLifetime else 4000,
           m_wire := some w, m_incomingFaceId := Y.m_incomingFaceId }) := by
  obtain ⟨hN, hND, hS, hlen⟩ := hsub
  refine ⟨_, wireEncode_fresh c rnd1 rnd2 X vN vS hw hN (fun h => (hS h).1) hlen, ?_⟩
  have hn2 : X.encodedNonce rnd1 rnd2 < 2 ^ 32 := by
    unfold Interest.encodedNonce
    apply getNonce_fst_lt
    rw [getNonce_snd]
    exact getNonce_fst_lt rnd1 X hn
  have hsc : X.m_scope < 2 ^ 31 := by omega
  rw [wireDecode_layout c Y X _ vN vS hND (fun h => (hS h).2) hlen hn2 hsc hlt]
  have e : (if 0 ≤ X.m_scope then X.m_scope else -1) = X.m_scope := by
    split_ifs with h
    · rfl
    · omega
  rw [e]

/-! ## The claims about the Interest codec -/

/-- C1, as the code has it: for every Interest `X` without a memoised block, with a
32-bit nonce, a scope that is -1 or non-negative and a lifetime that is -1 or
non-negative, and sub-codecs that round-trip on its name and selectors, `wireEncode`
returns a block and `wireDecode` of that block returns with the name, selectors and
scope of `X`, with the nonce `X` holds after the encode (its own nonce when that is
not 0) and with the lifetime of `X`, except that an unset lifetime (-1) decodes as the
default 4000. -/
theorem C1_roundTrip_lifetime_default (c : SubCodecs) (X Y : Interest) (rnd1 rnd2 : Nat)
    (vN vS : List Nat) (hw : X.m_wire = none) (hsub : X.SubCodecsRoundTrip c vN vS)
    (hn : X.m_nonce < 2 ^ 32)
    (hscope : X.m_scope = -1 ∨ (0 ≤ X.m_scope ∧ X.m_scope < 2 ^ 31))
    (hlt : X.m_interestLifetime = -1 ∨
      (0 ≤ X.m_interestLifetime ∧ X.m_interestLifetime < 2 ^ 63)) :
    ∃ w, (X.wireEncode c rnd1 rnd2).1 = .ok w ∧
      (Y.wireDecode c w).1 = .ok () ∧
      (Y.wireDecode c w).2.m_name = X.m_name ∧
      (Y.wireDecode c w).2.m_selectors = X.m_selectors ∧
      (Y.wireDecode c w).2.m_nonce = (X.wireEncode c rnd1 rnd2).2.m_nonce ∧
      (X.m_nonce ≠ 0 → (Y.wireDecode c w).2.m_nonce = X.m_nonce) ∧
      (Y.wireDecode c w).2.m_scope = X.m_scope ∧
      (Y.wireDecode c w).2.m_interestLifetime =
        (if X.m_interestLifetime = -1 then 4000 else X.m_interestLifetime) := by
  obtain ⟨w, he, hd⟩ := roundTrip_core c X Y rnd1 rnd2 vN vS hw hsub hn hscope (by omega)
  refine ⟨w, ?_⟩
  rw [he, hd]
  refine ⟨rfl, rfl, rfl, rfl, rfl, ?_, rfl, ?_⟩
  · intro h0
    simp only [Interest.encodedNonce, getNonce_of_ne_zero _ X h0]
  · simp only
    rcases hlt with h | h
    · rw [h]; rfl
    · rw [if_pos h.1, if_neg (by omega)]

/-- C1 fails as stated: the Interest `/a/b` with nonce `0x01020304` and an unset
lifetime (-1) encodes to a block without a lifetime element, and decoding that block
gives the lifetime 4000, not -1. -/
theorem C1_counterexample_unset_lifetime :
    (Examples.interestNoLifetime.wireEncode SpecCodec.codecs 0 0).1 =
        .ok Examples.wireNoLifetime ∧
      ((Interest.mk0 0).wireDecode SpecCodec.codecs Examples.wireNoLifetime).1 = .ok () ∧
      ((Interest.mk0 0).wireDecode SpecCodec.codecs
        Examples.wireNoLifetime).2.m_interestLifetime = 4000 ∧
      Examples.interestNoLifetime.m_interestLifetime = -1 := by
  decide

/-- The amended C1 at the Interest `/a/b` with an unset lifetime. -/
theorem C1_roundTrip_lifetime_default_witness :
    Examples.interestNoLifetime.m_wire = none ∧
      Examples.interestNoLifetime.SubCodecsRoundTrip SpecCodec.codecs Examples.nameABValue [] ∧
      ∃ w, (Examples.interestNoLifetime.wireEncode SpecCodec.codecs 0 0).1 = .ok w ∧
        ((Interest.mk0 0).wireDecode SpecCodec.codecs w).1 = .ok () ∧
        ((Interest.mk0 0).wireDecode SpecCodec.codecs w).2.m_name =
          Examples.interestNoLifetime.m_name ∧
        ((Interest.mk0 0).wireDecode SpecCodec.codecs w).2.m_selectors =
          Examples.interestNoLifetime.m_selectors ∧
        ((Interest.mk0 0).wireDecode SpecCodec.codecs w).2.m_nonce =
          (Examples.interestNoLifetime.wireEncode SpecCodec.codecs 0 0).2.m_nonce ∧
        (Examples.interestNoLifetime.m_nonce ≠ 0 →
          ((Interest.mk0 0).wireDecode SpecCodec.codecs w).2.m_nonce =
            Examples.interestNoLifetime.m_nonce) ∧
        ((Interest.mk0 0).wireDecode SpecCodec.codecs w).2.m_scope =
          Examples.interestNoLifetime.m_scope ∧
        ((Interest.mk0 0).wireDecode SpecCodec.codecs w).2.m_interestLifetime =
          (if Examples.interestNoLifetime.m_interestLifetime = -1 then 4000
           else Examples.interestNoLifetime.m_interestLifetime) :=
  ⟨rfl, by decide,
    C1_roundTrip_lifetime_default SpecCodec.codecs Examples.interestNoLifetime (Interest.mk0 0)
      0 0 Examples.nameABValue [] rfl (by decide) (by decide) (by decide) (by decide)⟩

/-- C2, as the code has it: for every Interest without a memoised block (`m_wire` not
set) that has a non-zero 32-bit nonce, a scope that is -1 or non-negative and a
non-negative lifetime, and whose name and selectors the sub-codecs round-trip,
`wireEncode` returns a block `w` and `wireDecode(w)` returns with exactly the name,
selectors, nonce, scope and lifetime of the encoded Interest (and `w` as its memo). -/
theorem C2_roundTrip (c : SubCodecs) (X Y : Interest) (rnd1 rnd2 : Nat) (vN vS : List Nat)
    (hw : X.m_wire = none) (hsub : X.SubCodecsRoundTrip c vN vS)
    (hn0 : X.m_nonce ≠ 0) (hn : X.m_nonce < 2 ^ 32)
    (hscope : X.m_scope = -1 ∨ (0 ≤ X.m_scope ∧ X.m_scope < 2 ^ 31))
    (hlt : 0 ≤ X.m_interestLifetime ∧ X.m_interestLifetime < 2 ^ 63) :
    ∃ w, (X.wireEncode c rnd1 rnd2).1 = .ok w ∧
      Y.wireDecode c w =
        (.ok (), { X with m_wire := some w, m_incomingFaceId := Y.m_incomingFaceId }) := by
  obtain ⟨w, he, hd⟩ := roundTrip_core c X Y rnd1 rnd2 vN vS hw hsub hn hscope hlt.2
  refine ⟨w, ?_, ?_⟩
  · rw [he]
  · rw [hd, if_pos hlt.1]
    simp only [Interest.encodedNonce, getNonce_of_ne_zero _ X hn0]

/-- C2 fails as stated: an Interest decoded from the block that holds only the name
`/a/b` and then given the nonce 7 by `getNonce` has a non-zero nonce, scope -1 and
lifetime 4000, and the sub-codecs round-trip on its name and selectors; its memo is
still the decoded block, `wireEncode()` returns that memo, and decoding it gives the
nonce 0, not 7. Likewise the Interest `/a/b` with nonce `0x01020304` and lifetime
2000 after a failed decode: `wireEncode()` returns the rejected block, which does not
decode. -/
theorem C2_counterexample_stale_memo :
    Examples.interestStaleMemo.m_nonce = 7 ∧
      Examples.interestStaleMemo.m_scope = -1 ∧
      Examples.interestStaleMemo.m_interestLifetime = 4000 ∧
      Examples.interestStaleMemo.m_name = Examples.nameAB ∧
      Examples.interestStaleMemo.SubCodecsRoundTrip SpecCodec.codecs Examples.nameABValue [] ∧
      Examples.interestStaleMemo.m_wire = some Examples.wireNameOnly ∧
      (Examples.interestStaleMemo.wireEncode SpecCodec.codecs 0 0).1 =
        .ok Examples.wireNameOnly ∧
      ((Interest.mk0 0).wireDecode SpecCodec.codecs Examples.wireNameOnly).1 = .ok () ∧
      ((Interest.mk0 0).wireDecode SpecCodec.codecs Examples.wireNameOnly).2.m_nonce = 0 ∧
      ((Interest.mk0 0).wireDecode SpecCodec.codecs Examples.wireNameOnly).2.m_nonce ≠
        Examples.interestStaleMemo.m_nonce ∧
      Examples.interestAfterFailedDecode.m_nonce = 0x01020304 ∧
      Examples.interestAfterFailedDecode.m_scope = -1 ∧
      Examples.interestAfterFailedDecode.m_interestLifetime = 2000 ∧
      Examples.interestAfterFailedDecode.SubCodecsRoundTrip SpecCodec.codecs
        Examples.nameABValue [] ∧
      (Examples.interestAfterFailedDecode.wireEncode SpecCodec.codecs 0 0).1 =
        .ok Examples.wireDataTyped ∧
      ((Interest.mk0 0).wireDecode SpecCodec.codecs Examples.wireDataTyped).1 =
        .error .codecError := by
  decide

/-- The amended C2 at the specification's scenario `Interest(name=/a/b,
nonce=0x01020304, lifetime=2000)`, which has no memo. -/
theorem C2_roundTrip_witness :
    Examples.interestAB.m_wire = none ∧
      Examples.interestAB.SubCodecsRoundTrip SpecCodec.codecs Examples.nameABValue [] ∧
      ∃ w, (Examples.interestAB.wireEncode SpecCodec.codecs 0 0).1 = .ok w ∧
        (Interest.mk0 0).wireDecode SpecCodec.codecs w =
          (.ok (), { Examples.interestAB with m_wire := some w, m_incomingFaceId := 0 }) :=
  ⟨rfl, by decide,
    C2_roundTrip SpecCodec.codecs Examples.interestAB (Interest.mk0 0) 0 0
      Examples.nameABValue [] rfl (by decide) (by decide) (by decide) (by decide) (by decide)⟩

/-- Whatever `wireDecode` does, the block it was given is the memo afterwards. -/
theorem wireDecode_wire (c : SubCodecs) (Y : Interest) (wire : Block) :
    (Y.wireDecode c wire).2.m_wire = some wire := by
  unfold Interest.wireDecode
  simp only
  repeat' split
  all_goals rfl

/-- What a `wireDecode` that returns has done: the block parsed, has the Interest type
and a Name element, and the fields are the decoded elements or the defaults. -/
theorem wireDecode_ok_inv (c : SubCodecs) (Y : Interest) (wire : Block)
    (hok : (Y.wireDecode c wire).1 = .ok ()) :
    ∃ es nameBlock name selectors nonce scope lifetime,
      wire.parse = .ok es ∧ wire.type = Tlv.Interest ∧
      getElement es Tlv.Name = .ok nameBlock ∧ c.nameDecode nameBlock = .ok name ∧
      (match findElement es Tlv.Selectors with
        | some val => c.selectorsDecode val
        | none => .ok Selectors.default) = .ok selectors ∧
      (match findElement es Tlv.Nonce with
        | some val => (readNonNegativeInteger val).map toUInt32
        | none => .ok 0) = .ok nonce ∧
      (match findElement es Tlv.Scope with
        | some val => (readNonNegativeInteger val).map toInt32
        | none => .ok (-1)) = .ok scope ∧
      (match findElement es Tlv.InterestLifetime with
        | some val => (readNonNegativeInteger val).map toInt64
        | none => .ok DEFAULT_INTEREST_LIFETIME) = .ok lifetime ∧
      (Y.wireDecode c wire).2 =
        { m_name := name, m_selectors := selectors, m_nonce := nonce, m_scope := scope,
          m_interestLifetime := lifetime, m_wire := some wire,
          m_incomingFaceId := Y.m_incomingFaceId } := by
  unfold Interest.wireDecode at hok
  simp only at hok
  cases hp : wire.parse with
  | error e => simp [hp] at hok
  | ok es =>
    simp only [hp] at hok
    by_cases ht : wire.type = Tlv.Interest
    · simp only [ht, ne_eq, not_true_eq_false, if_false] at hok
      cases hg : getElement es Tlv.Name with
      | error e => simp [hg] at hok
      | ok nameBlock =>
        simp only [hg] at hok
        cases hnd : c.nameDecode nameBlock with
        | error e => simp [hnd] at hok
        | ok name =>
          simp only [hnd] at hok
          split at hok
          · simp at hok
          · rename_i selectors hsel
            split at hok
            · simp at hok
            · rename_i nonce hnonce
              split at hok
              · simp at hok
              · rename_i scope hscope
                split at hok
                · simp at hok
                · rename_i lifetime hlifetime
                  refine ⟨es, nameBlock, name, selectors, nonce, scope, lifetime, rfl, ht, hg,
                    hnd, hsel, hnonce, hscope, hlifetime, ?_⟩
                  unfold Interest.wireDecode
                  simp only [hp, ht, hg, hnd, hsel, hnonce, hscope, hlifetime, ne_eq,
                    not_true_eq_false, if_false]
    · simp [ht] at hok

/-- C4: when `wireDecode` returns on a block (a well-formed Interest block), every
optional field whose element is absent from the block has its default afterwards,
whatever the object held before: no InterestLifetime element gives lifetime 4000, no
Scope element gives scope -1, no Nonce element gives nonce 0, no Selectors element gives
the default selectors. -/
theorem C4_wireDecode_defaults (c : SubCodecs) (Y : Interest) (wire : Block) (es : List Block)
    (hp : wire.parse = .ok es) (hok : (Y.wireDecode c wire).1 = .ok ()) :
    (findElement es Tlv.InterestLifetime = none →
        (Y.wireDecode c wire).2.m_interestLifetime = 4000) ∧
      (findElement es Tlv.Scope = none → (Y.wireDecode c wire).2.m_scope = -1) ∧
      (findElement es Tlv.Nonce = none → (Y.wireDecode c wire).2.m_nonce = 0) ∧
      (findElement es Tlv.Selectors = none →
        (Y.wireDecode c wire).2.m_selectors = Selectors.default) := by
  obtain ⟨es2, nameBlock, name, selectors, nonce, scope, lifetime, hp2, _, _, _, hsel, hnonce,
    hscope, hlifetime, hres⟩ := wireDecode_ok_inv c Y wire hok
  rw [hp] at hp2
  cases hp2
  rw [hres]
  refine ⟨?_, ?_, ?_, ?_⟩
  · intro h
    rw [h] at hlifetime
    simp only [Except.ok.injEq, DEFAULT_INTEREST_LIFETIME] at hlifetime
    exact hlifetime.symm
  · intro h
    rw [h] at hscope
    simp only [Except.ok.injEq] at hscope
    exact hscope.symm
  · intro h
    rw [h] at hnonce
    simp only [Except.ok.injEq] at hnonce
    exact hnonce.symm
  · intro h
    rw [h] at hsel
    simp only [Except.ok.injEq] at hsel
    exact hsel.symm

/-- C4 at a block that holds only the name `/a/b`, decoded into an object that held
selectors, nonce `0x01020304`, scope 2 and lifetime 2000. -/
theorem C4_wireDecode_defaults_witness :
    Examples.wireNameOnly.parse = .ok [⟨Tlv.Name, Examples.nameABValue⟩] ∧
      (Examples.interestFull.wireDecode SpecCodec.codecs Examples.wireNameOnly).1 = .ok () ∧
      ((findElement [⟨Tlv.Name, Examples.nameABValue⟩] Tlv.InterestLifetime = none →
          (Examples.interestFull.wireDecode SpecCodec.codecs
            Examples.wireNameOnly).2.m_interestLifetime = 4000) ∧
        (findElement [⟨Tlv.Name, Examples.nameABValue⟩] Tlv.Scope = none →
          (Examples.interestFull.wireDecode SpecCodec.codecs
            Examples.wireNameOnly).2.m_scope = -1) ∧
        (findElement [⟨Tlv.Name, Examples.nameABValue⟩] Tlv.Nonce = none →
          (Examples.interestFull.wireDecode SpecCodec.codecs
            Examples.wireNameOnly).2.m_nonce = 0) ∧
        (findElement [⟨Tlv.Name, Examples.nameABValue⟩] Tlv.Selectors = none →
          (Examples.interestFull.wireDecode SpecCodec.codecs
            Examples.wireNameOnly).2.m_selectors = Selectors.default)) :=
  ⟨by decide, by decide,
    C4_wireDecode_defaults SpecCodec.codecs Examples.interestFull Examples.wireNameOnly
      [⟨Tlv.Name, Examples.nameABValue⟩] (by decide) (by decide)⟩

/-- C6: when `wireDecode` returns on a block `w`, a following `wireEncode()` returns
exactly `w` and leaves the object as it is. -/
theorem C6_wireEncode_after_wireDecode (c : SubCodecs) (Y : Interest) (w : Block)
    (rnd1 rnd2 : Nat) (hok : (Y.wireDecode c w).1 = .ok ()) :
    (Y.wireDecode c w).2.wireEncode c rnd1 rnd2 = (.ok w, (Y.wireDecode c w).2) := by
  obtain ⟨_, _, _, _, _, _, _, _, _, _, _, _, _, _, _, hres⟩ := wireDecode_ok_inv c Y w hok
  unfold Interest.wireEncode
  rw [hres]

/-- C6 at a block that carries an explicit InterestLifetime of 4000: the decode
returns, the following `wireEncode()` returns that block, although encoding a fresh
Interest with the decoded fields gives the shorter block without the lifetime. -/
theorem C6_wireEncode_after_wireDecode_witness :
    ((Interest.mk0 0).wireDecode SpecCodec.codecs Examples.wireExplicitDefaultLifetime).1 =
        .ok () ∧
      ((Interest.mk0 0).wireDecode SpecCodec.codecs
          Examples.wireExplicitDefaultLifetime).2.wireEncode SpecCodec.codecs 0 0 =
        (.ok Examples.wireExplicitDefaultLifetime,
         ((Interest.mk0 0).wireDecode SpecCodec.codecs
           Examples.wireExplicitDefaultLifetime).2) ∧
      (Examples.interestDefaultLifetime.wireEncode SpecCodec.codecs 0 0).1 =
        .ok Examples.wireNoLifetime :=
  ⟨by decide,
    C6_wireEncode_after_wireDecode SpecCodec.codecs (Interest.mk0 0)
      Examples.wireExplicitDefaultLifetime 0 0 (by decide),
    by decide⟩

/-- C7: `wireDecode` raises the codec error on every block whose type is not the
Interest type and on every Interest-typed block without a Name child; it does not
return for such input. -/
theorem C7_wireDecode_rejects (c : SubCodecs) (Y : Interest) (wire : Block)
    (h : wire.type ≠ Tlv.Interest ∨
      ∀ es, wire.parse = .ok es → ∀ e ∈ es, e.type ≠ Tlv.Name) :
    (Y.wireDecode c wire).1 = .error .codecError := by
  cases hr : (Y.wireDecode c wire).1 with
  | error e => cases e; rfl
  | ok u =>
    exfalso
    obtain ⟨es, nameBlock, _, _, _, _, _, hp, ht, hg, _⟩ := wireDecode_ok_inv c Y wire hr
    rcases h with h | h
    · exact h ht
    · unfold getElement at hg
      cases hf : findElement es Tlv.Name with
      | none => simp [hf] at hg
      | some e =>
        have hm := List.mem_of_find?_eq_some hf
        have hty := List.find?_some hf
        exact h es hp e hm (by simpa using hty)

/-- C7 at a Data-typed block and at an Interest-typed block without a name. -/
theorem C7_wireDecode_rejects_witness :
    Examples.wireDataTyped.type ≠ Tlv.Interest ∧
      ((Interest.mk0 0).wireDecode SpecCodec.codecs Examples.wireDataTyped).1 =
        .error .codecError ∧
      Examples.wireNoName.parse = .ok [⟨Tlv.Nonce, [1, 2, 3, 4]⟩] ∧
      ((Interest.mk0 0).wireDecode SpecCodec.codecs Examples.wireNoName).1 =
        .error .codecError :=
  ⟨by decide,
    C7_wireDecode_rejects SpecCodec.codecs (Interest.mk0 0) Examples.wireDataTyped
      (Or.inl (by decide)),
    by decide,
    C7_wireDecode_rejects SpecCodec.codecs (Interest.mk0 0) Examples.wireNoName
      (Or.inr (fun es hp e he => by
        have h2 : Examples.wireNoName.parse = .ok [⟨Tlv.Nonce, [1, 2, 3, 4]⟩] := by decide
        rw [h2] at hp
        cases hp
        simp only [List.mem_singleton] at he
        subst he
        decide))⟩

/-! ## Bundle-name derivation -/

theorem Name.get_last (init : Name) (b : Component) : Name.get (init ++ [b]) (-1) = some b := by
  simp [Name.get]

theorem Name.get_secondLast (init : Name) (a b : Component) :
    Name.get (init ++ [a, b]) (-2) = some a := by
  have e : (init ++ [a, b]).length - 2 = init.length := by simp
  have h : ¬ ((init ++ [a, b]).length < 2) := by simp
  simp only [Name.get]
  rw [if_neg (by decide), show (-(-2 : Int)).toNat = 2 from rfl, if_neg h, e,
    List.getElem?_append_right (le_refl _)]
  simp

theorem Name.getPrefix_last (init : Name) (b : Component) :
    Name.getPrefix (init ++ [b]) (-1) = init := by
  simp [Name.getPrefix]

theorem Name.getPrefix_secondLast (init : Name) (a b : Component) :
    Name.getPrefix (init ++ [a, b]) (-2) = init := by
  simp [Name.getPrefix]

/-- A name with at least one component is some name followed by its last component. -/
theorem Name.exists_concat (N : Name) (h : N ≠ []) : ∃ init b, N = init ++ [b] := by
  rcases List.eq_nil_or_concat N with h0 | ⟨init, b, hb⟩
  · exact absurd h0 h
  · exact ⟨init, b, by simpa using hb⟩

/-- A name with at least two components is some name followed by its last two. -/
theorem Name.exists_concat_two (N : Name) (h : 2 ≤ N.length) :
    ∃ init a b, N = init ++ [a, b] := by
  obtain ⟨L, b, hb⟩ := Name.exists_concat N (by intro h0; simp [h0] at h)
  obtain ⟨init, a, ha⟩ := Name.exists_concat L (by
    intro h0
    rw [hb, h0] at h
    simp at h)
  exact ⟨init, a, b, by rw [hb, ha]; simp⟩

theorem fromSegment_isSegment (k : Nat) : (Component.fromSegment k).isSegment = true := by
  have h := encodeNonNegativeInteger_length k
  simp only [Component.fromSegment, Component.fromNumberWithMarker, Component.isSegment,
    Component.isNumberWithMarker, List.head?_cons, List.length_cons]
  rcases h with h | h | h | h <;> simp [h]

theorem fromSegment_not_digest (k : Nat) :
    (Component.fromSegment k).isImplicitSha256Digest = false := by
  simp [Component.fromSegment, Component.fromNumberWithMarker,
    Component.isImplicitSha256Digest, Tlv.NameComponent, Tlv.ImplicitSha256DigestComponent]

/-- The bundle prefix of a name that ends in a segment component is the name before
that component. -/
theorem deriveBundleName_appendSegment (N : Name) (k : Nat) :
    deriveBundleName (Name.appendSegment N k) = some N := by
  simp [deriveBundleName, Name.appendSegment, Name.append, Name.get_last,
    fromSegment_isSegment, fromSegment_not_digest, Name.getPrefix_last]

/-- The bundle prefix of a name extended by an implicit digest: the name, or the name
without its last component when that is a segment. -/
theorem deriveBundleName_appendDigest (init : Name) (a d : Component)
    (hd : d.isImplicitSha256Digest = true) :
    deriveBundleName (Name.append (init ++ [a]) d) =
      some (if a.isSegment then init else init ++ [a]) := by
  have e : Name.append (init ++ [a]) d = init ++ [a, d] := by simp [Name.append]
  have e2 : init ++ [a, d] = (init ++ [a]) ++ [d] := by simp
  rw [e]
  simp only [deriveBundleName]
  rw [e2, Name.get_last, ← e2, Name.get_secondLast]
  simp only [hd, if_true]
  split_ifs
  · rw [Name.getPrefix_secondLast]
  · rw [e2, Name.getPrefix_last]

/-- C8: for every data name `N` with at least two components, the name of the bundle
interest is the specification's `strip(N)` followed by the component `"BUNDLE"`; for
`/s/v/Data/v=1/seg=3` and for `/s/v/Data/v=1/seg=3/<digest>` it is
`/s/v/Data/v=1/BUNDLE`. -/
theorem C8_bundleName_refines_spec (N : Name) (h : 2 ≤ N.length) :
    checkKeyBundle_bundleName N = some (specBundleName N) ∧
      checkKeyBundle_bundleName Examples.nameDataSeg = some Examples.nameDataBundle ∧
      checkKeyBundle_bundleName Examples.nameDataSegDigest = some Examples.nameDataBundle := by
  refine ⟨?_, by decide, by decide⟩
  obtain ⟨init, a, b, rfl⟩ := Name.exists_concat_two N h
  have e2 : init ++ [a, b] = (init ++ [a]) ++ [b] := by simp
  have hl : (init ++ [a, b]).getLast? = some b := by simp
  have hdl : (init ++ [a, b]).dropLast = init ++ [a] := by
    rw [e2, List.dropLast_concat]
  have hl2 : (init ++ [a]).getLast? = some a := by simp
  have hdl2 : (init ++ [a]).dropLast = init := List.dropLast_concat
  simp only [checkKeyBundle_bundleName, deriveBundleName, specBundleName, specStrip, hl, hdl,
    hl2, hdl2, Option.map_some', Option.some.injEq, Name.append]
  rw [e2, Name.get_last, ← e2, Name.get_secondLast, Name.getPrefix_secondLast, e2,
    Name.getPrefix_last]
  cases hb : b.isImplicitSha256Digest <;> cases ha : a.isSegment <;>
    cases hbs : b.isSegment <;> simp [hb, ha, hbs]

/-- C8 at the specification's names. -/
theorem C8_bundleName_refines_spec_witness :
    2 ≤ Examples.nameDataSegDigest.length ∧
      (checkKeyBundle_bundleName Examples.nameDataSegDigest =
          some (specBundleName Examples.nameDataSegDigest) ∧
        checkKeyBundle_bundleName Examples.nameDataSeg = some Examples.nameDataBundle ∧
        checkKeyBundle_bundleName Examples.nameDataSegDigest = some Examples.nameDataBundle) :=
  ⟨by decide, C8_bundleName_refines_spec Examples.nameDataSegDigest (by decide)⟩

/-- C9, as the code has it: for every non-empty name `N` whose last component is
neither a segment nor an implicit digest, and every segment number `k`,
`deriveBundleName(N.appendSegment(k))` equals `deriveBundleName(N)`; both are `N`. -/
theorem C9_appendSegment_stable (N : Name) (k : Nat) (c : Component)
    (hlast : N.getLast? = some c) (hseg : c.isSegment = false)
    (hdig : c.isImplicitSha256Digest = false) :
    deriveBundleName (Name.appendSegment N k) = deriveBundleName N ∧
      deriveBundleName N = some N := by
  have hne : N ≠ [] := by
    intro h0
    simp [h0] at hlast
  obtain ⟨init, b, rfl⟩ := Name.exists_concat N hne
  have hb : b = c := by simpa using hlast
  subst hb
  have hN : deriveBundleName (init ++ [b]) = some (init ++ [b]) := by
    simp [deriveBundleName, Name.get_last, hseg, hdig]
  exact ⟨by rw [deriveBundleName_appendSegment, hN], hN⟩

/-- C9 fails as stated: for `N = /a/seg=1` and `k = 3`,
`deriveBundleName(N.appendSegment(3))` is `/a/seg=1` and `deriveBundleName(N)` is `/a`. -/
theorem C9_counterexample_trailing_segment :
    deriveBundleName (Name.appendSegment Examples.nameASeg1 3) = some Examples.nameASeg1 ∧
      deriveBundleName Examples.nameASeg1 = some [Examples.generic [97]] ∧
      deriveBundleName (Name.appendSegment Examples.nameASeg1 3) ≠
        deriveBundleName Examples.nameASeg1 := by
  decide

/-- The amended C9 at `N = /s/v/Data/v=1` and `k = 3`. -/
theorem C9_appendSegment_stable_witness :
    Examples.nameDataV1.getLast? = some Examples.v1 ∧
      (deriveBundleName (Name.appendSegment Examples.nameDataV1 3) =
          deriveBundleName Examples.nameDataV1 ∧
        deriveBundleName Examples.nameDataV1 = some Examples.nameDataV1) :=
  ⟨by decide,
    C9_appendSegment_stable Examples.nameDataV1 3 Examples.v1 (by decide) (by decide)
      (by decide)⟩

/-- C10, as the code has it: for every non-empty name `N` whose last component is not
an implicit digest and every implicit digest component `d`,
`deriveBundleName(N.append(d))` equals `deriveBundleName(N)`; and two names that differ
only in their trailing implicit digest have the same bundle prefix. -/
theorem C10_appendDigest_stable (N : Name) (c d d2 : Component)
    (hlast : N.getLast? = some c) (hdig : c.isImplicitSha256Digest = false)
    (hd : d.isImplicitSha256Digest = true) (hd2 : d2.isImplicitSha256Digest = true) :
    deriveBundleName (Name.append N d) = deriveBundleName N ∧
      deriveBundleName (Name.append N d) = deriveBundleName (Name.append N d2) := by
  have hne : N ≠ [] := by
    intro h0
    simp [h0] at hlast
  obtain ⟨init, b, rfl⟩ := Name.exists_concat N hne
  have hb : b = c := by simpa using hlast
  subst hb
  have hN : deriveBundleName (init ++ [b]) = some (if b.isSegment then init else init ++ [b]) := by
    simp only [deriveBundleName, Name.get_last, hdig, Bool.false_eq_true, if_false]
    split_ifs
    · rw [Name.getPrefix_last]
    · rfl
  rw [deriveBundleName_appendDigest init b d hd, deriveBundleName_appendDigest init b d2 hd2, hN]
  exact ⟨rfl, rfl⟩

/-- C10 fails as stated: for `N = /a/<digest>` and another digest `d`,
`deriveBundleName(N.append(d))` is `/a/<digest>` and `deriveBundleName(N)` is `/a`. -/
theorem C10_counterexample_trailing_digest :
    Examples.digestB.isImplicitSha256Digest = true ∧
      deriveBundleName (Name.append Examples.nameADigest Examples.digestB) =
        some Examples.nameADigest ∧
      deriveBundleName Examples.nameADigest = some [Examples.generic [97]] ∧
      deriveBundleName (Name.append Examples.nameADigest Examples.digestB) ≠
        deriveBundleName Examples.nameADigest := by
  decide

/-- The amended C10 at `N = /s/v/Data/v=1/seg=3` and two digests. -/
theorem C10_appendDigest_stable_witness :
    Examples.nameDataSeg.getLast? = some Examples.seg3 ∧
      (deriveBundleName (Name.append Examples.nameDataSeg Examples.digestA) =
          deriveBundleName Examples.nameDataSeg ∧
        deriveBundleName (Name.append Examples.nameDataSeg Examples.digestA) =
          deriveBundleName (Name.append Examples.nameDataSeg Examples.digestB)) :=
  ⟨by decide,
    C10_appendDigest_stable Examples.nameDataSeg Examples.seg3 Examples.digestA Examples.digestB
      (by decide) (by decide) (by decide) (by decide)⟩

/-! ## The validator -/

theorem Validator.expressInterest_some (v : Validator) (f : Face) (h : v.m_face = some f)
    (i : Interest) (cb : Callback) :
    v.expressInterest i cb = { v with m_face := some (f.expressInterest i cb) } := by
  simp [Validator.expressInterest, h]

/-- With a face, `afterCheckPolicy` sends the interest of every step, in order, each
outstanding with the retry budget of its step, and reports nothing. -/
theorem Validator.afterCheckPolicy_some (steps : List ValidationRequest) :
    ∀ (v : Validator) (f : Face), v.m_face = some f →
      v.afterCheckPolicy steps =
        { v with m_face := some ⟨f.sentInterests ++ steps.map (fun s => s.m_interest),
            f.pendingInterests ++
              steps.map (fun s => ⟨s.m_interest, .onCert s s.m_nRetries⟩)⟩ } := by
  intro v f h
  have key : ∀ (steps : List ValidationRequest) (v : Validator) (f : Face), v.m_face = some f →
      steps.foldl
          (fun v step => v.expressInterest step.m_interest (.onCert step step.m_nRetries)) v =
        { v with m_face := some ⟨f.sentInterests ++ steps.map (fun s => s.m_interest),
            f.pendingInterests ++
              steps.map (fun s => ⟨s.m_interest, .onCert s s.m_nRetries⟩)⟩ } := by
    intro steps
    induction steps with
    | nil =>
      intro v f h
      simp [← h]
    | cons s rest ih =>
      intro v f h
      simp only [List.foldl_cons]
      rw [Validator.expressInterest_some v f h,
        ih _ (f.expressInterest s.m_interest (.onCert s s.m_nRetries)) rfl]
      simp [Face.expressInterest]
  simp only [Validator.afterCheckPolicy, h]
  exact key steps v f h

/-- C13: a Nack or a timeout for any outstanding bundle interest (the first or a later
one) makes the validator, which has a face, send exactly the interest of every pending
step, in order, each outstanding with the callbacks of a certificate fetch and the
step's `nRetries` as retry budget; nothing else changes: no bundle interest is sent and
`onFailure` is not called. -/
theorem C13_bundle_failure_falls_back (env : Env) (rnd : Nat) (v : Validator) (f : Face)
    (e : Event) (i : Interest) (z : Bool) (nextStep : ValidationRequest)
    (nextSteps : List ValidationRequest) (hface : v.m_face = some f)
    (hkind : e = .nack e.idx ∨ e = .timeout e.idx)
    (hp : f.pendingInterests[e.idx]? = some ⟨i, .onBundle z nextStep nextSteps⟩) :
    v.deliver env rnd e =
      (.ok (),
       { v with m_face := some ⟨f.sentInterests ++ nextSteps.map (fun s => s.m_interest),
           f.pendingInterests.eraseIdx e.idx ++
             nextSteps.map (fun s => ⟨s.m_interest, .onCert s s.m_nRetries⟩)⟩ }) := by
  unfold Validator.deliver
  simp only [hface, hp]
  rcases hkind with hk | hk <;> rw [hk] <;>
    simp only [Validator.onBundleNack, Validator.onBundleTimeout] <;>
    rw [Validator.afterCheckPolicy_some nextSteps _ _ rfl]

/-- C13 at the first bundle interest of the examples, answered by a Nack. -/
theorem C13_bundle_failure_falls_back_witness :
    Examples.afterCheckKeyBundle.m_face =
        some ⟨[Examples.bundleInterest],
          [⟨Examples.bundleInterest, .onBundle true Examples.stepKey [Examples.stepKey]⟩]⟩ ∧
      Examples.afterCheckKeyBundle.deliver Examples.env 7 (.nack 0) =
        (.ok (),
         { Examples.afterCheckKeyBundle with m_face := some ⟨[Examples.bundleInterest] ++
               [Examples.stepKey].map (fun s => s.m_interest),
             [(⟨Examples.bundleInterest,
                  .onBundle true Examples.stepKey [Examples.stepKey]⟩ : PendingInterest)].eraseIdx
                 (Event.nack 0).idx ++
               [Examples.stepKey].map (fun s => ⟨s.m_interest, .onCert s s.m_nRetries⟩)⟩ }) :=
  ⟨by decide,
    C13_bundle_failure_falls_back Examples.env 7 Examples.afterCheckKeyBundle
      ⟨[Examples.bundleInterest],
        [⟨Examples.bundleInterest, .onBundle true Examples.stepKey [Examples.stepKey]⟩]⟩
      (.nack 0) Examples.bundleInterest true Examples.stepKey [Examples.stepKey] (by decide)
      (Or.inl rfl) (by decide)⟩

/-- A retry of `onNack`: the same interest with a fresh nonce is sent, outstanding
with one retry less. -/
theorem Validator.onNack_retry (env : Env) (rnd : Nat) (v : Validator) (f : Face)
    (interest : Interest) (r : Int) (step : ValidationRequest) (hface : v.m_face = some f)
    (hr : 0 < r) :
    v.onNack env rnd interest r step =
      { v with m_face := some (f.expressInterest
        { interest with m_nonce := toUInt32 rnd, m_wire := none } (.onCert step (r - 1))) } := by
  simp only [Validator.onNack, gt_iff_lt, hr, if_true]
  rw [Validator.expressInterest_some v f hface]
  rfl

theorem Validator.onTimeout_eq_onNack (env : Env) (rnd : Nat) (v : Validator)
    (interest : Interest) (r : Int) (step : ValidationRequest) :
    v.onTimeout env rnd interest r step = v.onNack env rnd interest r step := rfl

/-- C17: for every retry of `onNack` or `onTimeout` (remaining retries above 0), the
interest that is sent again has the name, selectors, scope and lifetime of the interest
that failed, its nonce is the freshly generated word, and the callbacks bound to it
carry one retry less than before. -/
theorem C17_retry_keeps_interest (env : Env) (rnd : Nat) (v : Validator) (f : Face)
    (interest : Interest) (r : Int) (step : ValidationRequest) (hface : v.m_face = some f)
    (hr : 0 < r) :
    v.onNack env rnd interest r step =
        { v with m_face := some (f.expressInterest
          { m_name := interest.m_name, m_selectors := interest.m_selectors,
            m_nonce := toUInt32 rnd, m_scope := interest.m_scope,
            m_interestLifetime := interest.m_interestLifetime, m_wire := none,
            m_incomingFaceId := interest.m_incomingFaceId }
          (.onCert step (r - 1))) } ∧
      v.onTimeout env rnd interest r step = v.onNack env rnd interest r step :=
  ⟨Validator.onNack_retry env rnd v f interest r step hface hr, rfl⟩

/-- C17 at the step of the examples with two retries left. -/
theorem C17_retry_keeps_interest_witness :
    Examples.afterCheckPolicyKey.m_face =
        some ⟨[Examples.stepKey.m_interest],
          [⟨Examples.stepKey.m_interest, .onCert Examples.stepKey 2⟩]⟩ ∧
      (Examples.afterCheckPolicyKey.onNack Examples.env 7 Examples.stepKey.m_interest 2
          Examples.stepKey =
        { Examples.afterCheckPolicyKey with m_face := some (Face.expressInterest
          ⟨[Examples.stepKey.m_interest],
            [⟨Examples.stepKey.m_interest, .onCert Examples.stepKey 2⟩]⟩
          { m_name := Examples.stepKey.m_interest.m_name,
            m_selectors := Examples.stepKey.m_interest.m_selectors,
            m_nonce := toUInt32 7, m_scope := Examples.stepKey.m_interest.m_scope,
            m_interestLifetime := Examples.stepKey.m_interest.m_interestLifetime,
            m_wire := none,
            m_incomingFaceId := Examples.stepKey.m_interest.m_incomingFaceId }
          (.onCert Examples.stepKey (2 - 1))) } ∧
        Examples.afterCheckPolicyKey.onTimeout Examples.env 7 Examples.stepKey.m_interest 2
            Examples.stepKey =
          Examples.afterCheckPolicyKey.onNack Examples.env 7 Examples.stepKey.m_interest 2
            Examples.stepKey) :=
  ⟨by decide,
    C17_retry_keeps_interest Examples.env 7 Examples.afterCheckPolicyKey
      ⟨[Examples.stepKey.m_interest],
        [⟨Examples.stepKey.m_interest, .onCert Examples.stepKey 2⟩]⟩
      Examples.stepKey.m_interest 2 Examples.stepKey (by decide) (by decide)⟩

/-- On a cache miss, with a face and a data name whose bundle prefix is defined,
`checkKeyBundle` sends the first bundle interest for `prefix/BUNDLE` and nothing else
changes. -/
theorem Validator.checkKeyBundle_miss (env : Env) (v : Validator) (f : Face) (dataName : Name)
    (bundlePrefix : Name) (nextStep : ValidationRequest) (rest : List ValidationRequest)
    (hface : v.m_face = some f) (hderive : deriveBundleName dataName = some bundlePrefix)
    (hmiss : env.cacheFind v.m_certificates nextStep.m_interest = none) :
    v.checkKeyBundle env dataName (nextStep :: rest) =
      (.ok (),
       { v with m_face := some (f.expressInterest
         (Validator.firstBundleInterest (bundlePrefix ++ [Component.BUNDLE]))
         (.onBundle true nextStep (nextStep :: rest))) }) := by
  simp only [Validator.checkKeyBundle, hmiss, hderive, Validator.fetchFirstBundleSegment, hface,
    Name.append]
  rw [Validator.expressInterest_some v f hface]

/-- C18: on a cache miss for the first pending step (the validator has a face and the
bundle prefix of the data name is defined), `checkKeyBundle` sends exactly one interest,
whose name is the derived prefix followed by `BUNDLE` and which carries lifetime
100000 ms, `mustBeFresh = true` and `childSelector = 1`; on a cache hit it sends no
interest and passes the cached certificate to `onData`. -/
theorem C18_checkKeyBundle_first_interest (env : Env) (v : Validator) (f : Face)
    (dataName bundlePrefix : Name) (nextStep : ValidationRequest)
    (rest : List ValidationRequest) (hface : v.m_face = some f)
    (hderive : deriveBundleName dataName = some bundlePrefix) :
    (env.cacheFind v.m_certificates nextStep.m_interest = none →
        v.checkKeyBundle env dataName (nextStep :: rest) =
          (.ok (),
           { v with m_face := some (f.expressInterest
             { m_name := bundlePrefix ++ [Component.BUNDLE],
               m_selectors :=
                 { m_minSuffixComponents := -1, m_maxSuffixComponents := -1, m_exclude := [],
                   m_childSelector := 1, m_mustBeFresh := true },
               m_nonce := 0, m_scope := -1, m_interestLifetime := 100000, m_wire := none,
               m_incomingFaceId := 0 }
             (.onBundle true nextStep (nextStep :: rest))) })) ∧
      (∀ certificate, env.cacheFind v.m_certificates nextStep.m_interest = some certificate →
        v.checkKeyBundle env dataName (nextStep :: rest) =
          (.ok (),
           { v with onDataCalls :=
             v.onDataCalls ++ [(nextStep.m_interest, certificate, nextStep)] })) := by
  constructor
  · intro hmiss
    rw [Validator.checkKeyBundle_miss env v f dataName bundlePrefix nextStep rest hface hderive
      hmiss]
    rfl
  · intro certificate hhit
    simp only [Validator.checkKeyBundle, hhit, Validator.onData]

/-- C18 at the data name `/s/v/Data/v=1` with an empty store. -/
theorem C18_checkKeyBundle_first_interest_witness :
    deriveBundleName Examples.nameDataV1 = some Examples.nameDataV1 ∧
      Examples.env.cacheFind (Validator.init (some Face.empty) []).m_certificates
        Examples.stepKey.m_interest = none ∧
      ((Examples.env.cacheFind (Validator.init (some Face.empty) []).m_certificates
            Examples.stepKey.m_interest = none →
          (Validator.init (some Face.empty) []).checkKeyBundle Examples.env Examples.nameDataV1
              (Examples.stepKey :: []) =
            (.ok (),
             { Validator.init (some Face.empty) [] with m_face := some (Face.empty.expressInterest
               { m_name := Examples.nameDataV1 ++ [Component.BUNDLE],
                 m_selectors :=
                   { m_minSuffixComponents := -1, m_maxSuffixComponents := -1, m_exclude := [],
                     m_childSelector := 1, m_mustBeFresh := true },
                 m_nonce := 0, m_scope := -1, m_interestLifetime := 100000, m_wire := none,
                 m_incomingFaceId := 0 }
               (.onBundle true Examples.stepKey (Examples.stepKey :: []))) })) ∧
        (∀ certificate,
          Examples.env.cacheFind (Validator.init (some Face.empty) []).m_certificates
              Examples.stepKey.m_interest = some certificate →
            (Validator.init (some Face.empty) []).checkKeyBundle Examples.env
                Examples.nameDataV1 (Examples.stepKey :: []) =
              (.ok (),
               { Validator.init (some Face.empty) [] with onDataCalls :=
                 (Validator.init (some Face.empty) []).onDataCalls ++
                   [(Examples.stepKey.m_interest, certificate, Examples.stepKey)] }))) :=
  ⟨by decide, by decide,
    C18_checkKeyBundle_first_interest Examples.env (Validator.init (some Face.empty) [])
      Face.empty Examples.nameDataV1 Examples.nameDataV1 Examples.stepKey [] rfl (by decide)⟩

/-- C11, as the code has it: for a data name with exactly one component that is not an
implicit digest, on a cache miss for the first pending step and with a face,
`checkKeyBundle` sends exactly one bundle interest, named by the derived prefix (empty
when the component is a segment) followed by `BUNDLE`; it reports no failure and sends
no direct certificate interest. -/
theorem C11_single_component_name (env : Env) (v : Validator) (f : Face) (c : Component)
    (nextStep : ValidationRequest) (rest : List ValidationRequest)
    (hface : v.m_face = some f) (hc : c.isImplicitSha256Digest = false)
    (hmiss : env.cacheFind v.m_certificates nextStep.m_interest = none) :
    v.checkKeyBundle env [c] (nextStep :: rest) =
      (.ok (),
       { v with m_face := some ⟨f.sentInterests ++
            [Validator.firstBundleInterest
              ((if c.isSegment then [] else [c]) ++ [Component.BUNDLE])],
          f.pendingInterests ++
            [⟨Validator.firstBundleInterest
                ((if c.isSegment then [] else [c]) ++ [Component.BUNDLE]),
              .onBundle true nextStep (nextStep :: rest)⟩]⟩ }) := by
  have hd : deriveBundleName [c] = some (if c.isSegment then [] else [c]) := by
    have h1 : Name.get [c] (-1) = some c := Name.get_last [] c
    have h2 : Name.getPrefix [c] (-1) = [] := Name.getPrefix_last [] c
    simp only [deriveBundleName, h1, hc, h2, Bool.false_eq_true, if_false]
    split_ifs <;> rfl
  rw [Validator.checkKeyBundle_miss env v f [c] _ nextStep rest hface hd hmiss]
  rfl

/-- C11 fails as stated: for the one-component data name `/seg=3` the derived prefix is
the empty name, and `checkKeyBundle` (cache miss, face present) sends the bundle
interest `/BUNDLE`, reports no failure and sends no direct certificate interest. -/
theorem C11_counterexample_no_fallback :
    deriveBundleName [Examples.seg3] = some [] ∧
      ((Validator.init (some Face.empty) []).checkKeyBundle Examples.env [Examples.seg3]
          [Examples.stepKey]).1 = .ok () ∧
      ((Validator.init (some Face.empty) []).checkKeyBundle Examples.env [Examples.seg3]
          [Examples.stepKey]).2.sentInterests =
        [Validator.firstBundleInterest [Component.BUNDLE]] ∧
      ((Validator.init (some Face.empty) []).checkKeyBundle Examples.env [Examples.seg3]
          [Examples.stepKey]).2.failures = [] ∧
      ((Validator.init (some Face.empty) []).afterCheckPolicy [Examples.stepKey]).sentInterests =
        [Examples.stepKey.m_interest] := by
  decide

/-- The amended C11 at the data name `/seg=3`. -/
theorem C11_single_component_name_witness :
    Examples.seg3.isImplicitSha256Digest = false ∧
      (Validator.init (some Face.empty) []).checkKeyBundle Examples.env [Examples.seg3]
          (Examples.stepKey :: []) =
        (.ok (),
         { Validator.init (some Face.empty) [] with m_face := some ⟨Face.empty.sentInterests ++
              [Validator.firstBundleInterest
                ((if Examples.seg3.isSegment then [] else [Examples.seg3]) ++
                  [Component.BUNDLE])],
            Face.empty.pendingInterests ++
              [⟨Validator.firstBundleInterest
                  ((if Examples.seg3.isSegment then [] else [Examples.seg3]) ++
                    [Component.BUNDLE]),
                .onBundle true Examples.stepKey (Examples.stepKey :: [])⟩]⟩ }) :=
  ⟨by decide,
    C11_single_component_name Examples.env (Validator.init (some Face.empty) []) Face.empty
      Examples.seg3 Examples.stepKey [] rfl (by decide) (by decide)⟩

/-- C19, as the code has it: the interest that `fetchNextBundleSegment` sends for
segment `N` is a copy of the interest it was given: it carries that interest's lifetime
(100000 ms when that is the first bundle interest, not the default), its scope and its
other selectors, a fresh nonce, `mustBeFresh = false`, `childSelector = 0`, and the name
of the received bundle data with its last component replaced by segment `N`; it is
outstanding with the bundle callbacks. -/
theorem C19_next_segment_interest (rnd : Nat) (v : Validator) (f : Face)
    (origInterest : Interest) (bundleDataName : Name) (nextStep : ValidationRequest)
    (segmentNo : Nat) (nextSteps : List ValidationRequest) (hface : v.m_face = some f) :
    v.fetchNextBundleSegment rnd origInterest bundleDataName nextStep segmentNo nextSteps =
        { v with m_face := some (f.expressInterest
          { m_name := Name.appendSegment (Name.getPrefix bundleDataName (-1)) segmentNo,
            m_selectors :=
              { m_minSuffixComponents := origInterest.m_selectors.m_minSuffixComponents,
                m_maxSuffixComponents := origInterest.m_selectors.m_maxSuffixComponents,
                m_exclude := origInterest.m_selectors.m_exclude,
                m_childSelector := 0, m_mustBeFresh := false },
            m_nonce := toUInt32 rnd, m_scope := origInterest.m_scope,
            m_interestLifetime := origInterest.m_interestLifetime, m_wire := none,
            m_incomingFaceId := origInterest.m_incomingFaceId }
          (.onBundle true nextStep nextSteps)) } ∧
      ∀ bundleName,
        (Validator.nextBundleInterest rnd (Validator.firstBundleInterest bundleName)
          bundleDataName segmentNo).m_interestLifetime = 100000 := by
  constructor
  · simp only [Validator.fetchNextBundleSegment]
    rw [Validator.expressInterest_some v f hface]
    rfl
  · intro bundleName
    rfl

/-- C19 fails as stated: the interest for segment 1 that follows the first bundle
interest of the examples carries the lifetime 100000 ms, while the default interest
lifetime is 4000 ms. -/
theorem C19_counterexample_lifetime_inherited :
    (Validator.nextBundleInterest 1 Examples.bundleInterest Examples.bundleSeg0.m_name
        1).m_interestLifetime = 100000 ∧
      DEFAULT_INTEREST_LIFETIME = 4000 ∧
      ((Examples.afterCheckKeyBundle.run Examples.env
          [(.data 0 Examples.bundleSeg0, 1)]).2.sentInterests.map
        (fun i => i.m_interestLifetime)) = [100000, 100000] := by
  decide

/-- The amended C19 at the first bundle interest of the examples and segment 1. -/
theorem C19_next_segment_interest_witness :
    Examples.afterCheckKeyBundle.m_face =
        some ⟨[Examples.bundleInterest],
          [⟨Examples.bundleInterest, .onBundle true Examples.stepKey [Examples.stepKey]⟩]⟩ ∧
      (Examples.afterCheckKeyBundle.fetchNextBundleSegment 1 Examples.bundleInterest
          Examples.bundleSeg0.m_name Examples.stepKey 1 [Examples.stepKey]).sentInterests.map
        (fun i => (i.m_name, i.m_interestLifetime)) =
        [(Examples.nameDataBundle, 100000),
         (Examples.nameDataBundle ++ [Examples.v1, Examples.seg1], 100000)] :=
  ⟨by decide, by
    rw [(C19_next_segment_interest 1 Examples.afterCheckKeyBundle
      ⟨[Examples.bundleInterest],
        [⟨Examples.bundleInterest, .onBundle true Examples.stepKey [Examples.stepKey]⟩]⟩
      Examples.bundleInterest Examples.bundleSeg0.m_name Examples.stepKey 1
      [Examples.stepKey] (by decide)).1]
    decide⟩

/-- C12 on the code: with the two-segment bundle of the examples, segment 0 is stored
and segment 1 is requested; when segment 1 arrives, its callback, bound with
`isSegmentZeroExpected = true`, requests segment 0 again: three bundle interests are
sent, segment 1 is not stored and `onData` is not called; two more answers bring two
more bundle interests and still no call of `onData`. -/
theorem C12_segment_one_refetches_segment_zero :
    (Examples.afterCheckKeyBundle.run Examples.env
        [(.data 0 Examples.bundleSeg0, 1), (.data 0 Examples.bundleSeg1, 2)]).1 = .ok () ∧
      (Examples.afterCheckKeyBundle.run Examples.env
        [(.data 0 Examples.bundleSeg0, 1), (.data 0 Examples.bundleSeg1, 2)]).2.sentInterests.map
          (fun i => i.m_name) =
        [Examples.nameDataBundle, Examples.nameDataBundle ++ [Examples.v1, Examples.seg1],
         Examples.nameDataBundle ++ [Examples.v1, Examples.seg0]] ∧
      (Examples.afterCheckKeyBundle.run Examples.env
        [(.data 0 Examples.bundleSeg0, 1), (.data 0 Examples.bundleSeg1, 2)]).2.m_certificates =
        [Examples.cert1] ∧
      (Examples.afterCheckKeyBundle.run Examples.env
        [(.data 0 Examples.bundleSeg0, 1), (.data 0 Examples.bundleSeg1, 2)]).2.onDataCalls =
        [] ∧
      (Examples.afterCheckKeyBundle.run Examples.env
        [(.data 0 Examples.bundleSeg0, 1), (.data 0 Examples.bundleSeg1, 2),
         (.data 0 Examples.bundleSeg0, 3),
         (.data 0 Examples.bundleSeg1, 4)]).2.sentInterests.length = 5 ∧
      (Examples.afterCheckKeyBundle.run Examples.env
        [(.data 0 Examples.bundleSeg0, 1), (.data 0 Examples.bundleSeg1, 2),
         (.data 0 Examples.bundleSeg0, 3),
         (.data 0 Examples.bundleSeg1, 4)]).2.onDataCalls = [] := by
  decide

/-! ### Runs of the validator -/

theorem Validator.run_append (env : Env) (a b : List (Event × Nat)) :
    ∀ v : Validator, (v.run env a).1 = .ok () →
      v.run env (a ++ b) = (v.run env a).2.run env b := by
  induction a with
  | nil => intro v _; rfl
  | cons x rest ih =>
    intro v h
    obtain ⟨e, rnd⟩ := x
    simp only [List.cons_append, Validator.run] at h ⊢
    cases hd : v.deliver env rnd e with
    | mk r v2 =>
      cases r with
      | error x => simp [hd] at h
      | ok u =>
        simp only [hd] at h ⊢
        exact ih v2 h

/-- Without an outstanding interest no event has an effect. -/
theorem Validator.run_no_pending (env : Env) (es : List (Event × Nat)) (v : Validator)
    (h : v.pendingInterests = []) : v.run env es = (.ok (), v) := by
  induction es with
  | nil => rfl
  | cons x rest ih =>
    obtain ⟨e, rnd⟩ := x
    have hd : v.deliver env rnd e = (.ok (), v) := by
      unfold Validator.deliver
      cases hf : v.m_face with
      | none => rfl
      | some f =>
        have : f.pendingInterests = [] := by
          simpa [Validator.pendingInterests, hf] using h
        simp [this]
    simp only [Validator.run, hd]
    exact ih

theorem sum_map_eraseIdx {α : Type} (g : α → Nat) :
    ∀ (l : List α) (i : Nat) (p : α), l[i]? = some p →
      ((l.eraseIdx i).map g).sum + g p = (l.map g).sum := by
  intro l
  induction l with
  | nil => intro i p h; simp at h
  | cons a rest ih =>
    intro i p h
    cases i with
    | zero =>
      simp only [List.getElem?_cons_zero, Option.some.injEq] at h
      subst h
      simp only [List.eraseIdx_cons_zero, List.map_cons, List.sum_cons]
      omega
    | succ j =>
      simp only [List.getElem?_cons_succ] at h
      have := ih j p h
      simp only [List.eraseIdx_cons_succ, List.map_cons, List.sum_cons]
      omega

theorem mem_of_mem_eraseIdx {α : Type} (l : List α) (i : Nat) (x : α)
    (h : x ∈ l.eraseIdx i) : x ∈ l :=
  (List.eraseIdx_sublist l i).subset h

/-- One event on a validator whose outstanding interests are all certificate interests:
the handler returns, the outstanding interests are still all certificate interests, and
the number of interests sent plus the retries still possible does not grow. -/
theorem Validator.deliver_retry_budget (env : Env) (rnd : Nat) (v : Validator) (e : Event)
    (hall : v.AllCert) :
    (v.deliver env rnd e).1 = .ok () ∧ (v.deliver env rnd e).2.AllCert ∧
      (v.deliver env rnd e).2.sentInterests.length + (v.deliver env rnd e).2.retryBudget ≤
        v.sentInterests.length + v.retryBudget := by
  cases hf : v.m_face with
  | none =>
    have : v.deliver env rnd e = (.ok (), v) := by simp [Validator.deliver, hf]
    rw [this]
    exact ⟨rfl, hall, le_refl _⟩
  | some f =>
    cases hp : f.pendingInterests[e.idx]? with
    | none =>
      have : v.deliver env rnd e = (.ok (), v) := by simp [Validator.deliver, hf, hp]
      rw [this]
      exact ⟨rfl, hall, le_refl _⟩
    | some p =>
      have hmem : p ∈ v.pendingInterests := by
        simp only [Validator.pendingInterests, hf]
        exact List.mem_iff_getElem?.mpr ⟨_, hp⟩
      obtain ⟨step, r, hcb⟩ := hall p hmem
      have hsum := sum_map_eraseIdx (fun p : PendingInterest => p.callback.retryBudget)
        f.pendingInterests e.idx p hp
      have hpb : p.callback.retryBudget = r.toNat := by rw [hcb]; rfl
      simp only [hpb] at hsum
      have hbud : v.retryBudget =
          (f.pendingInterests.map (fun p => p.callback.retryBudget)).sum := by
        simp [Validator.retryBudget, Validator.pendingInterests, hf]
      have hsent : v.sentInterests = f.sentInterests := by
        simp [Validator.sentInterests, hf]
      rw [hbud, hsent]
      have hsub : ∀ q ∈ f.pendingInterests.eraseIdx e.idx, ∃ step r, q.callback = .onCert step r :=
        fun q hq => hall q (by
          simp only [Validator.pendingInterests, hf]
          exact mem_of_mem_eraseIdx _ _ _ hq)
      have retry : ∀ w : Validator,
          w = ({ v with m_face := some { f with
                  pendingInterests := f.pendingInterests.eraseIdx e.idx } } : Validator).onNack
                env rnd p.interest r step →
            w.AllCert ∧ w.sentInterests.length + w.retryBudget ≤
              f.sentInterests.length +
                (f.pendingInterests.map (fun p => p.callback.retryBudget)).sum := by
        intro w hw
        subst hw
        simp only [Validator.onNack]
        split_ifs with hr
        · simp only [Validator.expressInterest, Face.expressInterest, Validator.AllCert,
            Validator.pendingInterests, Validator.sentInterests, Validator.retryBudget,
            List.mem_append, List.mem_singleton, List.map_append, List.sum_append,
            List.length_append, List.map_cons, List.map_nil, List.sum_cons, List.sum_nil,
            List.length_cons, List.length_nil]
          refine ⟨?_, ?_⟩
          · intro q hq
            rcases hq with hq | hq
            · exact hsub q hq
            · exact ⟨step, r - 1, by rw [hq]⟩
          · have h1 : (Callback.onCert step (r - 1)).retryBudget = (r - 1).toNat := rfl
            rw [h1]
            have : (r - 1).toNat + 1 = r.toNat := by omega
            omega
        · simp only [Validator.onFailure, Validator.AllCert, Validator.pendingInterests,
            Validator.sentInterests, Validator.retryBudget]
          refine ⟨hsub, ?_⟩
          omega
      cases e with
      | data idx d =>
        have hd : v.deliver env rnd (.data idx d) =
            (.ok (), ({ v with m_face := some { f with
              pendingInterests := f.pendingInterests.eraseIdx idx } } : Validator).onData
              p.interest d step) := by
          simp only [Event.idx] at hp
          simp [Validator.deliver, hf, hp, hcb, Event.idx]
        rw [hd]
        simp only [Validator.onData, Validator.AllCert, Validator.pendingInterests,
          Validator.sentInterests, Validator.retryBudget]
        refine ⟨trivial, hsub, ?_⟩
        simp only [Event.idx] at hsum
        omega
      | nack idx =>
        have hd : v.deliver env rnd (.nack idx) =
            (.ok (), ({ v with m_face := some { f with
              pendingInterests := f.pendingInterests.eraseIdx idx } } : Validator).onNack
              env rnd p.interest r step) := by
          simp only [Event.idx] at hp
          simp [Validator.deliver, hf, hp, hcb, Event.idx]
        rw [hd]
        exact ⟨rfl, retry _ rfl⟩
      | timeout idx =>
        have hd : v.deliver env rnd (.timeout idx) =
            (.ok (), ({ v with m_face := some { f with
              pendingInterests := f.pendingInterests.eraseIdx idx } } : Validator).onNack
              env rnd p.interest r step) := by
          simp only [Event.idx] at hp
          simp [Validator.deliver, hf, hp, hcb, Event.idx, Validator.onTimeout_eq_onNack]
        rw [hd]
        exact ⟨rfl, retry _ rfl⟩

/-- Over a whole run: the handlers return, and the number of interests sent stays
within the number sent at the start plus the retries possible then. -/
theorem Validator.run_retry_budget (env : Env) (es : List (Event × Nat)) :
    ∀ v : Validator, v.AllCert →
      (v.run env es).1 = .ok () ∧ (v.run env es).2.AllCert ∧
        (v.run env es).2.sentInterests.length + (v.run env es).2.retryBudget ≤
          v.sentInterests.length + v.retryBudget := by
  induction es with
  | nil => intro v h; exact ⟨rfl, h, le_refl _⟩
  | cons x rest ih =>
    intro v h
    obtain ⟨e, rnd⟩ := x
    obtain ⟨h1, h2, h3⟩ := Validator.deliver_retry_budget env rnd v e h
    simp only [Validator.run]
    cases hd : v.deliver env rnd e with
    | mk r v2 =>
      rw [hd] at h1 h2 h3
      simp only at h1 h2 h3
      subst h1
      simp only
      obtain ⟨g1, g2, g3⟩ := ih v2 h2
      exact ⟨g1, g2, le_trans g3 h3⟩

theorem sum_retries_succ (steps : List ValidationRequest) :
    steps.length + (steps.map (fun s => s.m_nRetries.toNat)).sum =
      (steps.map (fun s => s.m_nRetries.toNat + 1)).sum := by
  induction steps with
  | nil => rfl
  | cons s rest ih =>
    simp only [List.length_cons, List.map_cons, List.sum_cons]
    omega

/-- After `afterCheckPolicy` on a face that has sent nothing, any run sends at most one
interest per step plus the retries of the steps. -/
theorem Validator.sent_le_of_afterCheckPolicy (env : Env) (certificates : List Data)
    (steps : List ValidationRequest) (es : List (Event × Nat)) :
    (((Validator.init (some Face.empty) certificates).afterCheckPolicy steps).run env
        es).2.sentInterests.length ≤
      (steps.map (fun s => s.m_nRetries.toNat + 1)).sum := by
  have h0 := Validator.afterCheckPolicy_some steps (Validator.init (some Face.empty) certificates)
    Face.empty rfl
  have hall : ((Validator.init (some Face.empty) certificates).afterCheckPolicy steps).AllCert := by
    rw [h0]
    intro p hp
    simp only [Validator.pendingInterests, Face.empty, List.nil_append, List.mem_map] at hp
    obtain ⟨s, _, hs⟩ := hp
    exact ⟨s, s.m_nRetries, by rw [← hs]⟩
  obtain ⟨_, _, h3⟩ := Validator.run_retry_budget env es _ hall
  have hinit : ((Validator.init (some Face.empty) certificates).afterCheckPolicy
        steps).sentInterests.length +
      ((Validator.init (some Face.empty) certificates).afterCheckPolicy steps).retryBudget =
      (steps.map (fun s => s.m_nRetries.toNat + 1)).sum := by
    rw [h0]
    have e1 : (steps.map (fun s => (⟨s.m_interest, .onCert s s.m_nRetries⟩ : PendingInterest))).map
        (fun p => p.callback.retryBudget) = steps.map (fun s => s.m_nRetries.toNat) := by
      rw [List.map_map]
      rfl
    simp only [Validator.sentInterests, Validator.retryBudget, Validator.pendingInterests,
      Face.empty, List.nil_append, List.length_map, e1]
    exact sum_retries_succ steps
  omega

/-- A Nack or a timeout for the only outstanding interest, a certificate interest with
`r` retries left: with `r > 0` the interest is sent again with a fresh nonce and
`r - 1` retries left, otherwise the failure is reported and nothing is outstanding. -/
theorem Validator.deliver_first_failure (env : Env) (rnd : Nat) (v : Validator) (e : Event)
    (he : e.isFailureOfFirst) (sent : List Interest) (i : Interest) (r : Int)
    (step : ValidationRequest) (hf : v.m_face = some ⟨sent, [⟨i, .onCert step r⟩]⟩) :
    v.deliver env rnd e =
      (.ok (),
       if 0 < r then
         { v with m_face := some ⟨sent ++ [{ i with m_nonce := toUInt32 rnd, m_wire := none }],
              [⟨{ i with m_nonce := toUInt32 rnd, m_wire := none }, .onCert step (r - 1)⟩]⟩ }
       else
         { v with m_face := some ⟨sent, []⟩,
                  failures := v.failures ++ ["Cannot fetch cert: " ++ env.toUri i.m_name] }) := by
  have hn : ({ v with m_face := some ⟨sent, []⟩ } : Validator).onNack env rnd i r step =
      if 0 < r then
         { v with m_face := some ⟨sent ++ [{ i with m_nonce := toUInt32 rnd, m_wire := none }],
              [⟨{ i with m_nonce := toUInt32 rnd, m_wire := none }, .onCert step (r - 1)⟩]⟩ }
       else
         { v with m_face := some ⟨sent, []⟩,
                  failures := v.failures ++ ["Cannot fetch cert: " ++ env.toUri i.m_name] } := by
    by_cases hr : 0 < r
    · rw [if_pos hr, Validator.onNack_retry env rnd _ ⟨sent, []⟩ i r step rfl hr]
      rfl
    · rw [if_neg hr]
      simp only [Validator.onNack, gt_iff_lt, hr, if_false, Validator.onFailure,
        Interest.getName]
  rcases he with he | he <;> subst he <;>
    simp only [Validator.deliver, hf, Event.idx, List.getElem?_cons_zero, List.eraseIdx_cons_zero,
      Validator.onTimeout_eq_onNack, hn]

/-- A run of Nacks and timeouts on a validator whose only outstanding interest is a
certificate interest with `r` retries left: as long as there are at most `r` of them,
every one is answered by one more interest with the same name and nothing is reported;
the one after that is answered by the failure report, and nothing is outstanding. -/
theorem Validator.run_failures (env : Env) (step : ValidationRequest) :
    ∀ (fails : List (Event × Nat)), (∀ x ∈ fails, x.1.isFailureOfFirst) →
      ∀ (v : Validator) (sent : List Interest) (i : Interest) (r : Int),
        v.m_face = some ⟨sent, [⟨i, .onCert step r⟩]⟩ →
        (fails.length ≤ r.toNat →
          ∃ sent2 i2, v.run env fails =
              (.ok (), { v with m_face := some ⟨sent2, [⟨i2, .onCert step (r - fails.length)⟩]⟩ }) ∧
            sent2.length = sent.length + fails.length ∧ i2.m_name = i.m_name) ∧
        (fails.length = r.toNat + 1 →
          ∃ sent2, v.run env fails =
              (.ok (), { v with m_face := some ⟨sent2, []⟩,
                                failures := v.failures ++
                                  ["Cannot fetch cert: " ++ env.toUri i.m_name] }) ∧
            sent2.length = sent.length + r.toNat) := by
  intro fails
  induction fails with
  | nil =>
    intro _ v sent i r hf
    refine ⟨fun _ => ⟨sent, i, ?_, rfl, rfl⟩, fun h => by simp at h⟩
    simp only [Validator.run, List.length_nil, Nat.cast_zero, sub_zero, ← hf]
  | cons x rest ih =>
    intro hall v sent i r hf
    obtain ⟨e, rnd⟩ := x
    have he : e.isFailureOfFirst := hall (e, rnd) (List.mem_cons_self _ _)
    have hrest : ∀ x ∈ rest, x.1.isFailureOfFirst :=
      fun x hx => hall x (List.mem_cons_of_mem _ hx)
    have hd := Validator.deliver_first_failure env rnd v e he sent i r step hf
    simp only [Validator.run, hd]
    by_cases hr : 0 < r
    · simp only [if_pos hr]
      obtain ⟨ih1, ih2⟩ := ih hrest
        ({ v with m_face := some ⟨sent ++ [{ i with m_nonce := toUInt32 rnd, m_wire := none }],
             [⟨{ i with m_nonce := toUInt32 rnd, m_wire := none }, .onCert step (r - 1)⟩]⟩ })
        (sent ++ [{ i with m_nonce := toUInt32 rnd, m_wire := none }])
        { i with m_nonce := toUInt32 rnd, m_wire := none } (r - 1) rfl
      constructor
      · intro hlen
        simp only [List.length_cons] at hlen
        obtain ⟨sent2, i2, h1, h2, h3⟩ := ih1 (by omega)
        refine ⟨sent2, i2, ?_, ?_, ?_⟩
        · rw [h1]
          simp only [List.length_cons, Nat.cast_add, Nat.cast_one]
          have : r - 1 - (rest.length : Int) = r - ((rest.length : Int) + 1) := by ring
          rw [this]
        · simp only [List.length_append, List.length_cons, List.length_nil] at h2 ⊢
          omega
        · rw [h3]
      · intro hlen
        simp only [List.length_cons] at hlen
        obtain ⟨sent2, h1, h2⟩ := ih2 (by omega)
        refine ⟨sent2, ?_, ?_⟩
        · rw [h1]
        · simp only [List.length_append, List.length_cons, List.length_nil] at h2 ⊢
          omega
    · simp only [if_neg hr]
      have hr0 : r.toNat = 0 := by omega
      constructor
      · intro hlen
        simp only [List.length_cons] at hlen
        omega
      · intro hlen
        simp only [List.length_cons, hr0] at hlen
        have hnil : rest = [] := List.length_eq_zero.mp (by omega)
        subst hnil
        exact ⟨sent, by simp only [Validator.run], by omega⟩

/-- The validator after `afterCheckPolicy` for one step, on a face that has sent
nothing. -/
theorem Validator.afterCheckPolicy_single (certificates : List Data) (step : ValidationRequest) :
    (Validator.init (some Face.empty) certificates).afterCheckPolicy [step] =
      { Validator.init (some Face.empty) certificates with m_face := some ⟨[step.m_interest], [⟨step.m_interest, .onCert step step.m_nRetries⟩]⟩ } := by
  rw [Validator.afterCheckPolicy_some [step] _ Face.empty rfl]
  rfl

/-- C14: for every direct-fetch step with retry budget `nRetries >= 0`, whatever the
responses (Nacks, timeouts, Data, in any order and number), the validator sends at most
`nRetries + 1` interests for the step; and when the first `nRetries + 1` responses are
all Nacks or timeouts it sends exactly `nRetries + 1`, whatever comes after. -/
theorem C14_retry_bound (env : Env) (certificates : List Data) (step : ValidationRequest)
    (hn : 0 ≤ step.m_nRetries) :
    (∀ events : List (Event × Nat),
        ((((Validator.init (some Face.empty) certificates).afterCheckPolicy [step]).run env
          events).2.sentInterests.length : Int) ≤ step.m_nRetries + 1) ∧
      (∀ fails more : List (Event × Nat), (∀ x ∈ fails, x.1.isFailureOfFirst) →
        (fails.length : Int) = step.m_nRetries + 1 →
        ((((Validator.init (some Face.empty) certificates).afterCheckPolicy [step]).run env
          (fails ++ more)).2.sentInterests.length : Int) = step.m_nRetries + 1) := by
  constructor
  · intro events
    have h := Validator.sent_le_of_afterCheckPolicy env certificates [step] events
    simp only [List.map_cons, List.map_nil, List.sum_cons, List.sum_nil, add_zero] at h
    omega
  · intro fails more hall hlen
    obtain ⟨_, h2⟩ := Validator.run_failures env step fails hall
      ((Validator.init (some Face.empty) certificates).afterCheckPolicy [step])
      [step.m_interest] step.m_interest step.m_nRetries
      (by rw [Validator.afterCheckPolicy_single])
    obtain ⟨sent2, hrun, hsent⟩ := h2 (by omega)
    rw [Validator.run_append env fails more _ (by rw [hrun]), hrun,
      Validator.run_no_pending env more]
    · simp only [Validator.sentInterests]
      simp only [List.length_cons, List.length_nil] at hsent
      omega
    · rfl

/-- C14 at the step of the examples (`nRetries = 2`): three failures in a row give
exactly 3 interests. -/
theorem C14_retry_bound_witness :
    0 ≤ Examples.stepKey.m_nRetries ∧
      ((((Validator.init (some Face.empty) []).afterCheckPolicy [Examples.stepKey]).run
          Examples.env
          ([(Event.nack 0, 1), (Event.timeout 0, 2), (Event.timeout 0, 3)] ++
            [])).2.sentInterests.length : Int) = Examples.stepKey.m_nRetries + 1 ∧
      Examples.stepKey.m_nRetries + 1 = 3 :=
  ⟨by decide,
    (C14_retry_bound Examples.env [] Examples.stepKey (by decide)).2
      [(Event.nack 0, 1), (Event.timeout 0, 2), (Event.timeout 0, 3)] [] (by decide)
      (by decide),
    by decide⟩

/-- C15: for a validation with a single pending step whose attempts all end in a Nack
or a timeout, nothing is reported as long as at most `nRetries` attempts have failed,
and once attempt `nRetries + 1` has failed `onFailure` has been called exactly once,
with the reason "Cannot fetch cert: " followed by the URI of the name of the step's
interest, whatever is delivered afterwards. -/
theorem C15_retry_exhaustion (env : Env) (certificates : List Data) (step : ValidationRequest)
    (fails : List (Event × Nat)) (hall : ∀ x ∈ fails, x.1.isFailureOfFirst) :
    (fails.length ≤ step.m_nRetries.toNat →
        (((Validator.init (some Face.empty) certificates).afterCheckPolicy [step]).run env
          fails).2.failures = []) ∧
      (fails.length = step.m_nRetries.toNat + 1 →
        ∀ more : List (Event × Nat),
          (((Validator.init (some Face.empty) certificates).afterCheckPolicy [step]).run env
            (fails ++ more)).2.failures =
            ["Cannot fetch cert: " ++ env.toUri step.m_interest.getName]) := by
  obtain ⟨h1, h2⟩ := Validator.run_failures env step fails hall
    ((Validator.init (some Face.empty) certificates).afterCheckPolicy [step])
    [step.m_interest] step.m_interest step.m_nRetries
    (by rw [Validator.afterCheckPolicy_single])
  constructor
  · intro hlen
    obtain ⟨sent2, i2, hrun, _, _⟩ := h1 hlen
    rw [hrun]
    rfl
  · intro hlen more
    obtain ⟨sent2, hrun, _⟩ := h2 hlen
    rw [Validator.run_append env fails more _ (by rw [hrun]), hrun,
      Validator.run_no_pending env more]
    · rfl
    · rfl

/-- C15 at the step of the examples: after two failures nothing is reported, after the
third the one report names `/s/KEY`. -/
theorem C15_retry_exhaustion_witness :
    (∀ x ∈ [(Event.nack 0, 1), (Event.timeout 0, 2), (Event.timeout 0, 3)],
        x.1.isFailureOfFirst) ∧
      (((Validator.init (some Face.empty) []).afterCheckPolicy [Examples.stepKey]).run
          Examples.env
          ([(Event.nack 0, 1), (Event.timeout 0, 2), (Event.timeout 0, 3)] ++
            [(Event.timeout 0, 4)])).2.failures =
        ["Cannot fetch cert: " ++ Examples.env.toUri Examples.stepKey.m_interest.getName] ∧
      Examples.env.toUri Examples.stepKey.m_interest.getName = "/s/KEY" ∧
      (((Validator.init (some Face.empty) []).afterCheckPolicy [Examples.stepKey]).run
          Examples.env [(Event.nack 0, 1), (Event.timeout 0, 2)]).2.failures = [] :=
  ⟨by decide,
    (C15_retry_exhaustion Examples.env [] Examples.stepKey
      [(Event.nack 0, 1), (Event.timeout 0, 2), (Event.timeout 0, 3)] (by decide)).2
      (by decide) [(Event.timeout 0, 4)],
    by decide, by decide⟩

/-- What `onBundleData` can do to the face and the failure reports of a validator with
a face: it reports nothing, and it either leaves the face as it is or sends one more
bundle interest for the same pending steps. -/
theorem Validator.onBundleData_effect (env : Env) (rnd : Nat) (v : Validator) (f : Face)
    (hf : v.m_face = some f) (origInterest : Interest) (bundleData : Data) (z : Bool)
    (nextStep : ValidationRequest) (nextSteps : List ValidationRequest) :
    (v.onBundleData env rnd origInterest bundleData z nextStep nextSteps).2.failures =
        v.failures ∧
      ((v.onBundleData env rnd origInterest bundleData z nextStep nextSteps).2.m_face = some f ∨
        ∃ i, (v.onBundleData env rnd origInterest bundleData z nextStep nextSteps).2.m_face =
          some (f.expressInterest i (.onBundle true nextStep nextSteps))) := by
  have hfetch : ∀ (w : Validator) (name : Name) (n : Nat), w.m_face = some f →
      w.failures = v.failures →
      (w.fetchNextBundleSegment rnd origInterest name nextStep n nextSteps).failures =
          v.failures ∧
        ∃ i, (w.fetchNextBundleSegment rnd origInterest name nextStep n nextSteps).m_face =
          some (f.expressInterest i (.onBundle true nextStep nextSteps)) := by
    intro w name n hw hfail
    simp only [Validator.fetchNextBundleSegment]
    rw [Validator.expressInterest_some w f hw]
    exact ⟨hfail, _, rfl⟩
  unfold Validator.onBundleData
  split
  · exact ⟨rfl, Or.inl hf⟩
  · split
    · exact ⟨rfl, Or.inl hf⟩
    · obtain ⟨h1, h2⟩ := hfetch v bundleData.m_name 0 hf rfl
      exact ⟨h1, Or.inr h2⟩
    · split
      · exact ⟨rfl, Or.inl hf⟩
      · split
        · exact ⟨rfl, Or.inl hf⟩
        · simp only
          split
          · split
            · exact ⟨rfl, Or.inl hf⟩
            · refine ⟨(hfetch _ _ _ ?_ ?_).1, Or.inr (hfetch _ _ _ ?_ ?_).2⟩ <;>
                first | exact hf | rfl
          · split
            · exact ⟨rfl, Or.inl hf⟩
            · exact ⟨rfl, Or.inl hf⟩

theorem sum_map_failureBudget_steps (steps : List ValidationRequest) :
    ((steps.map (fun s => (⟨s.m_interest, .onCert s s.m_nRetries⟩ : PendingInterest))).map
      (fun p => p.callback.failureBudget)).sum = steps.length := by
  induction steps with
  | nil => rfl
  | cons s rest ih =>
    simp only [List.map_cons, List.sum_cons, List.length_cons, ih]
    simp only [Callback.failureBudget]
    omega

/-- One event never increases the number of failure reports plus the failure reports
the outstanding interests may still cause. -/
theorem Validator.deliver_failure_budget (env : Env) (rnd : Nat) (v : Validator) (e : Event) :
    (v.deliver env rnd e).2.failures.length + (v.deliver env rnd e).2.failureBudget ≤
      v.failures.length + v.failureBudget := by
  cases hf : v.m_face with
  | none =>
    have : v.deliver env rnd e = (.ok (), v) := by simp [Validator.deliver, hf]
    rw [this]
  | some f =>
    cases hp : f.pendingInterests[e.idx]? with
    | none =>
      have : v.deliver env rnd e = (.ok (), v) := by simp [Validator.deliver, hf, hp]
      rw [this]
    | some p =>
      have hsum := sum_map_eraseIdx (fun p : PendingInterest => p.callback.failureBudget)
        f.pendingInterests e.idx p hp
      simp only at hsum
      have hbud : v.failureBudget =
          (f.pendingInterests.map (fun p => p.callback.failureBudget)).sum := by
        simp [Validator.failureBudget, Validator.pendingInterests, hf]
      rw [hbud]
      obtain ⟨pi, pcb⟩ := p
      cases pcb with
      | onCert step r =>
        have hpb : (Callback.onCert step r).failureBudget = 1 := rfl
        simp only [hpb] at hsum
        have retry : ∀ w : Validator,
            w = ({ v with m_face := some { f with
                    pendingInterests := f.pendingInterests.eraseIdx e.idx } } : Validator).onNack
                  env rnd pi r step →
              w.failures.length + w.failureBudget ≤ v.failures.length +
                (f.pendingInterests.map (fun p => p.callback.failureBudget)).sum := by
          intro w hw
          subst hw
          simp only [Validator.onNack]
          split_ifs with hr
          · simp only [Validator.expressInterest, Face.expressInterest,
              Validator.pendingInterests, Validator.failureBudget, List.map_append,
              List.sum_append, List.map_cons, List.map_nil, List.sum_cons, List.sum_nil]
            have h1 : (Callback.onCert step (r - 1)).failureBudget = 1 := rfl
            rw [h1]
            omega
          · simp only [Validator.onFailure, Validator.pendingInterests,
              Validator.failureBudget, List.length_append, List.length_cons, List.length_nil]
            omega
        cases e with
        | data idx d =>
          have hd : v.deliver env rnd (.data idx d) =
              (.ok (), ({ v with m_face := some { f with
                pendingInterests := f.pendingInterests.eraseIdx idx } } : Validator).onData
                pi d step) := by
            simp only [Event.idx] at hp
            simp [Validator.deliver, hf, hp, Event.idx]
          rw [hd]
          simp only [Validator.onData, Validator.pendingInterests, Validator.failureBudget]
          simp only [Event.idx] at hsum
          omega
        | nack idx =>
          have hd : v.deliver env rnd (.nack idx) =
              (.ok (), ({ v with m_face := some { f with
                pendingInterests := f.pendingInterests.eraseIdx idx } } : Validator).onNack
                env rnd pi r step) := by
            simp only [Event.idx] at hp
            simp [Validator.deliver, hf, hp, Event.idx]
          rw [hd]
          exact retry _ rfl
        | timeout idx =>
          have hd : v.deliver env rnd (.timeout idx) =
              (.ok (), ({ v with m_face := some { f with
                pendingInterests := f.pendingInterests.eraseIdx idx } } : Validator).onNack
                env rnd pi r step) := by
            simp only [Event.idx] at hp
            simp [Validator.deliver, hf, hp, Event.idx, Validator.onTimeout_eq_onNack]
          rw [hd]
          exact retry _ rfl
      | onBundle z nextStep nextSteps =>
        have hpb : (Callback.onBundle z nextStep nextSteps).failureBudget = nextSteps.length :=
          rfl
        simp only [hpb] at hsum
        have fallback : ∀ w : Validator,
            w = ({ v with m_face := some { f with
                    pendingInterests := f.pendingInterests.eraseIdx e.idx } } :
                  Validator).afterCheckPolicy nextSteps →
              w.failures.length + w.failureBudget ≤ v.failures.length +
                (f.pendingInterests.map (fun p => p.callback.failureBudget)).sum := by
          intro w hw
          subst hw
          rw [Validator.afterCheckPolicy_some nextSteps _ _ rfl]
          simp only [Validator.pendingInterests, Validator.failureBudget, List.map_append,
            List.sum_append, sum_map_failureBudget_steps]
          omega
        cases e with
        | data idx d =>
          have hd : v.deliver env rnd (.data idx d) =
              ({ v with m_face := some { f with
                pendingInterests := f.pendingInterests.eraseIdx idx } } :
                Validator).onBundleData env rnd pi d z nextStep nextSteps := by
            simp only [Event.idx] at hp
            simp [Validator.deliver, hf, hp, Event.idx]
          rw [hd]
          obtain ⟨h1, h2⟩ := Validator.onBundleData_effect env rnd
            ({ v with m_face := some { f with
                pendingInterests := f.pendingInterests.eraseIdx idx } } : Validator)
            { f with pendingInterests := f.pendingInterests.eraseIdx idx } rfl pi d z nextStep
            nextSteps
          simp only [Event.idx] at hsum
          rw [h1]
          rcases h2 with h2 | ⟨i, h2⟩
          · simp only [Validator.failureBudget, Validator.pendingInterests, h2]
            omega
          · simp only [Validator.failureBudget, Validator.pendingInterests, h2,
              Face.expressInterest, List.map_append, List.sum_append, List.map_cons,
              List.map_nil, List.sum_cons, List.sum_nil, hpb]
            have h3 : (Callback.onBundle true nextStep nextSteps).failureBudget =
                nextSteps.length := rfl
            rw [h3]
            omega
        | nack idx =>
          have hd : v.deliver env rnd (.nack idx) =
              (.ok (), ({ v with m_face := some { f with
                pendingInterests := f.pendingInterests.eraseIdx idx } } :
                Validator).afterCheckPolicy nextSteps) := by
            simp only [Event.idx] at hp
            simp [Validator.deliver, hf, hp, Event.idx, Validator.onBundleNack]
          rw [hd]
          exact fallback _ rfl
        | timeout idx =>
          have hd : v.deliver env rnd (.timeout idx) =
              (.ok (), ({ v with m_face := some { f with
                pendingInterests := f.pendingInterests.eraseIdx idx } } :
                Validator).afterCheckPolicy nextSteps) := by
            simp only [Event.idx] at hp
            simp [Validator.deliver, hf, hp, Event.idx, Validator.onBundleTimeout]
          rw [hd]
          exact fallback _ rfl

/-- Over a whole run the failure reports stay within those made at the start plus those
the interests outstanding then may cause. -/
theorem Validator.run_failure_budget (env : Env) (es : List (Event × Nat)) :
    ∀ v : Validator,
      (v.run env es).2.failures.length + (v.run env es).2.failureBudget ≤
        v.failures.length + v.failureBudget := by
  induction es with
  | nil => intro v; exact le_refl _
  | cons x rest ih =>
    intro v
    obtain ⟨e, rnd⟩ := x
    have h := Validator.deliver_failure_budget env rnd v e
    simp only [Validator.run]
    cases hd : v.deliver env rnd e with
    | mk r v2 =>
      rw [hd] at h
      cases r with
      | error x => exact h
      | ok u => exact le_trans (ih v2) h

/-- At the start of a validation, after `validate`, the failure reports plus those the
outstanding interests may cause are at most the number of pending steps. -/
theorem Validator.validate_failure_budget (env : Env) (face : Option Face)
    (hface : ∀ f, face = some f → f.pendingInterests = []) (certificates : List Data)
    (dataName : Name) (nextSteps : List ValidationRequest) :
    ((Validator.init face certificates).validate env dataName nextSteps).2.failures.length +
        ((Validator.init face certificates).validate env dataName nextSteps).2.failureBudget ≤
      nextSteps.length := by
  have h0 : (Validator.init face certificates).failureBudget = 0 := by
    cases face with
    | none => rfl
    | some f => simp [Validator.failureBudget, Validator.pendingInterests, Validator.init,
        hface f rfl]
  cases nextSteps with
  | nil =>
    simp only [Validator.validate, List.isEmpty_nil, if_true, h0]
    rfl
  | cons step rest =>
    simp only [Validator.validate, List.isEmpty_cons, Bool.false_eq_true, if_false,
      Validator.checkKeyBundle]
    cases hfind : env.cacheFind (Validator.init face certificates).m_certificates
        step.m_interest with
    | some certificate =>
      simp only [Validator.onData]
      have : ({ Validator.init face certificates with
          onDataCalls := (Validator.init face certificates).onDataCalls ++
            [(step.m_interest, certificate, step)] } : Validator).failureBudget =
          (Validator.init face certificates).failureBudget := rfl
      rw [this, h0]
      simp [Validator.init]
    | none =>
      simp only
      cases hd : deriveBundleName dataName with
      | none =>
        simp only [h0]
        simp [Validator.init]
      | some bundlePrefix =>
        simp only [Validator.fetchFirstBundleSegment]
        cases face with
        | none =>
          simp [Validator.init, Validator.onFailure, Validator.failureBudget,
            Validator.pendingInterests]
        | some f =>
          simp [Validator.init, Validator.expressInterest, Face.expressInterest,
            Validator.failureBudget, Validator.pendingInterests, hface f rfl,
            Callback.failureBudget]

/-- C16, as the code has it: for every validation, whatever the pending steps returned
by `checkPolicy` and whatever the sequence of Data, Nack and timeout events, `onFailure`
is invoked at most once per pending step: at most `nextSteps.size()` times in all, hence
at most once when there is a single pending step. -/
theorem C16_failures_at_most_steps (env : Env) (face : Option Face)
    (hface : ∀ f, face = some f → f.pendingInterests = []) (certificates : List Data)
    (dataName : Name) (nextSteps : List ValidationRequest) (events : List (Event × Nat)) :
    ((((Validator.init face certificates).validate env dataName nextSteps).2.run env
        events).2.failures.length ≤ nextSteps.length) ∧
      (nextSteps.length = 1 →
        (((Validator.init face certificates).validate env dataName nextSteps).2.run env
          events).2.failures.length ≤ 1) := by
  have h1 := Validator.run_failure_budget env events
    ((Validator.init face certificates).validate env dataName nextSteps).2
  have h2 := Validator.validate_failure_budget env face hface certificates dataName nextSteps
  constructor
  · omega
  · intro h
    omega

/-- C16 fails as stated: with two pending steps without retries, a Nack for the bundle
interest and a timeout for each of the two certificate interests make two calls of
`onFailure`. -/
theorem C16_counterexample_two_steps :
    (((Validator.init (some Face.empty) []).validate Examples.env Examples.nameDataV1
        [Examples.stepRoot, Examples.stepRoot]).2.run Examples.env
        [(.nack 0, 1), (.timeout 0, 2), (.timeout 0, 3)]).1 = .ok () ∧
      (((Validator.init (some Face.empty) []).validate Examples.env Examples.nameDataV1
        [Examples.stepRoot, Examples.stepRoot]).2.run Examples.env
        [(.nack 0, 1), (.timeout 0, 2), (.timeout 0, 3)]).2.failures.length = 2 := by
  decide

/-- The amended C16 at the validation of the examples with its single pending step and
five failures in a row. -/
theorem C16_failures_at_most_steps_witness :
    (∀ f, some Face.empty = some f → f.pendingInterests = []) ∧
      ((((Validator.init (some Face.empty) []).validate Examples.env Examples.nameDataV1
            [Examples.stepKey]).2.run Examples.env
            [(.nack 0, 1), (.nack 0, 2), (.timeout 0, 3), (.timeout 0, 4),
             (.timeout 0, 5)]).2.failures.length ≤ [Examples.stepKey].length ∧
        ([Examples.stepKey].length = 1 →
          (((Validator.init (some Face.empty) []).validate Examples.env Examples.nameDataV1
            [Examples.stepKey]).2.run Examples.env
            [(.nack 0, 1), (.nack 0, 2), (.timeout 0, 3), (.timeout 0, 4),
             (.timeout 0, 5)]).2.failures.length ≤ 1)) ∧
      (((Validator.init (some Face.empty) []).validate Examples.env Examples.nameDataV1
          [Examples.stepKey]).2.run Examples.env
          [(.nack 0, 1), (.nack 0, 2), (.timeout 0, 3), (.timeout 0, 4),
           (.timeout 0, 5)]).2.failures = ["Cannot fetch cert: /s/KEY"] :=
  ⟨fun f h => by cases h; rfl,
    C16_failures_at_most_steps Examples.env (some Face.empty) (fun f h => by cases h; rfl) []
      Examples.nameDataV1 [Examples.stepKey]
      [(.nack 0, 1), (.nack 0, 2), (.timeout 0, 3), (.timeout 0, 4), (.timeout 0, 5)],
    by decide⟩

/-! ## The bundle producer -/

theorem encodeElements_append (a b : List Block) :
    encodeElements (a ++ b) = encodeElements a ++ encodeElements b := by
  simp [encodeElements]

theorem encodeElements_singleton (b : Block) :
    encodeElements [b] = tlvBytes b.type b.value := by
  simp [encodeElements]

theorem push_back_encodeElements (g : List Block) (b : Block) :
    Block.push_back ⟨Tlv.Content, encodeElements g⟩ b =
      ⟨Tlv.Content, encodeElements (g ++ [b])⟩ := by
  simp [Block.push_back, encodeElements_append, encodeElements_singleton]

theorem BundleState.createBundleSegment_contents (st : BundleState) (bundleName : Name)
    (n : Nat) (content : Block) (isFinal : Bool) :
    (st.createBundleSegment bundleName n content isFinal).m_bundleSegments.map
        (fun d => d.m_content) =
      st.m_bundleSegments.map (fun d => d.m_content) ++ [content] := by
  simp only [BundleState.createBundleSegment, List.map_append, List.map_cons, List.map_nil]
  split_ifs <;> rfl

theorem BundleState.createBundleSegment_length (st : BundleState) (bundleName : Name)
    (n : Nat) (content : Block) (isFinal : Bool) :
    (st.createBundleSegment bundleName n content isFinal).m_bundleSegments.length =
      st.m_bundleSegments.length + 1 := by
  simp [BundleState.createBundleSegment]

/-- The loop of `createCertBundle`: the contents of the segments it adds and the content
block it leaves hold, group after group, the elements it started with followed by the
encoded certificates, in order. -/
theorem BundleState.createCertBundleLoop_groups (env : Env) (maxSize : Nat) (bundleName : Name) :
    ∀ (chain : List Data) (st : BundleState) (n : Nat) (g : List Block),
      ∃ (groups : List (List Block)) (g2 : List Block),
        (BundleState.createCertBundleLoop env maxSize bundleName chain
            (st, n, ⟨Tlv.Content, encodeElements g⟩)).1.m_bundleSegments.map
            (fun d => d.m_content) =
          st.m_bundleSegments.map (fun d => d.m_content) ++
            groups.map (fun x => ⟨Tlv.Content, encodeElements x⟩) ∧
        (BundleState.createCertBundleLoop env maxSize bundleName chain
            (st, n, ⟨Tlv.Content, encodeElements g⟩)).2.2 = ⟨Tlv.Content, encodeElements g2⟩ ∧
        groups.flatten ++ g2 = g ++ chain.map env.dataWireEncode := by
  intro chain
  induction chain with
  | nil =>
    intro st n g
    exact ⟨[], g, by simp [BundleState.createCertBundleLoop], rfl, by simp⟩
  | cons cert rest ih =>
    intro st n g
    simp only [BundleState.createCertBundleLoop]
    split_ifs with hsplit
    · have e : Block.push_back ⟨Tlv.Content, []⟩ (env.dataWireEncode cert) =
          ⟨Tlv.Content, encodeElements [env.dataWireEncode cert]⟩ :=
        push_back_encodeElements [] (env.dataWireEncode cert)
      simp only [e]
      obtain ⟨groups, g2, h1, h2, h3⟩ := ih
        (st.createBundleSegment bundleName n ⟨Tlv.Content, encodeElements g⟩ false)
        ((n + 1) % 2 ^ 64) [env.dataWireEncode cert]
      refine ⟨g :: groups, g2, ?_, h2, ?_⟩
      · rw [h1, BundleState.createBundleSegment_contents]
        simp
      · simp only [List.flatten_cons, List.append_assoc, h3, List.map_cons]
        simp
    · simp only [push_back_encodeElements]
      obtain ⟨groups, g2, h1, h2, h3⟩ := ih st n (g ++ [env.dataWireEncode cert])
      refine ⟨groups, g2, h1, h2, ?_⟩
      rw [h3]
      simp

theorem encodeVarNumber_length_mono (a b : Nat) (h : a ≤ b) :
    (encodeVarNumber a).length ≤ (encodeVarNumber b).length := by
  unfold encodeVarNumber prependVarNumber
  split_ifs <;> simp [beBytes_length] <;> omega

/-- The size of a block grows at least by the bytes added to its value. -/
theorem Block.size_append (t : Nat) (v w : List Nat) :
    Block.size ⟨t, v⟩ + w.length ≤ Block.size ⟨t, v ++ w⟩ := by
  have h := encodeVarNumber_length_mono v.length (v ++ w).length (by simp)
  simp only [Block.size, tlvBytes, List.length_append] at h ⊢
  omega

/-- The loop of `createCertBundle` on a chain whose whole content block stays under the
limit (the content of a certificate being no larger than the certificate) cuts no
segment: it leaves the state and the segment number as they are and the content block
with all the certificates. -/
theorem BundleState.createCertBundleLoop_fits (env : Env) (maxSize : Nat) (bundleName : Name) :
    ∀ (chain : List Data) (st : BundleState) (n : Nat) (g : List Block),
      (∀ c ∈ chain, c.m_content.size ≤ (env.dataWireEncode c).size) →
      Block.size ⟨Tlv.Content, encodeElements (g ++ chain.map env.dataWireEncode)⟩ < maxSize →
      BundleState.createCertBundleLoop env maxSize bundleName chain
          (st, n, ⟨Tlv.Content, encodeElements g⟩) =
        (st, n, ⟨Tlv.Content, encodeElements (g ++ chain.map env.dataWireEncode)⟩) := by
  intro chain
  induction chain with
  | nil =>
    intro st n g _ _
    simp [BundleState.createCertBundleLoop]
  | cons cert rest ih =>
    intro st n g hc hfit
    have hcert := hc cert (List.mem_cons_self _ _)
    have e1 : g ++ (cert :: rest).map env.dataWireEncode =
        (g ++ [env.dataWireEncode cert]) ++ rest.map env.dataWireEncode := by simp
    have hno : ¬ (Block.size ⟨Tlv.Content, encodeElements g⟩ + cert.m_content.size ≥ maxSize) := by
      have s1 := Block.size_append Tlv.Content (encodeElements g)
        (encodeElements [env.dataWireEncode cert])
      have s2 := Block.size_append Tlv.Content (encodeElements (g ++ [env.dataWireEncode cert]))
        (encodeElements (rest.map env.dataWireEncode))
      rw [← encodeElements_append] at s1 s2
      rw [e1] at hfit
      have s3 : (encodeElements [env.dataWireEncode cert]).length =
          (env.dataWireEncode cert).size := by
        rw [encodeElements_singleton]
        rfl
      omega
    simp only [BundleState.createCertBundleLoop, hno, if_false, push_back_encodeElements]
    rw [ih st n (g ++ [env.dataWireEncode cert])
      (fun c h => hc c (List.mem_cons_of_mem _ h)) (by rw [← e1]; exact hfit), e1]

/-- C20: for every certificate chain held by a fresh `BundleState` (its certificates
encoding to well-formed elements), the segments that `createCertBundle` produces have
contents that parse, and the elements of these contents, concatenated in segment order,
are exactly `wireEncode(c1), ..., wireEncode(cn)` in chain order; when the content block
of the whole chain is under the size limit (the content of a certificate being no larger
than the certificate) there is exactly one segment and its content has the `n` encoded
certificates as its elements. -/
theorem C20_bundle_contents_are_chain (env : Env) (maxSize version : Nat) (st : BundleState)
    (bundleInterestName : Name) (hfresh : st.m_bundleSegments = [])
    (hwf : ∀ c ∈ st.m_certificateChain,
      (env.dataWireEncode c).type < 2 ^ 64 ∧ (env.dataWireEncode c).value.length < 2 ^ 64) :
    (∃ groups : List (List Block),
        (st.createCertBundle env maxSize version bundleInterestName).m_bundleSegments.map
            (fun d => d.m_content.parse) = groups.map .ok ∧
          groups.flatten = st.m_certificateChain.map env.dataWireEncode) ∧
      ((∀ c ∈ st.m_certificateChain, c.m_content.size ≤ (env.dataWireEncode c).size) →
        Block.size ⟨Tlv.Content,
            encodeElements (st.m_certificateChain.map env.dataWireEncode)⟩ < maxSize →
        (st.createCertBundle env maxSize version bundleInterestName).m_bundleSegments.map
            (fun d => d.m_content.parse) =
          [.ok (st.m_certificateChain.map env.dataWireEncode)]) := by
  have hparse : ∀ G : List Block, (∀ b ∈ G, b ∈ st.m_certificateChain.map env.dataWireEncode) →
      Block.parse ⟨Tlv.Content, encodeElements G⟩ = .ok G := by
    intro G hG
    apply parseElements_encodeElements
    intro b hb
    obtain ⟨c, hc, rfl⟩ := List.mem_map.mp (hG b hb)
    exact hwf c hc
  constructor
  · obtain ⟨groups, g2, h1, h2, h3⟩ := BundleState.createCertBundleLoop_groups env maxSize
      (Name.appendVersion bundleInterestName version) st.m_certificateChain st 0 []
    have hc : (st.createCertBundle env maxSize version bundleInterestName).m_bundleSegments.map
        (fun d => d.m_content) =
        (groups ++ [g2]).map (fun x => ⟨Tlv.Content, encodeElements x⟩) := by
      simp only [BundleState.createCertBundle]
      rw [BundleState.createBundleSegment_contents]
      have e0 : (⟨Tlv.Content, []⟩ : Block) = ⟨Tlv.Content, encodeElements []⟩ := rfl
      rw [e0, h1, h2, hfresh]
      simp
    have hflat : (groups ++ [g2]).flatten = st.m_certificateChain.map env.dataWireEncode := by
      simpa using h3
    refine ⟨groups ++ [g2], ?_, hflat⟩
    have hm : (st.createCertBundle env maxSize version bundleInterestName).m_bundleSegments.map
        (fun d => d.m_content.parse) =
        ((st.createCertBundle env maxSize version bundleInterestName).m_bundleSegments.map
          (fun d => d.m_content)).map Block.parse := by
      rw [List.map_map]
      rfl
    rw [hm, hc, List.map_map]
    apply List.map_congr_left
    intro G hG
    simp only [Function.comp_apply]
    apply hparse
    intro b hb
    rw [← hflat]
    exact List.mem_flatten.mpr ⟨G, hG, hb⟩
  · intro hcontent hfit
    have hl := BundleState.createCertBundleLoop_fits env maxSize
      (Name.appendVersion bundleInterestName version) st.m_certificateChain st 0 [] hcontent
      (by simpa using hfit)
    have e0 : (⟨Tlv.Content, []⟩ : Block) = ⟨Tlv.Content, encodeElements []⟩ := rfl
    simp only [BundleState.createCertBundle]
    rw [e0, hl]
    simp only [BundleState.createBundleSegment, hfresh, List.nil_append, List.map_cons,
      List.map_nil, if_true]
    rw [hparse _ (fun b hb => hb)]

/-- C20 at the chain of the three certificates of the examples with the limit 8800: one
segment, whose content parses to the three encoded certificates. -/
theorem C20_bundle_contents_are_chain_witness :
    Examples.stateThreeCerts.m_bundleSegments = [] ∧
      (∀ c ∈ Examples.stateThreeCerts.m_certificateChain,
        c.m_content.size ≤ (Examples.env.dataWireEncode c).size) ∧
      Block.size ⟨Tlv.Content, encodeElements
          (Examples.stateThreeCerts.m_certificateChain.map Examples.env.dataWireEncode)⟩ <
        8800 ∧
      (Examples.stateThreeCerts.createCertBundle Examples.env 8800 1
          Examples.nameDataBundle).m_bundleSegments.map (fun d => d.m_content.parse) =
        [.ok (Examples.stateThreeCerts.m_certificateChain.map Examples.env.dataWireEncode)] ∧
      (Examples.stateThreeCerts.m_certificateChain.map Examples.env.dataWireEncode).length = 3 :=
  ⟨rfl, by decide, by decide,
    (C20_bundle_contents_are_chain Examples.env 8800 1 Examples.stateThreeCerts
      Examples.nameDataBundle rfl (by decide)).2 (by decide) (by decide),
    by decide⟩

/-! ## Names and final block ids of the segments -/

theorem BundleState.createBundleSegment_names (st : BundleState) (bundleName : Name)
    (n : Nat) (content : Block) (isFinal : Bool) :
    (st.createBundleSegment bundleName n content isFinal).m_bundleSegments.map
        (fun d => d.m_name) =
      st.m_bundleSegments.map (fun d => d.m_name) ++ [Name.appendSegment bundleName n] := by
  simp only [BundleState.createBundleSegment, List.map_append, List.map_cons, List.map_nil]
  split_ifs <;> rfl

theorem BundleState.createBundleSegment_finalBlockIds (st : BundleState) (bundleName : Name)
    (n : Nat) (content : Block) (isFinal : Bool) :
    (st.createBundleSegment bundleName n content isFinal).m_bundleSegments.map
        (fun d => d.m_finalBlockId) =
      st.m_bundleSegments.map (fun d => d.m_finalBlockId) ++
        [if isFinal then some (Component.fromSegment n) else none] := by
  have h : Name.get (Name.appendSegment bundleName n) (-1) = some (Component.fromSegment n) :=
    Name.get_last bundleName (Component.fromSegment n)
  simp only [BundleState.createBundleSegment, List.map_append, List.map_cons, List.map_nil, h]
  split_ifs <;> rfl

/-- The loop of `createCertBundle` stores segments that are numbered upwards from the
segment number it starts with, none of them with a final block id, and ends with the
next free segment number. -/
theorem BundleState.createCertBundleLoop_names (env : Env) (maxSize : Nat) (bundleName : Name) :
    ∀ (chain : List Data) (st : BundleState) (n : Nat) (certBundle : Block),
      n + chain.length < 2 ^ 64 →
      ∃ j : Nat, j ≤ chain.length ∧
        (BundleState.createCertBundleLoop env maxSize bundleName chain
            (st, n, certBundle)).1.m_bundleSegments.map (fun d => d.m_name) =
          st.m_bundleSegments.map (fun d => d.m_name) ++
            (List.range j).map (fun i => Name.appendSegment bundleName (n + i)) ∧
        (BundleState.createCertBundleLoop env maxSize bundleName chain
            (st, n, certBundle)).1.m_bundleSegments.map (fun d => d.m_finalBlockId) =
          st.m_bundleSegments.map (fun d => d.m_finalBlockId) ++ List.replicate j none ∧
        (BundleState.createCertBundleLoop env maxSize bundleName chain
            (st, n, certBundle)).2.1 = n + j := by
  intro chain
  induction chain with
  | nil =>
    intro st n certBundle _
    exact ⟨0, le_refl _, by simp [BundleState.createCertBundleLoop],
      by simp [BundleState.createCertBundleLoop], rfl⟩
  | cons cert rest ih =>
    intro st n certBundle hn
    simp only [List.length_cons] at hn
    simp only [BundleState.createCertBundleLoop]
    split_ifs with hsplit
    · have hmod : (n + 1) % 2 ^ 64 = n + 1 := Nat.mod_eq_of_lt (by omega)
      simp only [hmod]
      obtain ⟨j, hj, h1, h2, h3⟩ := ih (st.createBundleSegment bundleName n certBundle false)
        (n + 1) (Block.push_back ⟨Tlv.Content, []⟩ (env.dataWireEncode cert)) (by omega)
      refine ⟨j + 1, by simp only [List.length_cons]; omega, ?_, ?_, by rw [h3]; omega⟩
      · rw [h1, BundleState.createBundleSegment_names, List.range_succ_eq_map, List.map_cons,
          List.map_map, List.append_assoc]
        simp only [List.singleton_append, Nat.add_zero, List.cons.injEq, true_and,
          List.append_cancel_left_eq]
        apply List.map_congr_left
        intro i _
        simp only [Function.comp_apply]
        congr 1
        omega
      · rw [h2, BundleState.createBundleSegment_finalBlockIds, List.replicate_succ,
          List.append_assoc]
        simp
    · obtain ⟨j, hj, h1, h2, h3⟩ := ih st n (Block.push_back certBundle (env.dataWireEncode cert))
        (by omega)
      exact ⟨j, by simp only [List.length_cons]; omega, h1, h2, h3⟩

/-- C21: for every certificate chain (of fewer than 2^64 certificates), the segments that
one call of `createCertBundle` stores in a fresh `BundleState` are named
`versionedName/segment=0`, `1`, ..., `k` in that order, `versionedName` being the bundle
interest name followed by the one version component; the last segment has its own
segment component as `finalBlockId` and no other segment has a `finalBlockId`. -/
theorem C21_segments_ascending_final_last (env : Env) (maxSize version : Nat)
    (st : BundleState) (bundleInterestName : Name) (hfresh : st.m_bundleSegments = [])
    (hlen : st.m_certificateChain.length < 2 ^ 64) :
    ∃ k : Nat,
      (st.createCertBundle env maxSize version bundleInterestName).m_bundleSegments.map
          (fun d => d.m_name) =
        (List.range (k + 1)).map
          (fun i => Name.appendSegment (Name.appendVersion bundleInterestName version) i) ∧
      (st.createCertBundle env maxSize version bundleInterestName).m_bundleSegments.map
          (fun d => d.m_finalBlockId) =
        List.replicate k none ++ [some (Component.fromSegment k)] := by
  obtain ⟨j, _, h1, h2, h3⟩ := BundleState.createCertBundleLoop_names env maxSize
    (Name.appendVersion bundleInterestName version) st.m_certificateChain st 0
    ⟨Tlv.Content, []⟩ (by omega)
  refine ⟨j, ?_, ?_⟩
  · simp only [BundleState.createCertBundle]
    rw [BundleState.createBundleSegment_names, h1, h3, hfresh, List.range_succ, List.map_append]
    simp
  · simp only [BundleState.createCertBundle]
    rw [BundleState.createBundleSegment_finalBlockIds, h2, h3, hfresh]
    simp

/-- C21 at the three certificates of the examples with the limit 20: two segments,
`seg=0` and `seg=1` under the version 1, the second one final. -/
theorem C21_segments_ascending_final_last_witness :
    Examples.stateThreeCerts.m_bundleSegments = [] ∧
      Examples.stateThreeCerts.m_certificateChain.length < 2 ^ 64 ∧
      (Examples.stateThreeCerts.createCertBundle Examples.env 20 1
          Examples.nameDataBundle).m_bundleSegments.map (fun d => d.m_name) =
        [Examples.nameDataBundle ++ [Examples.v1, Examples.seg0],
         Examples.nameDataBundle ++ [Examples.v1, Examples.seg1]] ∧
      ∃ k : Nat,
        (Examples.stateThreeCerts.createCertBundle Examples.env 20 1
            Examples.nameDataBundle).m_bundleSegments.map (fun d => d.m_name) =
          (List.range (k + 1)).map
            (fun i => Name.appendSegment (Name.appendVersion Examples.nameDataBundle 1) i) ∧
        (Examples.stateThreeCerts.createCertBundle Examples.env 20 1
            Examples.nameDataBundle).m_bundleSegments.map (fun d => d.m_finalBlockId) =
          List.replicate k none ++ [some (Component.fromSegment k)] :=
  ⟨rfl, by decide, by decide,
    C21_segments_ascending_final_last Examples.env 20 1 Examples.stateThreeCerts
      Examples.nameDataBundle rfl (by decide)⟩

/-! ## The set of seen names -/

theorem BundleState.createBundleSegment_frame (st : BundleState) (bundleName : Name)
    (n : Nat) (content : Block) (isFinal : Bool) :
    (st.createBundleSegment bundleName n content isFinal).m_seenCertificateNames =
        st.m_seenCertificateNames ∧
      (st.createBundleSegment bundleName n content isFinal).m_certificateChain =
        st.m_certificateChain ∧
      (st.createBundleSegment bundleName n content isFinal).m_signingKeyName =
        st.m_signingKeyName := by
  simp [BundleState.createBundleSegment]

theorem BundleState.createCertBundleLoop_frame (env : Env) (maxSize : Nat) (bundleName : Name) :
    ∀ (chain : List Data) (st : BundleState) (n : Nat) (certBundle : Block),
      (BundleState.createCertBundleLoop env maxSize bundleName chain
          (st, n, certBundle)).1.m_seenCertificateNames = st.m_seenCertificateNames ∧
        (BundleState.createCertBundleLoop env maxSize bundleName chain
          (st, n, certBundle)).1.m_certificateChain = st.m_certificateChain ∧
        (BundleState.createCertBundleLoop env maxSize bundleName chain
          (st, n, certBundle)).1.m_signingKeyName = st.m_signingKeyName := by
  intro chain
  induction chain with
  | nil =>
    intro st n certBundle
    simp [BundleState.createCertBundleLoop]
  | cons cert rest ih =>
    intro st n certBundle
    simp only [BundleState.createCertBundleLoop]
    split_ifs with hsplit
    · have h := ih (st.createBundleSegment bundleName n certBundle false) ((n + 1) % 2 ^ 64)
        (Block.push_back ⟨Tlv.Content, []⟩ (env.dataWireEncode cert))
      have f := BundleState.createBundleSegment_frame st bundleName n certBundle false
      exact ⟨h.1.trans f.1, h.2.1.trans f.2.1, h.2.2.trans f.2.2⟩
    · exact ih st n (Block.push_back certBundle (env.dataWireEncode cert))

theorem BundleState.createCertBundle_frame (env : Env) (maxSize version : Nat)
    (st : BundleState) (bundleInterestName : Name) :
    (st.createCertBundle env maxSize version bundleInterestName).m_seenCertificateNames =
        st.m_seenCertificateNames ∧
      (st.createCertBundle env maxSize version bundleInterestName).m_certificateChain =
        st.m_certificateChain ∧
      (st.createCertBundle env maxSize version bundleInterestName).m_signingKeyName =
        st.m_signingKeyName := by
  have h := BundleState.createCertBundleLoop_frame env maxSize
    (Name.appendVersion bundleInterestName version) st.m_certificateChain st 0 ⟨Tlv.Content, []⟩
  have f := BundleState.createBundleSegment_frame
    (BundleState.createCertBundleLoop env maxSize
      (Name.appendVersion bundleInterestName version) st.m_certificateChain
      (st, 0, ⟨Tlv.Content, []⟩)).1
    (Name.appendVersion bundleInterestName version)
    (BundleState.createCertBundleLoop env maxSize
      (Name.appendVersion bundleInterestName version) st.m_certificateChain
      (st, 0, ⟨Tlv.Content, []⟩)).2.1
    (BundleState.createCertBundleLoop env maxSize
      (Name.appendVersion bundleInterestName version) st.m_certificateChain
      (st, 0, ⟨Tlv.Content, []⟩)).2.2 true
  simp only [BundleState.createCertBundle]
  exact ⟨f.1.trans h.1, f.2.1.trans h.2.1, f.2.2.trans h.2.2⟩

/-- The answer of `hasSeenCertificateName` is the membership in the set of seen names. -/
theorem BundleState.hasSeenCertificateName_fst (s : BundleState) (certName : Name) :
    (s.hasSeenCertificateName certName).1 = decide (certName ∈ s.m_seenCertificateNames) := by
  simp only [BundleState.hasSeenCertificateName]
  split_ifs with h <;> simp [h]

theorem BundleState.hasSeenCertificateName_seen (s : BundleState) (certName other : Name) :
    other ∈ (s.hasSeenCertificateName certName).2.m_seenCertificateNames ↔
      other ∈ s.m_seenCertificateNames ∨ other = certName := by
  simp only [BundleState.hasSeenCertificateName]
  split_ifs with h
  · constructor
    · exact Or.inl
    · rintro (h2 | rfl)
      · exact h2
      · exact h
  · simp

theorem BundleState.hasSeenCertificateName_frame (s : BundleState) (certName : Name) :
    (s.hasSeenCertificateName certName).2.m_certificateChain = s.m_certificateChain ∧
      (s.hasSeenCertificateName certName).2.m_bundleSegments = s.m_bundleSegments ∧
      (s.hasSeenCertificateName certName).2.m_signingKeyName = s.m_signingKeyName := by
  simp only [BundleState.hasSeenCertificateName]
  split_ifs <;> simp

/-- An operation other than `hasSeenCertificateName(certName)` leaves the membership of
`certName` in the set of seen names as it is; no operation removes a name. -/
theorem BundleState.Op.apply_seen (env : Env) (maxSize : Nat) (op : BundleState.Op)
    (s : BundleState) (certName : Name) :
    (certName ∈ s.m_seenCertificateNames →
        certName ∈ (op.apply env maxSize s).m_seenCertificateNames) ∧
      (op ≠ .hasSeenCertificateName certName →
        certName ∈ (op.apply env maxSize s).m_seenCertificateNames →
        certName ∈ s.m_seenCertificateNames) := by
  cases op with
  | hasSeenCertificateName other =>
    simp only [BundleState.Op.apply, BundleState.hasSeenCertificateName_seen]
    refine ⟨Or.inl, ?_⟩
    intro hne h
    rcases h with h | h
    · exact h
    · exact absurd (by rw [h]) hne
  | addCertificate cert =>
    simp [BundleState.Op.apply, BundleState.addCertificate]
  | createCertBundle bundleInterestName version =>
    simp only [BundleState.Op.apply,
      (BundleState.createCertBundle_frame env maxSize version s bundleInterestName).1]
    exact ⟨id, fun _ h => h⟩

theorem BundleState.applyOps_seen (env : Env) (maxSize : Nat) (certName : Name) :
    ∀ (ops : List BundleState.Op) (s : BundleState),
      (certName ∈ s.m_seenCertificateNames →
          certName ∈ (BundleState.applyOps env maxSize s ops).m_seenCertificateNames) ∧
        ((∀ op ∈ ops, op ≠ .hasSeenCertificateName certName) →
          certName ∈ (BundleState.applyOps env maxSize s ops).m_seenCertificateNames →
          certName ∈ s.m_seenCertificateNames) := by
  intro ops
  induction ops with
  | nil =>
    intro s
    exact ⟨id, fun _ h => h⟩
  | cons op rest ih =>
    intro s
    have h1 := BundleState.Op.apply_seen env maxSize op s certName
    have h2 := ih (op.apply env maxSize s)
    simp only [BundleState.applyOps, List.foldl_cons] at h2 ⊢
    refine ⟨fun h => h2.1 (h1.1 h), fun hops h => ?_⟩
    exact h1.2 (hops op (List.mem_cons_self _ _))
      (h2.2 (fun o ho => hops o (List.mem_cons_of_mem _ ho)) h)

/-- C23: `hasSeenCertificateName` tests and records. On a state created for any signing
key name and taken through any operations other than a call for `certName`, the call
for `certName` returns false; after a call for `certName` on any state the name is in
the seen set, and a call for it returns true after any further operations on the state;
the call changes neither the answer for another name nor the certificate chain. -/
theorem C23_hasSeen_tests_and_records (env : Env) (maxSize : Nat) (s : BundleState)
    (certName : Name) :
    (∀ (signingKeyName : Name) (ops : List BundleState.Op),
        (∀ op ∈ ops, op ≠ .hasSeenCertificateName certName) →
        ((BundleState.applyOps env maxSize (BundleState.mk1 signingKeyName)
          ops).hasSeenCertificateName certName).1 = false) ∧
      certName ∈ (s.hasSeenCertificateName certName).2.m_seenCertificateNames ∧
      (∀ ops : List BundleState.Op,
        ((BundleState.applyOps env maxSize (s.hasSeenCertificateName certName).2
          ops).hasSeenCertificateName certName).1 = true) ∧
      (∀ other : Name, other ≠ certName →
        ((s.hasSeenCertificateName certName).2.hasSeenCertificateName other).1 =
          (s.hasSeenCertificateName other).1) ∧
      (s.hasSeenCertificateName certName).2.m_certificateChain = s.m_certificateChain := by
  have hin : certName ∈ (s.hasSeenCertificateName certName).2.m_seenCertificateNames :=
    (BundleState.hasSeenCertificateName_seen s certName certName).mpr (Or.inr rfl)
  refine ⟨?_, hin, ?_, ?_, (BundleState.hasSeenCertificateName_frame s certName).1⟩
  · intro key ops hops
    rw [BundleState.hasSeenCertificateName_fst, decide_eq_false_iff_not]
    intro h
    have h0 := (BundleState.applyOps_seen env maxSize certName ops (BundleState.mk1 key)).2 hops h
    simp [BundleState.mk1] at h0
  · intro ops
    rw [BundleState.hasSeenCertificateName_fst, decide_eq_true_eq]
    exact (BundleState.applyOps_seen env maxSize certName ops _).1 hin
  · intro other hne
    rw [BundleState.hasSeenCertificateName_fst, BundleState.hasSeenCertificateName_fst]
    congr 1
    apply propext
    rw [BundleState.hasSeenCertificateName_seen]
    exact ⟨fun h => h.resolve_right hne, Or.inl⟩

/-- C23 on a state for the key `/s`: after a certificate was added and the name `/s` was
asked for, the first call for `/s/KEY/1` returns false. -/
theorem C23_hasSeen_tests_and_records_witness :
    (∀ op ∈ [BundleState.Op.addCertificate Examples.cert1,
        BundleState.Op.hasSeenCertificateName Examples.nameS],
        op ≠ .hasSeenCertificateName Examples.nameSKey1) ∧
      ((BundleState.applyOps Examples.env 8800 (BundleState.mk1 Examples.nameS)
        [.addCertificate Examples.cert1,
         .hasSeenCertificateName Examples.nameS]).hasSeenCertificateName
          Examples.nameSKey1).1 = false :=
  ⟨by decide,
    (C23_hasSeen_tests_and_records Examples.env 8800 (BundleState.mk1 Examples.nameS)
      Examples.nameSKey1).1 Examples.nameS
      [.addCertificate Examples.cert1, .hasSeenCertificateName Examples.nameS] (by decide)⟩

/-! ## The depth cap of the bundle helper -/

/-- What `fetchCertificate` leaves as it is, and the only interest it can express. -/
theorem BundleHelper.fetchCertificate_effect (h : BundleHelper) (certToFetch : Name)
    (s : BundleState) :
    (h.fetchCertificate certToFetch s).1.m_maxBundleSize = h.m_maxBundleSize ∧
      (h.fetchCertificate certToFetch s).2.m_certificateChain = s.m_certificateChain ∧
      (h.fetchCertificate certToFetch s).2.m_signingKeyName = s.m_signingKeyName ∧
      (∀ n ∈ s.m_seenCertificateNames,
        n ∈ (h.fetchCertificate certToFetch s).2.m_seenCertificateNames) ∧
      ((h.fetchCertificate certToFetch s).1 = h ∨
        (s.getDepth < h.m_maxBundleSize ∧ certToFetch ∉ s.m_seenCertificateNames ∧
          certToFetch ∈ (h.fetchCertificate certToFetch s).2.m_seenCertificateNames ∧
          (h.fetchCertificate certToFetch s).1.sentInterests =
            h.sentInterests ++ [BundleHelper.certInterest certToFetch] ∧
          (h.fetchCertificate certToFetch s).1.pendingInterests =
            h.pendingInterests ++ [BundleHelper.certInterest certToFetch])) := by
  simp only [BundleHelper.fetchCertificate]
  by_cases hd : s.getDepth ≥ h.m_maxBundleSize
  · simp [hd]
  · rw [if_neg hd]
    by_cases hs : certToFetch ∈ s.m_seenCertificateNames
    · simp [BundleState.hasSeenCertificateName, hs]
    · simp only [BundleState.hasSeenCertificateName, if_neg hs, Bool.false_eq_true, if_false]
      refine ⟨trivial, trivial, trivial, ?_, Or.inr ⟨by omega, hs, by simp, trivial, trivial⟩⟩
      intro n hn
      simp [hn]

/-- The method `fetchCertificate` expresses no interest and leaves the helper as it is
when the chain has reached the cap or the name has been seen. -/
theorem BundleHelper.fetchCertificate_stop (h : BundleHelper) (certToFetch : Name)
    (s : BundleState)
    (hstop : s.getDepth ≥ h.m_maxBundleSize ∨ certToFetch ∈ s.m_seenCertificateNames) :
    (h.fetchCertificate certToFetch s).1 = h ∧
      (h.fetchCertificate certToFetch s).2.m_certificateChain = s.m_certificateChain := by
  refine ⟨?_, (BundleHelper.fetchCertificate_effect h certToFetch s).2.1⟩
  rcases (BundleHelper.fetchCertificate_effect h certToFetch s).2.2.2.2 with e | ⟨hd, hs, _⟩
  · exact e
  · rcases hstop with hstop | hstop
    · omega
    · exact absurd hstop hs

/-- The invariant of the helper and its bundle state: at most one interest is
outstanding, the chain is within the cap, and it is below the cap while an interest is
outstanding. -/
theorem BundleHelper.fetchCertificate_inv (h : BundleHelper) (certToFetch : Name)
    (s : BundleState) (hp : h.pendingInterests = [])
    (hc : s.m_certificateChain.length ≤ h.m_maxBundleSize) :
    (h.fetchCertificate certToFetch s).1.pendingInterests.length ≤ 1 ∧
      (h.fetchCertificate certToFetch s).2.m_certificateChain.length ≤ h.m_maxBundleSize ∧
      ((h.fetchCertificate certToFetch s).1.pendingInterests ≠ [] →
        (h.fetchCertificate certToFetch s).2.m_certificateChain.length < h.m_maxBundleSize) := by
  obtain ⟨_, hchain, _, _, hcase⟩ := BundleHelper.fetchCertificate_effect h certToFetch s
  rw [hchain]
  rcases hcase with e | ⟨hd, _, _, _, hpend⟩
  · rw [e, hp]
    simp [hc]
  · rw [hpend, hp]
    simp only [BundleState.getDepth] at hd
    simp [hc, hd]

/-- The three ways `onCertData` can end: the packet is not a certificate; the
certificate is added and has no key locator name; the certificate is added and its key
locator name is fetched. -/
theorem BundleHelper.onCertData_cases (certificate : Data → Except Error Data)
    (h : BundleHelper) (d : Data) (s : BundleState) :
    BundleHelper.onCertData certificate h d s = (h, s) ∨
      ∃ cert : Data, certificate d = .ok cert ∧
        (BundleHelper.onCertData certificate h d s = (h, s.addCertificate cert) ∨
          ∃ keyLocatorName : Name,
            cert.m_signature = .withKey (some (.name keyLocatorName)) ∧
            BundleHelper.onCertData certificate h d s =
              h.fetchCertificate keyLocatorName (s.addCertificate cert)) := by
  unfold BundleHelper.onCertData
  cases hcert : certificate d with
  | error x => exact Or.inl rfl
  | ok cert =>
    refine Or.inr ⟨cert, rfl, ?_⟩
    dsimp only
    cases hsig : cert.m_signature with
    | unsigned => exact Or.inl rfl
    | digestSha256 => exact Or.inl rfl
    | withKey kl =>
      cases kl with
      | none => exact Or.inl rfl
      | some k =>
        cases k with
        | keyDigest dg => exact Or.inl rfl
        | name keyLocatorName => exact Or.inr ⟨keyLocatorName, rfl, rfl⟩

theorem BundleHelper.deliver_inv (certificate : Data → Except Error Data) (h : BundleHelper)
    (s : BundleState) (e : Event) (hp : h.pendingInterests.length ≤ 1)
    (hc : s.m_certificateChain.length ≤ h.m_maxBundleSize)
    (hlt : h.pendingInterests ≠ [] → s.m_certificateChain.length < h.m_maxBundleSize) :
    (BundleHelper.deliver certificate h s e).1.m_maxBundleSize = h.m_maxBundleSize ∧
      (BundleHelper.deliver certificate h s e).1.pendingInterests.length ≤ 1 ∧
      (BundleHelper.deliver certificate h s e).2.m_certificateChain.length ≤
        h.m_maxBundleSize ∧
      ((BundleHelper.deliver certificate h s e).1.pendingInterests ≠ [] →
        (BundleHelper.deliver certificate h s e).2.m_certificateChain.length <
          h.m_maxBundleSize) := by
  simp only [BundleHelper.deliver]
  cases hget : h.pendingInterests[e.idx]? with
  | none => exact ⟨rfl, hp, hc, hlt⟩
  | some p =>
    have hne : h.pendingInterests ≠ [] := by
      intro h0
      rw [h0] at hget
      simp at hget
    have herase : h.pendingInterests.eraseIdx e.idx = [] := by
      have hl := List.length_eraseIdx (l := h.pendingInterests) (i := e.idx)
      have hi : e.idx < h.pendingInterests.length := by
        rcases List.getElem?_eq_some_iff.mp hget with ⟨hi, _⟩
        exact hi
      rw [if_pos hi] at hl
      exact List.length_eq_zero.mp (by omega)
    have hlt2 := hlt hne
    simp only [herase]
    cases e with
    | nack idx => simp [BundleHelper.onCertNack, hc]
    | timeout idx => simp [BundleHelper.onCertTimeout, hc]
    | data idx d =>
      dsimp only
      rcases BundleHelper.onCertData_cases certificate
        ({ h with pendingInterests := [] } : BundleHelper) d s with e0 | ⟨cert, _, e1 | ⟨n, _, e2⟩⟩
      · rw [e0]
        exact ⟨rfl, by simp, hc, fun h0 => absurd rfl h0⟩
      · have hadd : (s.addCertificate cert).m_certificateChain.length ≤ h.m_maxBundleSize := by
          simp only [BundleState.addCertificate, List.length_append, List.length_singleton]
          omega
        rw [e1]
        exact ⟨rfl, by simp, hadd, fun h0 => absurd rfl h0⟩
      · have hadd : (s.addCertificate cert).m_certificateChain.length ≤ h.m_maxBundleSize := by
          simp only [BundleState.addCertificate, List.length_append, List.length_singleton]
          omega
        rw [e2]
        exact ⟨(BundleHelper.fetchCertificate_effect
            ({ h with pendingInterests := [] } : BundleHelper) n (s.addCertificate cert)).1,
          BundleHelper.fetchCertificate_inv
            ({ h with pendingInterests := [] } : BundleHelper) n (s.addCertificate cert)
            rfl hadd⟩

theorem BundleHelper.run_inv (certificate : Data → Except Error Data) :
    ∀ (events : List Event) (h : BundleHelper) (s : BundleState),
      h.pendingInterests.length ≤ 1 →
      s.m_certificateChain.length ≤ h.m_maxBundleSize →
      (h.pendingInterests ≠ [] → s.m_certificateChain.length < h.m_maxBundleSize) →
      (BundleHelper.run certificate (h, s) events).2.m_certificateChain.length ≤
        h.m_maxBundleSize := by
  intro events
  induction events with
  | nil =>
    intro h s _ hc _
    exact hc
  | cons e rest ih =>
    intro h s hp hc hlt
    obtain ⟨hmax, h1, h2, h3⟩ := BundleHelper.deliver_inv certificate h s e hp hc hlt
    simp only [BundleHelper.run]
    have := ih (BundleHelper.deliver certificate h s e).1 (BundleHelper.deliver certificate h s e).2
      h1 (by rw [hmax]; exact h2) (by rw [hmax]; exact h3)
    rw [hmax] at this
    exact this

/-- C24: `fetchCertificate` expresses no interest (it leaves the helper and the chain
as they are) when the chain already holds `maxBundleSize` certificates or the name was
already seen; and for every `maxBundleSize`, signing key name and sequence of responses
(data, nack, timeout) that follows `beginBundleCreation`, the certificate chain holds at
most `maxBundleSize` certificates, at most 25 with the default. -/
theorem C24_depth_cap (certificate : Data → Except Error Data) (sent : List Interest) :
    (∀ (h : BundleHelper) (certToFetch : Name) (s : BundleState),
        s.getDepth ≥ h.m_maxBundleSize ∨ certToFetch ∈ s.m_seenCertificateNames →
        (h.fetchCertificate certToFetch s).1 = h ∧
          (h.fetchCertificate certToFetch s).2.m_certificateChain = s.m_certificateChain) ∧
      (∀ (maxBundleSize : Nat) (signingKeyName : Name) (events : List Event),
        (BundleHelper.run certificate
          (((BundleHelper.mk1 sent).setMaxBundleSize maxBundleSize).beginBundleCreation
            signingKeyName) events).2.m_certificateChain.length ≤ maxBundleSize) ∧
      (∀ (signingKeyName : Name) (events : List Event),
        (BundleHelper.run certificate
          ((BundleHelper.mk1 sent).beginBundleCreation signingKeyName)
          events).2.m_certificateChain.length ≤ 25) := by
  have main : ∀ (h : BundleHelper) (signingKeyName : Name) (events : List Event),
      h.pendingInterests = [] →
      (BundleHelper.run certificate (h.beginBundleCreation signingKeyName)
        events).2.m_certificateChain.length ≤ h.m_maxBundleSize := by
    intro h key events hp
    have hinv := BundleHelper.fetchCertificate_inv h key (BundleState.mk1 key) hp
      (by simp [BundleState.mk1])
    have hmax := (BundleHelper.fetchCertificate_effect h key (BundleState.mk1 key)).1
    have := BundleHelper.run_inv certificate events
      (h.fetchCertificate key (BundleState.mk1 key)).1
      (h.fetchCertificate key (BundleState.mk1 key)).2 hinv.1
      (by rw [hmax]; exact hinv.2.1) (by rw [hmax]; exact hinv.2.2)
    rw [hmax] at this
    exact this
  refine ⟨fun h n s hstop => BundleHelper.fetchCertificate_stop h n s hstop, ?_, ?_⟩
  · intro maxBundleSize key events
    exact main ((BundleHelper.mk1 sent).setMaxBundleSize maxBundleSize) key events rfl
  · intro key events
    exact main (BundleHelper.mk1 sent) key events rfl

/-- C24 with the cap 1: the self-signed certificate is fetched under the name `/s`; the
chain is at the cap, and the interest for its key locator `/s/KEY/1` is not
expressed. -/
theorem C24_depth_cap_witness :
    (Examples.certSelfSigned.m_signature = .withKey (some (.name Examples.nameSKey1))) ∧
      (((BundleState.mk1 Examples.nameS).addCertificate Examples.certSelfSigned).getDepth ≥
          ((BundleHelper.mk1 []).setMaxBundleSize 1).m_maxBundleSize ∨
        Examples.nameSKey1 ∈ ((BundleState.mk1 Examples.nameS).addCertificate
          Examples.certSelfSigned).m_seenCertificateNames) ∧
      (((BundleHelper.mk1 []).setMaxBundleSize 1).fetchCertificate Examples.nameSKey1
        ((BundleState.mk1 Examples.nameS).addCertificate Examples.certSelfSigned)).1 =
        (BundleHelper.mk1 []).setMaxBundleSize 1 ∧
      (BundleHelper.run Examples.certificate
        (((BundleHelper.mk1 []).setMaxBundleSize 1).beginBundleCreation Examples.nameS)
        [.data 0 Examples.certSelfSigned]).2.m_certificateChain.length ≤ 1 :=
  ⟨rfl, by decide,
    ((C24_depth_cap Examples.certificate []).1 ((BundleHelper.mk1 []).setMaxBundleSize 1)
      Examples.nameSKey1
      ((BundleState.mk1 Examples.nameS).addCertificate Examples.certSelfSigned)
      (by decide)).1,
    (C24_depth_cap Examples.certificate []).2.1 1 Examples.nameS
      [.data 0 Examples.certSelfSigned]⟩

/-! ## The size of a segment, repeated calls and refreshing -/

/-- C22 on the code, with the limit 8800 of the library: thirteen certificates of 705
bytes each (content 298 bytes) are packed into one segment, whose content block has
9169 bytes; the test before the thirteenth certificate adds the size of its content,
298, to the 8464 bytes collected so far and stays below the limit. -/
theorem C22_segment_exceeds_limit :
    Examples.stateLongChain.m_certificateChain.map
        (fun c => ((Examples.env.dataWireEncode c).size, c.m_content.size)) =
      List.replicate 13 (705, 298) ∧
    (Examples.stateLongChain.createCertBundle Examples.env 8800 1
        Examples.nameDataBundle).m_bundleSegments.map (fun d => d.m_content.size) = [9169] ∧
    ¬ (9169 < 8800) := by
  decide!

/-- C25 on the code: the traversal starts from the identity name `/s`, the answer is the
self-signed certificate, whose key locator `/s/KEY/1` has not been asked for yet, so
that a second interest is expressed; its answer is the same certificate, which is added
to the chain a second time. -/
theorem C25_self_signed_added_twice :
    (BundleHelper.run Examples.certificate
        ((BundleHelper.mk1 []).beginBundleCreation Examples.nameS)
        [.data 0 Examples.certSelfSigned, .data 0 Examples.certSelfSigned]).2.m_certificateChain =
      [Examples.certSelfSigned, Examples.certSelfSigned] ∧
    (BundleHelper.run Examples.certificate
        ((BundleHelper.mk1 []).beginBundleCreation Examples.nameS)
        [.data 0 Examples.certSelfSigned, .data 0 Examples.certSelfSigned]).1.sentInterests.map
        (fun i => i.m_name) = [Examples.nameS, Examples.nameSKey1] ∧
    Examples.nameS.isPrefixOf Examples.certSelfSigned.m_name = true ∧
    Examples.nameSKey1.isPrefixOf Examples.certSelfSigned.m_name = true := by
  decide

/-- When the chain has reached the cap or the name has been seen, `fetchCertificate`
changes nothing at all. -/
theorem BundleHelper.fetchCertificate_noop (h : BundleHelper) (certToFetch : Name)
    (s : BundleState)
    (hstop : s.getDepth ≥ h.m_maxBundleSize ∨ certToFetch ∈ s.m_seenCertificateNames) :
    h.fetchCertificate certToFetch s = (h, s) := by
  simp only [BundleHelper.fetchCertificate]
  by_cases hd : s.getDepth ≥ h.m_maxBundleSize
  · rw [if_pos hd]
  · have hs : certToFetch ∈ s.m_seenCertificateNames := hstop.resolve_left hd
    rw [if_neg hd]
    simp [BundleState.hasSeenCertificateName, hs]

theorem BundleHelper.deliver_seen (certificate : Data → Except Error Data) (h : BundleHelper)
    (s : BundleState) (e : Event) :
    (BundleHelper.deliver certificate h s e).1.m_maxBundleSize = h.m_maxBundleSize ∧
      (BundleHelper.deliver certificate h s e).2.m_signingKeyName = s.m_signingKeyName ∧
      ∀ n ∈ s.m_seenCertificateNames,
        n ∈ (BundleHelper.deliver certificate h s e).2.m_seenCertificateNames := by
  simp only [BundleHelper.deliver]
  cases hget : h.pendingInterests[e.idx]? with
  | none => exact ⟨rfl, rfl, fun n hn => hn⟩
  | some p =>
    cases e with
    | nack idx => exact ⟨rfl, rfl, fun n hn => hn⟩
    | timeout idx => exact ⟨rfl, rfl, fun n hn => hn⟩
    | data idx d =>
      dsimp only
      rcases BundleHelper.onCertData_cases certificate
        ({ h with pendingInterests := h.pendingInterests.eraseIdx (Event.data idx d).idx } :
          BundleHelper) d s with e0 | ⟨cert, _, e1 | ⟨n, _, e2⟩⟩
      · rw [e0]
        exact ⟨rfl, rfl, fun n hn => hn⟩
      · rw [e1]
        exact ⟨rfl, rfl, fun n hn => hn⟩
      · rw [e2]
        have eff := BundleHelper.fetchCertificate_effect
          ({ h with pendingInterests := h.pendingInterests.eraseIdx (Event.data idx d).idx } :
            BundleHelper) n (s.addCertificate cert)
        exact ⟨eff.1, eff.2.2.1, fun m hm => eff.2.2.2.1 m hm⟩

theorem BundleHelper.run_seen (certificate : Data → Except Error Data) :
    ∀ (events : List Event) (h : BundleHelper) (s : BundleState),
      (BundleHelper.run certificate (h, s) events).1.m_maxBundleSize = h.m_maxBundleSize ∧
        (BundleHelper.run certificate (h, s) events).2.m_signingKeyName = s.m_signingKeyName ∧
        ∀ n ∈ s.m_seenCertificateNames,
          n ∈ (BundleHelper.run certificate (h, s) events).2.m_seenCertificateNames := by
  intro events
  induction events with
  | nil =>
    intro h s
    exact ⟨rfl, rfl, fun n hn => hn⟩
  | cons e rest ih =>
    intro h s
    have h1 := BundleHelper.deliver_seen certificate h s e
    have h2 := ih (BundleHelper.deliver certificate h s e).1
      (BundleHelper.deliver certificate h s e).2
    simp only [BundleHelper.run]
    exact ⟨h2.1.trans h1.1, h2.2.1.trans h1.2.1, fun n hn => h2.2.2 n (h1.2.2 n hn)⟩

/-- After `beginBundleCreation` and any responses, `refreshBundle` changes nothing: no
interest is expressed and the state is as before. -/
theorem BundleHelper.refreshBundle_after_begin (certificate : Data → Except Error Data)
    (h : BundleHelper) (signingKeyName : Name) (events : List Event) :
    (BundleHelper.run certificate (h.beginBundleCreation signingKeyName)
        events).1.refreshBundle
        (some (BundleHelper.run certificate (h.beginBundleCreation signingKeyName) events).2) =
      ((BundleHelper.run certificate (h.beginBundleCreation signingKeyName) events).1,
        some (BundleHelper.run certificate (h.beginBundleCreation signingKeyName) events).2) := by
  have hbegin : (h.beginBundleCreation signingKeyName).1.m_maxBundleSize = h.m_maxBundleSize ∧
      (h.beginBundleCreation signingKeyName).2.m_signingKeyName = signingKeyName ∧
      (h.m_maxBundleSize = 0 ∨
        signingKeyName ∈ (h.beginBundleCreation signingKeyName).2.m_seenCertificateNames) := by
    have eff := BundleHelper.fetchCertificate_effect h signingKeyName
      (BundleState.mk1 signingKeyName)
    refine ⟨eff.1, eff.2.2.1, ?_⟩
    by_cases hM : h.m_maxBundleSize = 0
    · exact Or.inl hM
    · right
      simp only [BundleHelper.beginBundleCreation, BundleHelper.fetchCertificate,
        BundleState.getDepth, BundleState.mk1, List.length_nil, ge_iff_le, Nat.le_zero,
        if_neg hM, BundleState.hasSeenCertificateName]
      simp
  have hrun := BundleHelper.run_seen certificate events (h.beginBundleCreation signingKeyName).1
    (h.beginBundleCreation signingKeyName).2
  simp only [Prod.mk.eta] at hrun
  simp only [BundleHelper.refreshBundle]
  rw [BundleHelper.fetchCertificate_noop]
  rcases hbegin.2.2 with hM | hseen
  · left
    rw [hrun.1, hbegin.1, hM]
    exact Nat.zero_le _
  · right
    rw [hrun.2.1, hbegin.2.1]
    exact hrun.2.2 _ hseen

/-- C27 on the code: after `beginBundleCreation` for the key `/s/KEY/1` (default cap 25)
the helper has expressed one interest; `refreshBundle` on the returned state, before
any answer as well as after the certificate has arrived (depth 1, below the cap),
expresses no interest and leaves the helper and the state as they are: the signing key
name is already in the set of seen names. -/
theorem C27_refreshBundle_expresses_nothing :
    ((BundleHelper.mk1 []).beginBundleCreation Examples.nameSKey1).1.sentInterests.map
        (fun i => i.m_name) = [Examples.nameSKey1] ∧
      ((BundleHelper.mk1 []).beginBundleCreation Examples.nameSKey1).2.getDepth < 25 ∧
      ((BundleHelper.mk1 []).beginBundleCreation Examples.nameSKey1).1.refreshBundle
          (some ((BundleHelper.mk1 []).beginBundleCreation Examples.nameSKey1).2) =
        (((BundleHelper.mk1 []).beginBundleCreation Examples.nameSKey1).1,
          some ((BundleHelper.mk1 []).beginBundleCreation Examples.nameSKey1).2) ∧
      (BundleHelper.run Examples.certificate
          ((BundleHelper.mk1 []).beginBundleCreation Examples.nameSKey1)
          [.data 0 Examples.certSelfSigned]).2.getDepth = 1 ∧
      (BundleHelper.run Examples.certificate
          ((BundleHelper.mk1 []).beginBundleCreation Examples.nameSKey1)
          [.data 0 Examples.certSelfSigned]).1.refreshBundle
          (some (BundleHelper.run Examples.certificate
            ((BundleHelper.mk1 []).beginBundleCreation Examples.nameSKey1)
            [.data 0 Examples.certSelfSigned]).2) =
        ((BundleHelper.run Examples.certificate
            ((BundleHelper.mk1 []).beginBundleCreation Examples.nameSKey1)
            [.data 0 Examples.certSelfSigned]).1,
          some (BundleHelper.run Examples.certificate
            ((BundleHelper.mk1 []).beginBundleCreation Examples.nameSKey1)
            [.data 0 Examples.certSelfSigned]).2) ∧
      (BundleHelper.mk1 []).refreshBundle none = (BundleHelper.mk1 [], none) := by
  decide

/-! ## The send queue of the transport -/

theorem UnixTransport.foldl_socketSent (q : List Block) :
    ∀ t : UnixTransport,
      q.foldl (fun (s : UnixTransport) i => { s with socketSent := s.socketSent ++ [i] }) t =
        { t with socketSent := t.socketSent ++ q } := by
  induction q with
  | nil =>
    intro t
    simp
  | cons b rest ih =>
    intro t
    simp only [List.foldl_cons]
    rw [ih]
    simp

/-- Blocks sent while the transport is not connected are queued in order; nothing goes
to the socket and the transport stays unconnected. -/
theorem UnixTransport.send_unconnected (ws : List Block) :
    ∀ t : UnixTransport, t.isConnected_ = false →
      ws.foldl UnixTransport.send t = { t with sendQueue_ := t.sendQueue_ ++ ws } := by
  induction ws with
  | nil =>
    intro t _
    simp
  | cons w rest ih =>
    intro t ht
    simp only [List.foldl_cons]
    have h1 : t.send w = { t with sendQueue_ := t.sendQueue_ ++ [w] } := by
      simp [UnixTransport.send, ht]
    rw [h1, ih { t with sendQueue_ := t.sendQueue_ ++ [w] } ht]
    simp

/-- Blocks sent while the transport is connected go to the socket in order; the queue
is not touched. -/
theorem UnixTransport.send_connected (vs : List Block) :
    ∀ t : UnixTransport, t.isConnected_ = true →
      vs.foldl UnixTransport.send t = { t with socketSent := t.socketSent ++ vs } := by
  induction vs with
  | nil =>
    intro t _
    simp
  | cons v rest ih =>
    intro t ht
    simp only [List.foldl_cons]
    have h1 : t.send v = { t with socketSent := t.socketSent ++ [v] } := by
      simp [UnixTransport.send, ht]
    rw [h1, ih { t with socketSent := t.socketSent ++ [v] } ht]
    simp

/-- C28: for every transport that is not connected and every sequence of blocks
`w1..wn` passed to `send`, nothing goes to the socket and the blocks are queued in
order; a successful `connectHandler` then returns, hands the queue (what it held
before, then `w1..wn`) to the socket in that order and leaves it empty; every block
sent afterwards, while connected, goes to the socket directly, after those, and the
queue stays empty: the socket gets every block once, in the order of the calls. -/
theorem C28_send_queue_discipline (t : UnixTransport) (ws vs : List Block)
    (ht : t.isConnected_ = false) :
    (ws.foldl UnixTransport.send t).socketSent = t.socketSent ∧
      (ws.foldl UnixTransport.send t).sendQueue_ = t.sendQueue_ ++ ws ∧
      ((ws.foldl UnixTransport.send t).connectHandler 0).1 = .ok () ∧
      ((ws.foldl UnixTransport.send t).connectHandler 0).2.socketSent =
        t.socketSent ++ (t.sendQueue_ ++ ws) ∧
      ((ws.foldl UnixTransport.send t).connectHandler 0).2.sendQueue_ = [] ∧
      ((ws.foldl UnixTransport.send t).connectHandler 0).2.isConnected_ = true ∧
      (vs.foldl UnixTransport.send
          ((ws.foldl UnixTransport.send t).connectHandler 0).2).socketSent =
        t.socketSent ++ (t.sendQueue_ ++ ws) ++ vs ∧
      (vs.foldl UnixTransport.send
          ((ws.foldl UnixTransport.send t).connectHandler 0).2).sendQueue_ = [] := by
  have hq := UnixTransport.send_unconnected ws t ht
  have hc : ((ws.foldl UnixTransport.send t).connectHandler 0) =
      (.ok (), { t with
        connectionInProgress_ := false, partialData_ := [],
        socketReceives := t.socketReceives + 1, isConnected_ := true,
        socketSent := t.socketSent ++ (t.sendQueue_ ++ ws), sendQueue_ := [] }) := by
    rw [hq]
    simp only [UnixTransport.connectHandler, if_true, UnixTransport.foldl_socketSent]
  rw [hc, UnixTransport.send_connected vs _ rfl, hq]
  simp

/-- C28 on a new transport: two blocks are sent before the connection is made and one
after it. -/
theorem C28_send_queue_discipline_witness :
    UnixTransport.mk1.connect.isConnected_ = false ∧
      ([⟨5, [1]⟩].foldl UnixTransport.send
          (([⟨5, []⟩, ⟨6, [7]⟩].foldl UnixTransport.send
            UnixTransport.mk1.connect).connectHandler 0).2).socketSent =
        [⟨5, []⟩, ⟨6, [7]⟩, ⟨5, [1]⟩] :=
  ⟨rfl, by
    rw [(C28_send_queue_discipline UnixTransport.mk1.connect [⟨5, []⟩, ⟨6, [7]⟩] [⟨5, [1]⟩]
      rfl).2.2.2.2.2.2.1]
    decide⟩

/-! ## Receiving partial frames -/

/-- C29 on the code: a connected transport with no partial data receives the chunk
`5 3 1`, the start of the element `5 3 1 2 3`, and then the chunk `2 3`. Both calls
return normally; nothing is dispatched and nothing is retained, so the five bytes are
lost. When the same incomplete start follows a complete element in its chunk
(`7 0 5 3 1`) it is retained and the element is dispatched once the rest has come. -/
theorem C29_incomplete_first_element_dropped :
    UnixTransport.connected.partialData_ = [] ∧
      (UnixTransport.connected.handle_async_receive 0 [5, 3, 1]).1 = .ok () ∧
      (UnixTransport.connected.handle_async_receive 0 [5, 3, 1]).2.partialData_ = [] ∧
      (UnixTransport.connected.handle_async_receive 0 [5, 3, 1]).2.received = [] ∧
      (UnixTransport.connected.receiveAll [[5, 3, 1], [2, 3]]).1 = .ok () ∧
      (UnixTransport.connected.receiveAll [[5, 3, 1], [2, 3]]).2.received = [] ∧
      (UnixTransport.connected.receiveAll [[5, 3, 1], [2, 3]]).2.partialData_ = [] ∧
      ((UnixTransport.connected.receiveAll [[5, 3, 1], [2, 3]]).2.received.flatten ++
          (UnixTransport.connected.receiveAll [[5, 3, 1], [2, 3]]).2.partialData_ ≠
        [[5, 3, 1], [2, 3]].flatten) ∧
      (UnixTransport.connected.handle_async_receive 0 [7, 0, 5, 3, 1]).2.partialData_ =
        [5, 3, 1] ∧
      (UnixTransport.connected.receiveAll [[7, 0, 5, 3, 1], [2, 3]]).2.received =
        [[7, 0], [5, 3, 1, 2, 3]] := by
  decide

/-- C30 on the code: a connected transport with no partial data receives a chunk of
9000 bytes from whose start no element can be decoded. The call returns normally: the
socket stays open, the next `async_receive` is posted and the bytes are dropped. When
the 9000 bytes build up in the partial data instead (an element, then 8998 bytes of
the oversized one, then two more bytes), the socket is closed and the error is
raised. -/
theorem C30_full_chunk_without_element_not_rejected :
    Examples.chunkOversized.length = 9000 ∧
      Block.fromBuffer Examples.chunkOversized = .error .codecError ∧
      (UnixTransport.connected.handle_async_receive 0 Examples.chunkOversized).1 = .ok () ∧
      (UnixTransport.connected.handle_async_receive 0 Examples.chunkOversized).2.socketOpen =
        true ∧
      (UnixTransport.connected.handle_async_receive 0 Examples.chunkOversized).2.socketReceives =
        UnixTransport.connected.socketReceives + 1 ∧
      (UnixTransport.connected.handle_async_receive 0 Examples.chunkOversized).2.partialData_ =
        [] ∧
      (UnixTransport.connected.receiveAll [Examples.chunkThenOversized, [1, 2]]).1 =
        .error "input buffer full, but a valid TLV cannot be decoded" ∧
      (UnixTransport.connected.receiveAll [Examples.chunkThenOversized, [1, 2]]).2.socketOpen =
        false := by
  decide!

/-- An element read from a buffer has at least two bytes and lies within the buffer. -/
theorem Block.fromBuffer_length {buffer element : List Nat}
    (h : Block.fromBuffer buffer = .ok element) :
    2 ≤ element.length ∧ element.length ≤ buffer.length := by
  simp only [Block.fromBuffer] at h
  cases h1 : readVarNumber buffer with
  | error e => simp [h1] at h
  | ok p1 =>
    obtain ⟨t, r1⟩ := p1
    simp only [h1] at h
    cases h2 : readVarNumber r1 with
    | error e => simp [h2] at h
    | ok p2 =>
      obtain ⟨len, r2⟩ := p2
      simp only [h2] at h
      have l1 := readVarNumber_length h1
      have l2 := readVarNumber_length h2
      split_ifs at h with hlen
      simp only [Except.ok.injEq] at h
      rw [← h, List.length_take]
      omega

/-- Enough rounds: with as many rounds as there are bytes after the offset, or more,
`processAll` gives the same result. -/
theorem UnixTransport.processAll_fuel (buffer : List Nat) :
    ∀ (f1 f2 offset : Nat) (received : List (List Nat)),
      buffer.length - offset ≤ f1 → buffer.length - offset ≤ f2 →
      UnixTransport.processAll f1 buffer offset received =
        UnixTransport.processAll f2 buffer offset received := by
  intro f1
  induction f1 with
  | zero =>
    intro f2 offset received h1 _
    have hno : ¬ offset < buffer.length := by omega
    cases f2 <;> simp [UnixTransport.processAll, hno]
  | succ f1 ih =>
    intro f2 offset received h1 h2
    by_cases ho : offset < buffer.length
    · cases f2 with
      | zero => omega
      | succ f2 =>
        simp only [UnixTransport.processAll, if_pos ho]
        cases hel : Block.fromBuffer (buffer.drop offset) with
        | error e => rfl
        | ok element =>
          have hl := (Block.fromBuffer_length hel).1
          exact ih f2 (offset + element.length) (received ++ [element]) (by omega) (by omega)
    · cases f2 <;> simp [UnixTransport.processAll, ho]

/-- When no element can be read from the start of a buffer, `processAll` ends with the
error at offset 0 and has dispatched nothing. -/
theorem UnixTransport.processAll_error_at_start (fuel : Nat) (buffer : List Nat)
    (received : List (List Nat)) (e : Error) (hfuel : 0 < fuel) (hlen : 0 < buffer.length)
    (hbad : Block.fromBuffer buffer = .error e) :
    UnixTransport.processAll fuel buffer 0 received = (.error e, 0, received) := by
  cases fuel with
  | zero => omega
  | succ fuel => simp [UnixTransport.processAll, hlen, hbad]

/-- The overflow that the code detects: partial data is held, the new bytes fill it up
to `MAX_LENGTH`, and no element can be read from its start; then the socket is closed
and the error is raised. -/
theorem UnixTransport.handle_async_receive_overflow (t : UnixTransport) (input : List Nat)
    (e : Error) (hp : 0 < t.partialData_.length) (hin : 0 < input.length)
    (hfull : (t.partialData_ ++
      input.take (min input.length (MAX_LENGTH - t.partialData_.length))).length = MAX_LENGTH)
    (hbad : Block.fromBuffer (t.partialData_ ++
      input.take (min input.length (MAX_LENGTH - t.partialData_.length))) = .error e) :
    (t.handle_async_receive 0 input).1 =
        .error "input buffer full, but a valid TLV cannot be decoded" ∧
      (t.handle_async_receive 0 input).2.socketOpen = false := by
  have hpos : 0 < (t.partialData_ ++
      input.take (min input.length (MAX_LENGTH - t.partialData_.length))).length := by
    rw [List.length_append]
    omega
  have hproc := UnixTransport.processAll_error_at_start _ _ t.received e hpos hpos hbad
  simp only [UnixTransport.handle_async_receive, UnixTransport.partialDataSize_, ne_eq,
    not_true_eq_false, if_false, gt_iff_lt, hin, hp, if_true, hproc]
  simp only [lt_irrefl, if_false, hfull, and_self, if_true]

/-! ## The branches of `onBundleData` -/

/-- C32: when `onBundleData` expects segment 0 and the last component of the received
bundle data is segment `k` with `k ≠ 0`, the call returns and all it does is express one
interest, a copy of the original one named by the received data name with its last
component replaced by segment 0: the certificate store, the calls of `onData` and the
failure reports are as before, and nothing else is requested. -/
theorem C32_wrong_first_segment (env : Env) (rnd : Nat) (v : Validator) (f : Face)
    (origInterest : Interest) (bundleData : Data) (currentSegment : Component) (k : Nat)
    (nextStep : ValidationRequest) (nextSteps : List ValidationRequest)
    (hf : v.m_face = some f)
    (hlast : Name.get bundleData.m_name (-1) = some currentSegment)
    (hseg : currentSegment.toSegment = .ok k) (hk : k ≠ 0) :
    v.onBundleData env rnd origInterest bundleData true nextStep nextSteps =
        (.ok (), { v with m_face := some (f.expressInterest
          (Validator.nextBundleInterest rnd origInterest bundleData.m_name 0)
          (.onBundle true nextStep nextSteps)) }) ∧
      (Validator.nextBundleInterest rnd origInterest bundleData.m_name 0).m_name =
        Name.appendSegment (Name.getPrefix bundleData.m_name (-1)) 0 := by
  refine ⟨?_, rfl⟩
  unfold Validator.onBundleData
  simp only [hlast, hseg, if_true, Except.map, hk, ne_eq, not_false_eq_true, decide_True,
    Validator.fetchNextBundleSegment]
  rw [Validator.expressInterest_some v f hf]

/-- C32 on the validator of the examples: the first bundle interest is answered with
segment 1; one interest, for `.../v=1/seg=0`, is expressed and nothing is stored. -/
theorem C32_wrong_first_segment_witness :
    Name.get Examples.bundleSeg1.m_name (-1) = some Examples.seg1 ∧
      Examples.seg1.toSegment = .ok 1 ∧
      ((Examples.afterCheckKeyBundle.onBundleData Examples.env 7 Examples.bundleInterest
          Examples.bundleSeg1 true Examples.stepKey [Examples.stepKey]).2.sentInterests.map
          (fun i => i.m_name) =
        [Examples.nameDataBundle,
          Examples.nameDataBundle ++ [Examples.v1, Examples.seg0]]) ∧
      (Examples.afterCheckKeyBundle.onBundleData Examples.env 7 Examples.bundleInterest
          Examples.bundleSeg1 true Examples.stepKey [Examples.stepKey]).2.m_certificates = [] :=
  ⟨by decide, by decide, by
    rw [(C32_wrong_first_segment Examples.env 7 Examples.afterCheckKeyBundle
      ⟨[Examples.bundleInterest],
        [⟨Examples.bundleInterest, .onBundle true Examples.stepKey [Examples.stepKey]⟩]⟩
      Examples.bundleInterest Examples.bundleSeg1 Examples.seg1 1 Examples.stepKey
      [Examples.stepKey] (by decide) (by decide) (by decide) (by decide)).1]
    decide, by decide⟩

/-- C31: `onBundleData` ingests a segment whose last name component is segment `s`
(segment 0 when that is expected): the content parses and its certificates are stored.
If `finalBlockId` is present and not greater than that component, no interest is
expressed and `onData` is invoked with the first certificate of the store (which has to
hold one). Otherwise, `finalBlockId` being absent or greater, exactly one interest, for
segment `s + 1`, is expressed and `onData` is not invoked. -/
theorem C31_completion_test (env : Env) (rnd : Nat) (v : Validator) (f : Face)
    (origInterest : Interest) (bundleData : Data) (z : Bool) (currentSegment : Component)
    (s : Nat) (elements : List Block) (certificates : List Data)
    (nextStep : ValidationRequest) (nextSteps : List ValidationRequest)
    (hf : v.m_face = some f)
    (hlast : Name.get bundleData.m_name (-1) = some currentSegment)
    (hseg : currentSegment.toSegment = .ok s) (hz : z = false ∨ s = 0)
    (hparse : bundleData.m_content.parse = .ok elements)
    (hstore : Validator.storeCertificates env v.m_certificates elements =
      (.ok (), certificates)) :
    (∀ finalBlockId, bundleData.m_finalBlockId = some finalBlockId →
        env.componentGt finalBlockId currentSegment = false →
        (v.onBundleData env rnd origInterest bundleData z nextStep nextSteps).2.m_face =
            some f ∧
          ∀ firstCert, certificates.head? = some firstCert →
            v.onBundleData env rnd origInterest bundleData z nextStep nextSteps =
              (.ok (), { v with
                m_certificates := certificates,
                onDataCalls := v.onDataCalls ++ [(nextStep.m_interest, firstCert, nextStep)] })) ∧
      ((bundleData.m_finalBlockId = none ∨
          ∃ finalBlockId, bundleData.m_finalBlockId = some finalBlockId ∧
            env.componentGt finalBlockId currentSegment = true) →
        s + 1 < 2 ^ 64 →
        v.onBundleData env rnd origInterest bundleData z nextStep nextSteps =
            (.ok (), { v with
              m_certificates := certificates,
              m_face := some (f.expressInterest
                (Validator.nextBundleInterest rnd origInterest bundleData.m_name (s + 1))
                (.onBundle true nextStep nextSteps)) }) ∧
          (Validator.nextBundleInterest rnd origInterest bundleData.m_name (s + 1)).m_name =
            Name.appendSegment (Name.getPrefix bundleData.m_name (-1)) (s + 1)) := by
  have hzero : (if z = true then
      (Except.ok s : Except Error Nat).map (fun n => decide (n ≠ 0)) else .ok false) =
      .ok false := by
    rcases hz with hz | hz
    · simp [hz]
    · subst hz
      cases z <;> simp [Except.map]
  constructor
  · intro finalBlockId hfinal hle
    unfold Validator.onBundleData
    simp only [hlast, hseg, hzero, hparse, hstore, hfinal, hle, Bool.false_eq_true, if_false]
    cases hhead : certificates.head? with
    | none => exact ⟨hf, fun _ h => by simp at h⟩
    | some c =>
      refine ⟨hf, fun firstCert h => ?_⟩
      simp only [Option.some.injEq] at h
      subst h
      rfl
  · intro hmore hs
    have hmod : (s + 1) % 2 ^ 64 = s + 1 := Nat.mod_eq_of_lt hs
    have hcond : (match bundleData.m_finalBlockId with
        | none => true
        | some finalBlockId => env.componentGt finalBlockId currentSegment) = true := by
      rcases hmore with h | ⟨fb, h, hgt⟩
      · rw [h]
      · rw [h]
        exact hgt
    refine ⟨?_, rfl⟩
    unfold Validator.onBundleData
    simp only [hlast, hseg, hzero, hparse, hstore, hcond, if_true, hmod,
      Validator.fetchNextBundleSegment]
    rw [Validator.expressInterest_some { v with m_certificates := certificates } f hf]

/-- C31 on the validator of the examples: segment 0 without a final block id is
ingested (one certificate stored) and the interest for segment 1 is expressed. -/
theorem C31_completion_test_witness :
    Name.get Examples.bundleSeg0.m_name (-1) = some Examples.seg0 ∧
      Examples.seg0.toSegment = .ok 0 ∧
      Examples.bundleSeg0.m_content.parse =
        .ok [Examples.env.dataWireEncode Examples.cert1] ∧
      Validator.storeCertificates Examples.env Examples.afterCheckKeyBundle.m_certificates
        [Examples.env.dataWireEncode Examples.cert1] = (.ok (), [Examples.cert1]) ∧
      (Examples.afterCheckKeyBundle.onBundleData Examples.env 7 Examples.bundleInterest
          Examples.bundleSeg0 true Examples.stepKey [Examples.stepKey]).2.sentInterests.map
          (fun i => i.m_name) =
        [Examples.nameDataBundle,
          Examples.nameDataBundle ++ [Examples.v1, Examples.seg1]] :=
  ⟨by decide, by decide, by decide, by decide, by
    rw [((C31_completion_test Examples.env 7 Examples.afterCheckKeyBundle
      ⟨[Examples.bundleInterest],
        [⟨Examples.bundleInterest, .onBundle true Examples.stepKey [Examples.stepKey]⟩]⟩
      Examples.bundleInterest Examples.bundleSeg0 true Examples.seg0 0
      [Examples.env.dataWireEncode Examples.cert1] [Examples.cert1] Examples.stepKey
      [Examples.stepKey] (by decide) (by decide) (by decide) (Or.inr rfl) (by decide)
      (by decide)).2 (Or.inl rfl) (by decide)).1]
    decide⟩

/-! ## The producer step -/

/-- C33: when `onCertData` receives a packet that decodes as a certificate, the
certificate is appended at the end of the chain, the earlier entries being unchanged;
if its signature has a key locator of the name type, the call is that of
`fetchCertificate` for this name on the extended state, and otherwise nothing more is
done (no interest, seen set and segments as before). When decoding fails, and on every
Nack or timeout, the helper and the state are left as they are. -/
theorem C33_producer_step (certificate : Data → Except Error Data) (h : BundleHelper)
    (certData : Data) (s : BundleState) :
    (∀ cert, certificate certData = .ok cert →
        (BundleHelper.onCertData certificate h certData s).2.m_certificateChain =
            s.m_certificateChain ++ [cert] ∧
          (∀ keyLocatorName, cert.m_signature = .withKey (some (.name keyLocatorName)) →
            BundleHelper.onCertData certificate h certData s =
              h.fetchCertificate keyLocatorName (s.addCertificate cert)) ∧
          ((∀ keyLocatorName, cert.m_signature ≠ .withKey (some (.name keyLocatorName))) →
            BundleHelper.onCertData certificate h certData s =
              (h, { s with m_certificateChain := s.m_certificateChain ++ [cert] }))) ∧
      (∀ e, certificate certData = .error e →
        BundleHelper.onCertData certificate h certData s = (h, s)) ∧
      BundleHelper.onCertNack h s = (h, s) ∧
      BundleHelper.onCertTimeout h s = (h, s) := by
  refine ⟨?_, ?_, rfl, rfl⟩
  · intro cert hcert
    rcases BundleHelper.onCertData_cases certificate h certData s with
      e0 | ⟨cert2, hcert2, e1 | ⟨n, hn, e2⟩⟩
    · exfalso
      unfold BundleHelper.onCertData at e0
      simp only [hcert] at e0
      have hlen := congrArg (fun p => p.2.m_certificateChain.length) e0
      revert hlen
      cases hsig : cert.m_signature with
      | unsigned => simp [BundleState.addCertificate]
      | digestSha256 => simp [BundleState.addCertificate]
      | withKey kl =>
        cases kl with
        | none => simp [BundleState.addCertificate]
        | some k =>
          cases k with
          | keyDigest dg => simp [BundleState.addCertificate]
          | name keyLocatorName =>
            simp only
            rw [(BundleHelper.fetchCertificate_effect h keyLocatorName
              (s.addCertificate cert)).2.1]
            simp [BundleState.addCertificate]
    · have hc : cert2 = cert := by
        rw [hcert] at hcert2
        exact (Except.ok.inj hcert2).symm
      subst hc
      refine ⟨by rw [e1]; rfl, ?_, fun _ => by rw [e1]; rfl⟩
      intro n hn
      unfold BundleHelper.onCertData
      simp only [hcert, hn]
    · have hc : cert2 = cert := by
        rw [hcert] at hcert2
        exact (Except.ok.inj hcert2).symm
      subst hc
      refine ⟨?_, ?_, fun hno => absurd hn (hno n)⟩
      · rw [e2, (BundleHelper.fetchCertificate_effect h n (s.addCertificate cert2)).2.1]
        rfl
      · intro n2 hn2
        rw [hn] at hn2
        simp only [Signature.withKey.injEq, Option.some.injEq, KeyLocator.name.injEq] at hn2
        subst hn2
        exact e2
  · intro e he
    unfold BundleHelper.onCertData
    simp only [he]

/-- C33 on the self-signed certificate of the examples, received for the interest `/s`:
it is the only entry of the chain and the interest for its key locator `/s/KEY/1` is
expressed. -/
theorem C33_producer_step_witness :
    Examples.certificate Examples.certSelfSigned = .ok Examples.certSelfSigned ∧
      Examples.certSelfSigned.m_signature = .withKey (some (.name Examples.nameSKey1)) ∧
      (BundleHelper.onCertData Examples.certificate (BundleHelper.mk1 [])
          Examples.certSelfSigned (BundleState.mk1 Examples.nameS)).2.m_certificateChain =
        [Examples.certSelfSigned] ∧
      (BundleHelper.onCertData Examples.certificate (BundleHelper.mk1 [])
          Examples.certSelfSigned (BundleState.mk1 Examples.nameS)).1.sentInterests.map
          (fun i => i.m_name) = [Examples.nameSKey1] :=
  ⟨by decide, rfl,
    ((C33_producer_step Examples.certificate (BundleHelper.mk1 []) Examples.certSelfSigned
      (BundleState.mk1 Examples.nameS)).1 Examples.certSelfSigned (by decide)).1,
    by decide⟩

/-! ## Decoding by type -/

/-- Looking up the first element of a type gives the same element in two arrangements
of elements whose types are all different. -/
theorem findElement_perm {es1 es2 : List Block} (hperm : es1.Perm es2)
    (hnodup : (es1.map (fun e => e.type)).Nodup) (t : Nat) :
    findElement es1 t = findElement es2 t := by
  induction hperm with
  | nil => rfl
  | cons x _ ih =>
    simp only [List.map_cons, List.nodup_cons] at hnodup
    simp only [findElement, List.find?_cons] at ih ⊢
    split
    · rfl
    · exact ih hnodup.2
  | swap x y l =>
    simp only [List.map_cons, List.nodup_cons, List.mem_cons, not_or] at hnodup
    simp only [findElement, List.find?_cons]
    cases hx : x.type == t <;> cases hy : y.type == t
    · rfl
    · rfl
    · rfl
    · exact absurd ((beq_iff_eq.mp hy).trans (beq_iff_eq.mp hx).symm) hnodup.1.1
  | trans h1 _ ih1 ih2 =>
    rw [ih1 hnodup]
    exact ih2 (((h1.map (fun e => e.type)).nodup_iff).mp hnodup)

/-- The same for `Block::get`. -/
theorem getElement_perm {es1 es2 : List Block} (hperm : es1.Perm es2)
    (hnodup : (es1.map (fun e => e.type)).Nodup) (t : Nat) :
    getElement es1 t = getElement es2 t := by
  simp only [getElement, findElement_perm hperm hnodup t]

/-- C34: for any two Interest blocks whose values parse into the same child elements in
different orders, no child type occurring twice, `wireDecode` ends the same way on both
(on any two objects), and when it returns it has produced the same name, selectors,
nonce, scope and lifetime. -/
theorem C34_wireDecode_by_type (c : SubCodecs) (Y1 Y2 : Interest) (wire1 wire2 : Block)
    (es1 es2 : List Block) (hp1 : wire1.parse = .ok es1) (hp2 : wire2.parse = .ok es2)
    (ht1 : wire1.type = Tlv.Interest) (ht2 : wire2.type = Tlv.Interest)
    (hperm : es1.Perm es2) (hnodup : (es1.map (fun e => e.type)).Nodup) :
    (Y1.wireDecode c wire1).1 = (Y2.wireDecode c wire2).1 ∧
      ((Y1.wireDecode c wire1).1 = .ok () →
        (Y1.wireDecode c wire1).2.m_name = (Y2.wireDecode c wire2).2.m_name ∧
        (Y1.wireDecode c wire1).2.m_selectors = (Y2.wireDecode c wire2).2.m_selectors ∧
        (Y1.wireDecode c wire1).2.m_nonce = (Y2.wireDecode c wire2).2.m_nonce ∧
        (Y1.wireDecode c wire1).2.m_scope = (Y2.wireDecode c wire2).2.m_scope ∧
        (Y1.wireDecode c wire1).2.m_interestLifetime =
          (Y2.wireDecode c wire2).2.m_interestLifetime) := by
  unfold Interest.wireDecode
  simp only [hp1, hp2, ht1, ht2, ne_eq, not_true_eq_false, if_false,
    getElement_perm hperm hnodup, findElement_perm hperm hnodup]
  repeat' split
  all_goals simp_all

/-- C34 on the block with Name, Nonce, InterestLifetime and the block with
InterestLifetime, Nonce, Name: both decode, to the name `/a/b`, the nonce `0x01020304`
and the lifetime 2000. -/
theorem C34_wireDecode_by_type_witness :
    Examples.wireOrdered.parse =
        .ok [⟨Tlv.Name, Examples.nameABValue⟩, ⟨Tlv.Nonce, [1, 2, 3, 4]⟩,
          ⟨Tlv.InterestLifetime, [7, 208]⟩] ∧
      Examples.wireReordered.parse =
        .ok [⟨Tlv.InterestLifetime, [7, 208]⟩, ⟨Tlv.Nonce, [1, 2, 3, 4]⟩,
          ⟨Tlv.Name, Examples.nameABValue⟩] ∧
      ((Interest.mk0 0).wireDecode SpecCodec.codecs Examples.wireOrdered).1 = .ok () ∧
      ((Interest.mk0 0).wireDecode SpecCodec.codecs Examples.wireOrdered).2.m_name =
        Examples.nameAB ∧
      ((Interest.mk0 0).wireDecode SpecCodec.codecs Examples.wireOrdered).2.m_interestLifetime =
        2000 ∧
      ((Interest.mk0 0).wireDecode SpecCodec.codecs Examples.wireOrdered).2.m_interestLifetime =
        (Examples.interestFull.wireDecode SpecCodec.codecs
          Examples.wireReordered).2.m_interestLifetime :=
  ⟨by decide, by decide, by decide, by decide, by decide,
    ((C34_wireDecode_by_type SpecCodec.codecs (Interest.mk0 0) Examples.interestFull
      Examples.wireOrdered Examples.wireReordered
      [⟨Tlv.Name, Examples.nameABValue⟩, ⟨Tlv.Nonce, [1, 2, 3, 4]⟩,
        ⟨Tlv.InterestLifetime, [7, 208]⟩]
      [⟨Tlv.InterestLifetime, [7, 208]⟩, ⟨Tlv.Nonce, [1, 2, 3, 4]⟩,
        ⟨Tlv.Name, Examples.nameABValue⟩]
      (by decide) (by decide) rfl rfl (by decide) (by decide)).2 (by decide)).2.2.2.2⟩

/-! ## A failed decode, an empty bundle, short names -/

/-- C35, as the code has it: when `wireDecode` fails because the outer type is not
Interest or because there is no Name child, the name, selectors, nonce, scope and
lifetime of the object are as before the call, but its memo `m_wire` holds the rejected
block, so that a following `wireEncode()` returns the rejected block. -/
theorem C35_failed_decode_keeps_fields_sets_memo (c : SubCodecs) (Y : Interest)
    (wire : Block) (es : List Block) (hparse : wire.parse = .ok es)
    (hbad : wire.type ≠ Tlv.Interest ∨ getElement es Tlv.Name = .error .codecError) :
    Y.wireDecode c wire = (.error .codecError, { Y with m_wire := some wire }) ∧
      ∀ rnd1 rnd2 : Nat,
        ((Y.wireDecode c wire).2.wireEncode c rnd1 rnd2).1 = .ok wire := by
  have h : Y.wireDecode c wire = (.error .codecError, { Y with m_wire := some wire }) := by
    unfold Interest.wireDecode
    simp only [hparse]
    by_cases ht : wire.type = Tlv.Interest
    · have hg := hbad.resolve_left (fun hne => hne ht)
      simp only [ht, ne_eq, not_true_eq_false, if_false, hg]
    · simp only [ne_eq, ht, not_false_eq_true, if_true]
  refine ⟨h, fun rnd1 rnd2 => ?_⟩
  rw [h]
  rfl

/-- C35 fails as stated: the Interest `/a/b` without a memo is asked to decode a block of
type Data; the decode fails, the object is not as it was, and `wireEncode()` now
returns the rejected block, which it did not return before. -/
theorem C35_counterexample_memo_overwritten :
    Examples.interestAB.m_wire = none ∧
      (Examples.interestAB.wireDecode SpecCodec.codecs Examples.wireDataTyped).1 =
        .error .codecError ∧
      (Examples.interestAB.wireDecode SpecCodec.codecs Examples.wireDataTyped).2 ≠
        Examples.interestAB ∧
      ((Examples.interestAB.wireDecode SpecCodec.codecs
          Examples.wireDataTyped).2.wireEncode SpecCodec.codecs 1 2).1 =
        .ok Examples.wireDataTyped ∧
      (Examples.interestAB.wireEncode SpecCodec.codecs 1 2).1 ≠ .ok Examples.wireDataTyped ∧
      (Examples.interestAB.wireDecode SpecCodec.codecs Examples.wireNoName).1 =
        .error .codecError ∧
      ((Examples.interestAB.wireDecode SpecCodec.codecs
          Examples.wireNoName).2.wireEncode SpecCodec.codecs 1 2).1 =
        .ok Examples.wireNoName := by
  decide

/-- The amended C35 on the Interest `/a/b` and the block of type Data. -/
theorem C35_failed_decode_keeps_fields_sets_memo_witness :
    Examples.wireDataTyped.parse =
        .ok [⟨Tlv.Name, Examples.nameABValue⟩, ⟨Tlv.Nonce, [1, 2, 3, 4]⟩] ∧
      Examples.wireDataTyped.type ≠ Tlv.Interest ∧
      Examples.interestAB.wireDecode SpecCodec.codecs Examples.wireDataTyped =
        (.error .codecError,
          { Examples.interestAB with m_wire := some Examples.wireDataTyped }) :=
  ⟨by decide, by decide,
    (C35_failed_decode_keeps_fields_sets_memo SpecCodec.codecs Examples.interestAB
      Examples.wireDataTyped [⟨Tlv.Name, Examples.nameABValue⟩, ⟨Tlv.Nonce, [1, 2, 3, 4]⟩]
      (by decide) (Or.inl (by decide))).1⟩

/-- C36 on the code: for an empty chain the producer stores one final segment without
certificates; a validator with an empty certificate store that receives it for its
bundle interest reaches the completion branch and takes the first certificate of an
empty store: the read is undefined, `onData` is not invoked, and no failure is
reported. -/
theorem C36_completion_on_empty_store :
    ((BundleState.mk1 Examples.nameS).createCertBundle Examples.env 8800 1
        Examples.nameDataBundle).m_bundleSegments = [Examples.bundleSegEmpty] ∧
      Examples.afterCheckKeyBundle.m_certificates = [] ∧
      Examples.bundleSegEmpty.m_finalBlockId = some Examples.seg0 ∧
      Examples.env.componentGt Examples.seg0 Examples.seg0 = false ∧
      (Examples.afterCheckKeyBundle.run Examples.env
        [(.data 0 Examples.bundleSegEmpty, 1)]).1 = .error .undefinedRead ∧
      (Examples.afterCheckKeyBundle.run Examples.env
        [(.data 0 Examples.bundleSegEmpty, 1)]).2.m_certificates = [] ∧
      (Examples.afterCheckKeyBundle.run Examples.env
        [(.data 0 Examples.bundleSegEmpty, 1)]).2.onDataCalls = [] ∧
      (Examples.afterCheckKeyBundle.run Examples.env
        [(.data 0 Examples.bundleSegEmpty, 1)]).2.failures = [] := by
  decide

/-- C37 on the code: for the name whose only component is an implicit SHA-256 digest,
`deriveBundleName` reads `name.get(-1)`, finds a digest and reads `name.get(-2)`, a
component that does not exist. -/
theorem C37_single_digest_reads_out_of_range :
    [Examples.digestA].length = 1 ∧
      Name.get [Examples.digestA] (-1) = some Examples.digestA ∧
      Examples.digestA.isImplicitSha256Digest = true ∧
      Name.get [Examples.digestA] (-2) = none ∧
      deriveBundleName [Examples.digestA] = none := by
  decide

/-- For a name of at least two components `deriveBundleName` reads only components that
exist: it returns the name without its last two, its last one or no components. -/
theorem deriveBundleName_two (init : Name) (a b : Component) :
    deriveBundleName (init ++ [a, b]) =
      some (if b.isImplicitSha256Digest then (if a.isSegment then init else init ++ [a])
        else if b.isSegment then init ++ [a] else init ++ [a, b]) := by
  have e2 : init ++ [a, b] = (init ++ [a]) ++ [b] := by simp
  simp only [deriveBundleName]
  rw [show Name.get (init ++ [a, b]) (-1) = some b by rw [e2]; exact Name.get_last _ b,
    Name.get_secondLast, Name.getPrefix_secondLast,
    show Name.getPrefix (init ++ [a, b]) (-1) = init ++ [a] by
      rw [e2]; exact Name.getPrefix_last _ b]
  by_cases hb : b.isImplicitSha256Digest = true
  · by_cases ha : a.isSegment = true <;> simp [hb, ha]
  · by_cases hs : b.isSegment = true <;> simp [hb, hs]

/-- C40: for every name `N` of at least two components, `deriveBundleName(N)` is defined
and is `N` without its last `k` components for some `k ≤ 2`; when the last component of
`N` is neither a segment nor an implicit SHA-256 digest it is `N` itself. -/
theorem C40_deriveBundleName_drops_at_most_two (N : Name) (hlen : 2 ≤ N.length) :
    (∃ k : Nat, k ≤ 2 ∧ deriveBundleName N = some (N.take (N.length - k))) ∧
      (∀ last, Name.get N (-1) = some last → last.isSegment = false →
        last.isImplicitSha256Digest = false → deriveBundleName N = some N) := by
  obtain ⟨init, a, b, rfl⟩ := Name.exists_concat_two N hlen
  have e2 : init ++ [a, b] = (init ++ [a]) ++ [b] := by simp
  have htake : List.take ((init ++ [a, b]).length - 1) (init ++ [a, b]) = init ++ [a] := by
    have hl : (init ++ [a, b]).length - 1 = (init ++ [a]).length := by simp
    rw [hl, e2]
    exact List.take_left' rfl
  rw [deriveBundleName_two]
  constructor
  · by_cases hb : b.isImplicitSha256Digest = true
    · by_cases ha : a.isSegment = true
      · exact ⟨2, le_refl _, by simp [hb, ha]⟩
      · refine ⟨1, by omega, ?_⟩
        simp only [hb, ha, if_true, Bool.false_eq_true, if_false, Option.some.injEq]
        exact htake.symm
    · by_cases hs : b.isSegment = true
      · refine ⟨1, by omega, ?_⟩
        simp only [hb, hs, if_true, Bool.false_eq_true, if_false, Option.some.injEq]
        exact htake.symm
      · exact ⟨0, by omega, by simp [hb, hs]⟩
  · intro last hlast hseg hdig
    rw [e2, Name.get_last] at hlast
    simp only [Option.some.injEq] at hlast
    subst hlast
    simp [hseg, hdig]

/-- C40 on the data names of the examples: `/s/v/Data/v=1` is returned unchanged, and
`/s/v/Data/v=1/seg=3/digest` loses its last two components. -/
theorem C40_deriveBundleName_drops_at_most_two_witness :
    2 ≤ Examples.nameDataV1.length ∧
      Name.get Examples.nameDataV1 (-1) = some Examples.v1 ∧
      deriveBundleName Examples.nameDataV1 = some Examples.nameDataV1 ∧
      deriveBundleName Examples.nameDataSegDigest = some Examples.nameDataV1 :=
  ⟨by decide, by decide,
    (C40_deriveBundleName_drops_at_most_two Examples.nameDataV1 (by decide)).2 Examples.v1 (by decide)
      (by decide) (by decide),
    by decide⟩

/-! ## The connection flag after an error -/

/-- C39 on the code: a connected transport gets a receive error. The handler closes the
socket and raises, and it sets `isConnected_` to true, not false; a block sent
afterwards goes to `async_send` on the closed socket and is not queued. The same holds
after the overflow of the partial data. The method `close()` sets the flag to false. -/
theorem C39_flag_true_after_error :
    (UnixTransport.connected.handle_async_receive 1 []).1 =
        .error "error while receiving data from socket" ∧
      (UnixTransport.connected.handle_async_receive 1 []).2.socketOpen = false ∧
      (UnixTransport.connected.handle_async_receive 1 []).2.isConnected_ = true ∧
      ((UnixTransport.connected.handle_async_receive 1 []).2.send ⟨5, [7, 0]⟩).socketSent =
        [⟨5, [7, 0]⟩] ∧
      ((UnixTransport.connected.handle_async_receive 1 []).2.send ⟨5, [7, 0]⟩).sendQueue_ =
        [] ∧
      (UnixTransport.connected.receiveAll [Examples.chunkThenOversized, [1, 2]]).1 =
        .error "input buffer full, but a valid TLV cannot be decoded" ∧
      (UnixTransport.connected.receiveAll [Examples.chunkThenOversized, [1, 2]]).2.socketOpen =
        false ∧
      (UnixTransport.connected.receiveAll
        [Examples.chunkThenOversized, [1, 2]]).2.isConnected_ = true ∧
      UnixTransport.connected.close.isConnected_ = false ∧
      (UnixTransport.connected.close.send ⟨5, [7, 0]⟩).sendQueue_ = [⟨5, [7, 0]⟩] := by
  decide!

/-! ## The bound of the partial data -/

/-- The offset that `processAll` reaches never exceeds the available size. -/
theorem UnixTransport.processAll_offset_le (buffer : List Nat) :
    ∀ (fuel offset : Nat) (received : List (List Nat)), offset ≤ buffer.length →
      (UnixTransport.processAll fuel buffer offset received).2.1 ≤ buffer.length := by
  intro fuel
  induction fuel with
  | zero =>
    intro offset received h
    simp only [UnixTransport.processAll]
    split_ifs <;> exact h
  | succ fuel ih =>
    intro offset received h
    simp only [UnixTransport.processAll]
    split_ifs with ho
    · cases hel : Block.fromBuffer (buffer.drop offset) with
      | error e => exact h
      | ok element =>
        have hl := (Block.fromBuffer_length hel).2
        rw [List.length_drop] at hl
        exact ih (offset + element.length) (received ++ [element]) (by omega)
    · exact h

/-- One call of `handle_async_receive` keeps the partial data within `MAX_LENGTH`. -/
theorem UnixTransport.handle_async_receive_bound (t : UnixTransport) (error : Nat)
    (input : List Nat) (hp : t.partialData_.length ≤ MAX_LENGTH)
    (hin : input.length ≤ MAX_LENGTH) :
    (t.handle_async_receive error input).2.partialData_.length ≤ MAX_LENGTH := by
  have happ : (t.partialData_ ++
      input.take (min input.length (MAX_LENGTH - t.partialData_.length))).length ≤
      MAX_LENGTH := by
    rw [List.length_append, List.length_take]
    omega
  have hdrop : ∀ n : Nat, (input.drop n).length ≤ MAX_LENGTH := by
    intro n
    rw [List.length_drop]
    omega
  unfold UnixTransport.handle_async_receive
  simp only [UnixTransport.partialDataSize_]
  split
  · exact hp
  · split
    all_goals
      rename_i heq
      revert heq
      repeat' split
      all_goals
        intro heq
        first
          | (exfalso; revert heq; simp; done)
          | (obtain ⟨_, rfl⟩ := Prod.mk.inj heq
             first
               | exact hp
               | exact happ
               | exact hdrop _
               | exact Nat.zero_le _
               | (simp only [List.length_drop]; omega))

theorem UnixTransport.receiveAll_bound :
    ∀ (chunks : List (List Nat)) (t : UnixTransport),
      t.partialData_.length ≤ MAX_LENGTH → (∀ c ∈ chunks, c.length ≤ MAX_LENGTH) →
      (t.receiveAll chunks).2.partialData_.length ≤ MAX_LENGTH := by
  intro chunks
  induction chunks with
  | nil =>
    intro t hp _
    exact hp
  | cons c rest ih =>
    intro t hp hc
    have h1 := UnixTransport.handle_async_receive_bound t 0 c hp
      (hc c (List.mem_cons_self _ _))
    simp only [UnixTransport.receiveAll]
    cases hr : t.handle_async_receive 0 c with
    | mk r t2 =>
      rw [hr] at h1
      cases r with
      | error e => exact h1
      | ok u => exact ih t2 h1 (fun x hx => hc x (List.mem_cons_of_mem _ hx))

/-- C38: the partial data never exceeds `MAX_LENGTH` = 9000 bytes. A successful
`connectHandler` leaves none; every call of `handle_async_receive` with a chunk of at
most 9000 bytes, with or without a socket error, on a state within the bound leaves a
state within the bound, and so does every sequence of such calls. The sizes the copies
use stay inside the arrays: the bytes appended to the partial data end within 9000 and
are taken from the received ones, the bytes left over for the second copy are at most
9000, and the offset that `processAll` reaches, which is subtracted from the size it
was given, never exceeds that size. -/
theorem C38_partial_data_bound (t : UnixTransport) (error : Nat) (input : List Nat)
    (chunks : List (List Nat)) (hp : t.partialData_.length ≤ MAX_LENGTH)
    (hin : input.length ≤ MAX_LENGTH) (hchunks : ∀ c ∈ chunks, c.length ≤ MAX_LENGTH) :
    MAX_LENGTH = 9000 ∧
      (∀ t0 : UnixTransport, (t0.connectHandler 0).2.partialData_.length = 0) ∧
      (t.handle_async_receive error input).2.partialData_.length ≤ MAX_LENGTH ∧
      (t.receiveAll chunks).2.partialData_.length ≤ MAX_LENGTH ∧
      t.partialDataSize_ + min input.length (MAX_LENGTH - t.partialDataSize_) ≤ MAX_LENGTH ∧
      min input.length (MAX_LENGTH - t.partialDataSize_) ≤ input.length ∧
      input.length - min input.length (MAX_LENGTH - t.partialDataSize_) ≤ MAX_LENGTH ∧
      (∀ (buffer : List Nat) (received : List (List Nat)),
        (UnixTransport.processAll buffer.length buffer 0 received).2.1 ≤ buffer.length) := by
  refine ⟨rfl, ?_, UnixTransport.handle_async_receive_bound t error input hp hin,
    UnixTransport.receiveAll_bound chunks t hp hchunks, ?_, ?_, ?_, ?_⟩
  · intro t0
    simp [UnixTransport.connectHandler, UnixTransport.foldl_socketSent]
  · simp only [UnixTransport.partialDataSize_]
    omega
  · omega
  · omega
  · intro buffer received
    exact UnixTransport.processAll_offset_le buffer buffer.length 0 received (Nat.zero_le _)

/-- C38 on a connected transport that receives an element and the start of a second
one, and then its rest and a third element. -/
theorem C38_partial_data_bound_witness :
    UnixTransport.connected.partialData_.length ≤ MAX_LENGTH ∧
      [5, 3, 1, 2, 3, 6, 2, 9].length ≤ MAX_LENGTH ∧
      (∀ c ∈ [[5, 3, 1, 2, 3, 6, 2, 9], [9, 7, 0]], c.length ≤ MAX_LENGTH) ∧
      (UnixTransport.connected.handle_async_receive 0
        [5, 3, 1, 2, 3, 6, 2, 9]).2.partialData_ = [6, 2, 9] ∧
      (UnixTransport.connected.receiveAll
        [[5, 3, 1, 2, 3, 6, 2, 9], [9, 7, 0]]).2.partialData_.length ≤ MAX_LENGTH :=
  ⟨by decide, by decide, by decide, by decide,
    (C38_partial_data_bound UnixTransport.connected 0 [5, 3, 1, 2, 3, 6, 2, 9]
      [[5, 3, 1, 2, 3, 6, 2, 9], [9, 7, 0]] (by decide) (by decide) (by decide)).2.2.2.1⟩

end ndn
